import Mathlib

/-!
# Syniverse Messaging C++ SDK: paginated, authenticated resource access

A shallow embedding of the generic resource layer of the SDK
(`include/scgapi/AuthInfo.h`, `include/scgapi/AsyncForwardList.h`,
`include/scgapi/ResourceImpl.h`, `include/scgapi/BaseData.h`, the data
classes of `include/scgapi/Contact.h`, and the lists below a record of
`include/scgapi/MessageRequest.h` and `include/scgapi/ContactGroup.h`) and
theorems about it.

Conventions of the embedding.

* C++ `int` and `std::int64_t` values are Lean `Int`s; a conversion or an
  addition that can leave the range of its C++ type is written with
  `wrapInt32` / `wrapInt64` (two's complement wrap).
* A `std::unique_ptr` is an `Option` (`none` is the null pointer); a raw
  pointer or `std::weak_ptr` to a resource is the address of the resource.
* An exception is a value of `Exception`; code that can throw returns an
  `Except` together with the state it leaves behind.
* The HTTP transport and the JSON (de)serialiser are libraries outside the
  repository; they are parameters (`Externals`, `Serializer`, `fetch_fn_t`).
* The use a method makes of the mutex of `AuthInfo` is the sequence of its
  lock operations and token accesses (`TokenStep`).
-/

namespace scg_api

/-! ## Machine integers -/

/-- Value of a mathematical integer after conversion to a 32 bit signed `int`. -/
def wrapInt32 (x : Int) : Int := (x + 2147483648) % 4294967296 - 2147483648

/-- Value of a mathematical integer after conversion to `std::int64_t`. -/
def wrapInt64 (x : Int) : Int :=
  (x + 9223372036854775808) % 18446744073709551616 - 9223372036854775808

/-! ## Data carried by replies and exceptions (`ResourceImpl.h`) -/

/-- The struct `ListParameters`. -/
structure ListParameters where
  start_offset : Int
  page_size : Int
  sort : String
  deriving DecidableEq, Repr

/-- The struct `GenericError`. -/
structure GenericError where
  error_code : Int
  error_description : String
  deriving DecidableEq, Repr

/-- The struct `AccessToken`. -/
structure AccessToken where
  accessToken : String
  validityTime : Int
  deriving DecidableEq, Repr

/-- The exceptions that travel through the resource layer.  The first three
are the classes of `ResourceImpl.h`; `AuthenticationException` and
`NotFoundException` derive from `ServerErrorException`, and none of them is
caught by a handler for another one of the three except through that base
class.  `runtime_error` is the plain `std::runtime_error` thrown by
`DealWithErrors`; `library_error` is whatever the transport or the JSON
deserialiser throws. -/
inductive Exception where
  | ServerErrorException (err : GenericError)
  | NotFoundException (err : GenericError)
  | AuthenticationException (err : GenericError)
  | runtime_error (what : String)
  | library_error (what : String)
  deriving DecidableEq, Repr

/-- What ends a call abnormally: a thrown exception, a failed `assert`, or
the use of a null or dangling pointer (undefined behaviour in C++). -/
inductive Failure where
  | thrown (e : Exception)
  | assert_failed
  | bad_pointer
  deriving DecidableEq, Repr

deriving instance DecidableEq for Except

/-! ## `AsyncForwardList.h` -/

/-- The struct `ListReturnMapper<T>`: one page of a list reply. -/
structure ListReturnMapper (T : Type) where
  list : List T
  limit : Int
  total : Int
  deriving DecidableEq, Repr

/-- The type `fetch_fn_t`, `std::function<list_t(int offset)>`: a closure with
captured state `σ` that receives an `int` and returns a (possibly null)
page, or throws. -/
abbrev fetch_fn_t (T σ : Type) : Type :=
  σ → Int → Except Exception (Option (ListReturnMapper T)) × σ

/-- The data members of `AsyncForwardList<T>`.  `fetch_fn_` itself never
changes after construction and is passed to the operations; `fetch_env_` is
the state its closure captured, and `fetched_` records, oldest first, the
argument of every invocation of `fetch_fn_` (a trace, not a member of the
C++ class). -/
structure AsyncForwardList (T σ : Type) where
  list_ : Option (ListReturnMapper T)
  offset_ : Int
  current_ : Int
  reached_end_ : Bool
  pages_fected_ : Nat
  fetch_env_ : σ
  fetched_ : List Int
  deriving DecidableEq, Repr

namespace AsyncForwardList

variable {T σ : Type}

/-- The constructor `AsyncForwardList(fetch_fn, start_offset = 0)`. -/
def mk_ (env : σ) (start_offset : Int) : AsyncForwardList T σ :=
  { list_ := none, offset_ := start_offset, current_ := 0, reached_end_ := false,
    pages_fected_ := 0, fetch_env_ := env, fetched_ := [] }

/-- The method `HaveCurrent()`. -/
def HaveCurrent (s : AsyncForwardList T σ) : Bool :=
  !s.reached_end_ &&
    (match s.list_ with
     | none => false
     | some l => decide (wrapInt64 (l.list.length : Int) > s.current_))

/-- The method `Ended()`. -/
def Ended (s : AsyncForwardList T σ) : Bool := s.reached_end_

/-- The method `GetPagesFetched()`. -/
def GetPagesFetched (s : AsyncForwardList T σ) : Nat := s.pages_fected_

/-- The private method `Fetch()`.  The 64 bit `offset_` is converted to the
`int` parameter of `fetch_fn_t` at the call. -/
def Fetch (fetch_fn_ : fetch_fn_t T σ) (s : AsyncForwardList T σ) :
    Except Failure Unit × AsyncForwardList T σ :=
  let s1 := { s with offset_ := wrapInt64 (s.offset_ + s.current_), current_ := 0 }
  let arg := wrapInt32 s1.offset_
  match fetch_fn_ s1.fetch_env_ arg with
  | (Except.error e, env) =>
      (Except.error (Failure.thrown e),
        { s1 with fetch_env_ := env, fetched_ := s1.fetched_ ++ [arg] })
  | (Except.ok l, env) =>
      let s2 := { s1 with list_ := l, fetch_env_ := env, fetched_ := s1.fetched_ ++ [arg] }
      if !s2.HaveCurrent then
        (Except.ok (), { s2 with reached_end_ := true, list_ := none })
      else
        (Except.ok (), { s2 with pages_fected_ := s2.pages_fected_ + 1 })

/-- The method `begin()`: it fetches, and the iterator it returns is the
list itself (the iterator only holds a reference to its parent). -/
def begin_ (fetch_fn_ : fetch_fn_t T σ) (s : AsyncForwardList T σ) :
    Except Failure Unit × AsyncForwardList T σ :=
  Fetch fetch_fn_ s

/-- The method `GetCurrent()`: `assert(HaveCurrent())`, then
`list_->list[current_]`.  An index outside the vector is undefined behaviour
in C++; it is reported like a failed assertion. -/
def GetCurrent (s : AsyncForwardList T σ) : Except Failure T :=
  if s.HaveCurrent then
    match s.list_ with
    | none => Except.error Failure.assert_failed
    | some l =>
        if s.current_ < 0 then Except.error Failure.assert_failed
        else
          match l.list[s.current_.toNat]? with
          | some x => Except.ok x
          | none => Except.error Failure.assert_failed
  else Except.error Failure.assert_failed

/-- The method `Next()`.  Its `assert(HaveCurrent())` is taken as enabled;
without a current record the increment would work on a null or exhausted
page. -/
def Next (fetch_fn_ : fetch_fn_t T σ) (s : AsyncForwardList T σ) :
    Except Failure Unit × AsyncForwardList T σ :=
  if s.HaveCurrent then
    match s.list_ with
    | none => (Except.error Failure.assert_failed, s)
    | some l =>
        let s1 := { s with current_ := wrapInt64 (s.current_ + 1) }
        if s1.current_ ≥ wrapInt64 (l.list.length : Int) then
          if l.total ≤ wrapInt64 (s1.offset_ + s1.current_) then
            (Except.ok (), { s1 with reached_end_ := true })
          else
            Fetch fetch_fn_ s1
        else (Except.ok (), s1)
  else (Except.error Failure.assert_failed, s)

/-- The loop of `ToContainer()`, `for (auto& obj : *this) cont.push_back(obj)`,
after `begin()`: while the iterator differs from `end()` (that is, while the
parent has not `Ended()`), take `*it`, then `++it`.  `none` means the fuel
ran out before the loop ended. -/
def ToContainerLoop (fetch_fn_ : fetch_fn_t T σ) :
    Nat → AsyncForwardList T σ → List T →
      Option (Except Failure (List T) × AsyncForwardList T σ)
  | 0, _, _ => none
  | fuel + 1, s, cont =>
      if s.Ended then some (Except.ok cont, s)
      else
        match s.GetCurrent with
        | Except.error f => some (Except.error f, s)
        | Except.ok obj =>
            match Next fetch_fn_ s with
            | (Except.error f, s1) => some (Except.error f, s1)
            | (Except.ok (), s1) => ToContainerLoop fetch_fn_ fuel s1 (cont ++ [obj])

/-- The method `ToContainer()`, with the number of loop iterations bounded by
`fuel`. -/
def ToContainer (fetch_fn_ : fetch_fn_t T σ) (fuel : Nat) (s : AsyncForwardList T σ) :
    Option (Except Failure (List T) × AsyncForwardList T σ) :=
  match begin_ fetch_fn_ s with
  | (Except.error f, s1) => some (Except.error f, s1)
  | (Except.ok (), s1) => ToContainerLoop fetch_fn_ fuel s1 []

/-- The nested class `AsyncForwardIterator`: a reference to the parent list
and the flag `end_`.  The parent is passed to its operations. -/
structure AsyncForwardIterator where
  end_ : Bool
  deriving DecidableEq, Repr

/-- The iterator that `begin()` returns, `AsyncForwardIterator(*this, false)`. -/
def beginIterator : AsyncForwardIterator := { end_ := false }

/-- The method `end()`, `AsyncForwardIterator(*this, true)`. -/
def endIterator : AsyncForwardIterator := { end_ := true }

/-- The private method `AsyncForwardIterator::Ended()`. -/
def AsyncForwardIterator.Ended (it : AsyncForwardIterator) (parent : AsyncForwardList T σ) :
    Bool :=
  it.end_ || parent.Ended

/-- The comparison `AsyncForwardIterator::operator==`. -/
def AsyncForwardIterator.eq (it v : AsyncForwardIterator) (parent : AsyncForwardList T σ) :
    Bool :=
  it.Ended parent && v.Ended parent

/-- The comparison `AsyncForwardIterator::operator!=`. -/
def AsyncForwardIterator.ne (it v : AsyncForwardIterator) (parent : AsyncForwardList T σ) :
    Bool :=
  !(it.eq v parent)

/-- A call made on a list by its user. -/
inductive ListOp where
  | begin
  | next
  | toContainer (fuel : Nat)
  deriving DecidableEq, Repr

/-- The list after one call; `none` when `ToContainer()` does not finish
within its fuel. -/
def applyOp (fetch_fn_ : fetch_fn_t T σ) : ListOp → AsyncForwardList T σ →
    Option (AsyncForwardList T σ)
  | ListOp.begin, s => some (begin_ fetch_fn_ s).2
  | ListOp.next, s => some (Next fetch_fn_ s).2
  | ListOp.toContainer fuel, s => (ToContainer fetch_fn_ fuel s).map (fun r => r.2)

/-- The list after a sequence of calls. -/
def runOps (fetch_fn_ : fetch_fn_t T σ) : List ListOp → AsyncForwardList T σ →
    Option (AsyncForwardList T σ)
  | [], s => some s
  | op :: ops, s => (applyOp fetch_fn_ op s).bind (runOps fetch_fn_ ops)

/-- The pages a closure returns fit the C++ types: `total` is an `int`, and
the number of records is far below the range of the 64 bit cursor. -/
def pagesBounded (fetch_fn_ : fetch_fn_t T σ) : Prop :=
  ∀ env arg l env1, fetch_fn_ env arg = (Except.ok (some l), env1) →
    l.list.length < 4611686018427387904 ∧ l.total < 2147483648

/-- The invariant of one pass over a list (one `begin()`, then `Next()`
calls): the offsets given to the closure so far increase strictly and none
exceeds the cumulative offset; the cumulative offset is at least the least
`int` and, like the page held, within the bounds of `pagesBounded`; the
intra-page cursor is not negative. -/
def PassInvariant (s : AsyncForwardList T σ) : Prop :=
  s.fetched_.Pairwise (fun a b => a < b)
  ∧ (∀ a ∈ s.fetched_, a ≤ s.offset_)
  ∧ -2147483648 ≤ s.offset_ ∧ s.offset_ < 4611686018427387904
  ∧ 0 ≤ s.current_
  ∧ (∀ l, s.list_ = some l → l.list.length < 4611686018427387904 ∧ l.total < 2147483648)

end AsyncForwardList

/-- A deterministic list server holding the records `recs`, serving pages of
`page_size` records: the page at offset `o` has records
`o .. min (o + page_size, N) - 1` and reports `total = N`. -/
def fakePage {T : Type} (recs : List T) (page_size : Nat) (o : Nat) : ListReturnMapper T :=
  { list := (recs.drop o).take page_size,
    limit := (page_size : Int),
    total := (recs.length : Int) }

/-- The fetch function of the deterministic list server: a pure function of
the offset it is given. -/
def fakeFetch {T : Type} (recs : List T) (page_size : Nat) : fetch_fn_t T Unit :=
  fun env offset => (Except.ok (some (fakePage recs page_size offset.toNat)), env)

/-- A list over the deterministic server that holds the page at offset `o`,
has its cursor on record `c` of that page and has counted `pages` pages. -/
def fakeState {T : Type} (recs : List T) (page_size : Nat) (o c pages : Nat)
    (trace : List Int) : AsyncForwardList T Unit :=
  { list_ := some (fakePage recs page_size o), offset_ := (o : Int), current_ := (c : Int),
    reached_end_ := false, pages_fected_ := pages, fetch_env_ := (), fetched_ := trace }

/-! ## `AuthInfo.h` -/

/-- The struct `AuthInfo::Config`. -/
structure AuthInfo.Config where
  retries : Int
  key : String
  secret : String
  token : String
  appid : Int
  companyid : Int
  quotaplan : String
  transactionid : String
  deriving DecidableEq, Repr

/-- The class `AuthInfo` (its mutex is not modelled: calls are sequential). -/
structure AuthInfo where
  config_ : AuthInfo.Config
  deriving DecidableEq, Repr

namespace AuthInfo

/-- The constructor `AuthInfo(consumerKey, consumerSecret, accessToken, numRetries)`. -/
def mk_ (consumerKey consumerSecret accessToken : String) (numRetries : Int) : AuthInfo :=
  { config_ := { retries := numRetries, key := consumerKey, secret := consumerSecret,
                 token := accessToken, appid := 0, companyid := 0, quotaplan := "",
                 transactionid := "" } }

/-- The method `GetKey()`. -/
def GetKey (a : AuthInfo) : String := a.config_.key

/-- The method `GetSecret()`. -/
def GetSecret (a : AuthInfo) : String := a.config_.secret

/-- The method `GetToken()`. -/
def GetToken (a : AuthInfo) : String := a.config_.token

/-- The method `SetToken(token)`. -/
def SetToken (a : AuthInfo) (token : String) : AuthInfo :=
  { a with config_ := { a.config_ with token := token } }

/-- The method `GetRetries()`. -/
def GetRetries (a : AuthInfo) : Int := a.config_.retries

/-- The method `GetConfig()`. -/
def GetConfig (a : AuthInfo) : AuthInfo.Config := a.config_

end AuthInfo

/-! ## Requests, replies and the transport (interface of the HTTP library) -/

/-- A `std::map<std::string, std::string>`: its entries, in ascending key
order.  It is the type `filter_t`, and it stands for the type `headers_t` of
the HTTP library, a map from header name to value. -/
abbrev StringMap : Type := List (String × String)

/-- Lexicographic order on character sequences, by code point. -/
def charsLess : List Char → List Char → Bool
  | _, [] => false
  | [], _ :: _ => true
  | a :: as, b :: bs => decide (a.toNat < b.toNat) || (decide (a.toNat = b.toNat) && charsLess as bs)

/-- The key order of a `std::map<std::string, ...>`, `std::less<std::string>`:
lexicographic on the bytes of the UTF-8 encoding, which is the lexicographic
order on code points. -/
def keyLess (a b : String) : Bool := charsLess a.data b.data

/-- Assignment `m[k] = v` on a `std::map`: replaces the value of an existing
key, otherwise inserts the entry at its place in key order. -/
def StringMap.set : StringMap → String → String → StringMap
  | [], k, v => [(k, v)]
  | (k1, v1) :: rest, k, v =>
      if keyLess k k1 then (k, v) :: (k1, v1) :: rest
      else if k = k1 then (k, v) :: rest
      else (k1, v1) :: StringMap.set rest k v

/-- Lookup of a key in a `std::map`. -/
def StringMap.find : StringMap → String → Option String
  | [], _ => none
  | (k1, v1) :: rest, k => if k = k1 then some v1 else StringMap.find rest k

/-- The type `Request::args_t`: an ordered sequence of name/value pairs. -/
abbrev args_t : Type := List (String × String)

/-- The enumeration `restc_cpp::Request::Type` (the members the SDK uses). -/
inductive RequestType where
  | GET | POST | PUT | DELETE
  deriving DecidableEq, Repr

/-- What the SDK puts into a `restc_cpp::Request`: URL, method, body and the
properties (query arguments and headers) it sets. -/
structure Request where
  url : String
  type : RequestType
  body : Option String
  args : args_t
  headers : StringMap
  deriving DecidableEq, Repr

/-- The factory `Request::Create(url, type, client, body, args, headers)` with
optional arguments and headers. -/
def Request.Create (url : String) (type : RequestType) (body : Option String)
    (args : Option args_t) (headers : Option StringMap) : Request :=
  { url := url, type := type, body := body, args := args.getD [], headers := headers.getD [] }

/-- What the SDK reads from a `restc_cpp::Reply`: the response code and the body. -/
structure Reply where
  code : Int
  body : String
  deriving DecidableEq, Repr

/-- The libraries outside the repository.  `Execute history req` is the
answer of the transport to `req` after the requests of `history` (oldest
first) were executed, or the message of the exception it throws (a timeout,
a connection failure).  The two parsers are `restc_cpp::SerializeFromJson`
at the types `GenericError` and `AccessToken`; they too can throw. -/
structure Externals where
  Execute : List Request → Request → Except String Reply
  parseGenericError : Reply → Except String GenericError
  parseAccessToken : Reply → Except String AccessToken

/-- The state a resource works on through its `Session`: the shared
`AuthInfo`, and the requests executed so far, oldest first. -/
structure World where
  auth : AuthInfo
  log : List Request
  deriving DecidableEq, Repr

/-- The call `req.Execute(session_.GetContext())`. -/
def Execute (ext : Externals) (req : Request) (w : World) : Except Exception Reply × World :=
  match ext.Execute w.log req with
  | Except.ok reply => (Except.ok reply, { w with log := w.log ++ [req] })
  | Except.error what =>
      (Except.error (Exception.library_error what), { w with log := w.log ++ [req] })

/-! ## `ResourceImpl.h`: `ResourceSupport` -/

/-- The method `ResourceSupport::ToArgs(filter, lp)`; a null pointer is `none`. -/
def ToArgs (filter : Option StringMap) (lp : Option ListParameters) : Option args_t :=
  let filter : Option StringMap :=
    match lp with
    | none => filter
    | some lp =>
        if lp.page_size ≠ 0 ∨ lp.start_offset ≠ 0 ∨ lp.sort ≠ "" then
          let my_filter : StringMap := filter.getD []
          let my_filter :=
            if lp.page_size ≠ 0 then my_filter.set "limit" (toString lp.page_size) else my_filter
          let my_filter := if lp.sort ≠ "" then my_filter.set "sort" lp.sort else my_filter
          some my_filter
        else filter
  match filter with
  | none => none
  | some f => if f ≠ [] then some f else none

/-- The method `ResourceSupport::ToHeaders(auth)`. -/
def ToHeaders (auth : AuthInfo) : Option StringMap :=
  let headers : StringMap := []
  let auth_conf := auth.GetConfig
  let headers :=
    if auth_conf.token = "" then headers.set "Authorization" ("Bearer " ++ auth_conf.token)
    else headers
  let headers :=
    if auth_conf.appid ≠ 0 then headers.set "int-appId" (toString auth_conf.appid) else headers
  let headers :=
    if auth_conf.companyid ≠ 0 then headers.set "int-companyId" (toString auth_conf.companyid)
    else headers
  let headers :=
    if auth_conf.quotaplan ≠ "" then headers.set "int-quota-plan" auth_conf.quotaplan
    else headers
  let headers :=
    if auth_conf.transactionid ≠ "" then headers.set "int-txnId" auth_conf.transactionid
    else headers
  let headers := headers.set "Accept" "*/*"
  let headers := headers.set "Accept-Encoding" "identity"
  some headers

/-- The method `ResourceSupport::SetOrReplaceArg(args, name, value)`. -/
def SetOrReplaceArg (args : args_t) (name value : String) : args_t :=
  let replaced := args.map (fun a => if a.1 = name then (a.1, value) else a)
  if args.any (fun a => decide (a.1 = name)) then replaced else replaced ++ [(name, value)]

/-- The method `ResourceSupport::DealWithErrors(reply)`. -/
def DealWithErrors (ext : Externals) (reply : Reply) : Except Exception Unit :=
  let response_code := reply.code
  if response_code < 300 then Except.ok ()
  else if response_code = 401 then
    Except.error (Exception.AuthenticationException
      { error_code := response_code, error_description := reply.body })
  else if response_code ≥ 400 then
    match ext.parseGenericError reply with
    | Except.error what => Except.error (Exception.library_error what)
    | Except.ok error =>
        if response_code = 404 then Except.error (Exception.NotFoundException error)
        else Except.error (Exception.ServerErrorException error)
  else
    Except.error (Exception.runtime_error
      ("Request failed - got unexpected HTTP code " ++ toString response_code))

/-! ## `ResourceImpl.h`: `ResourceImpl<dataT>` -/

/-- The URL of the token refresh endpoint. -/
def refreshUrl : String := "https://api.syniverse.com/saop-rest-data/v1/apptoken-refresh"

/-- The request built by `RefreshToken()`. -/
def refreshRequest (auth : AuthInfo) : Request :=
  Request.Create refreshUrl RequestType.GET none
    (some [("consumerkey", auth.GetKey), ("consumersecret", auth.GetSecret),
           ("oldtoken", auth.GetToken)])
    none

/-- The method `ResourceImpl::RefreshToken()`. -/
def RefreshToken (ext : Externals) (w : World) : Except Exception Bool × World :=
  match Execute ext (refreshRequest w.auth) w with
  | (Except.error e, w1) => (Except.error e, w1)
  | (Except.ok reply, w1) =>
      match DealWithErrors ext reply with
      | Except.error e => (Except.error e, w1)
      | Except.ok () =>
          match ext.parseAccessToken reply with
          | Except.error what => (Except.error (Exception.library_error what), w1)
          | Except.ok access_token =>
              if access_token.accessToken ≠ "" then
                (Except.ok true, { w1 with auth := w1.auth.SetToken access_token.accessToken })
              else (Except.ok false, w1)

/-- Executing a request leaves the credential alone. -/
theorem Execute_auth (ext : Externals) (req : Request) (w : World) :
    (Execute ext req w).2.auth = w.auth := by
  unfold Execute
  split <;> rfl

/-- A token refresh never changes the retry budget of the credential. -/
theorem RefreshToken_retries (ext : Externals) (w : World) :
    (RefreshToken ext w).2.auth.GetRetries = w.auth.GetRetries := by
  have h := Execute_auth ext (refreshRequest w.auth) w
  unfold RefreshToken
  split
  · rename_i heq; rw [heq] at h; simpa using congrArg AuthInfo.GetRetries h
  · rename_i heq
    rw [heq] at h
    have h3 := congrArg AuthInfo.GetRetries h
    repeat' split
    all_goals exact h3

/-- The request after `props->headers["Authorization"] = "Bearer " + token`
and `req.SetProperties(props)`. -/
def withBearer (req : Request) (token : String) : Request :=
  { req with headers := req.headers.set "Authorization" ("Bearer " ++ token) }

/-- The loop of `ResourceImpl::DealWithErrorsAndAuth(req)`, entered with the
loop counter `retries`.  `req` is passed by reference and its properties are
replaced before a replay, so the request is returned with the outcome.  The
counter cannot overflow: it is incremented only while it is below
`GetRetries()`, an `int`. -/
def DealWithErrorsAndAuthLoop (ext : Externals) (retries : Int) (req : Request) (w : World) :
    Except Exception Reply × Request × World :=
  match _hexec : Execute ext req w with
  | (Except.error e, w1) => (Except.error e, req, w1)
  | (Except.ok reply, w1) =>
      match DealWithErrors ext reply with
      | Except.ok () => (Except.ok reply, req, w1)
      | Except.error (Exception.AuthenticationException err) =>
          if _hge : retries ≥ w1.auth.GetRetries then
            (Except.error (Exception.AuthenticationException err), req, w1)
          else
            match _hrefresh : RefreshToken ext w1 with
            | (Except.error e, w2) => (Except.error e, req, w2)
            | (Except.ok true, w2) =>
                DealWithErrorsAndAuthLoop ext (retries + 1) (withBearer req w2.auth.GetToken) w2
            | (Except.ok false, w2) => DealWithErrorsAndAuthLoop ext (retries + 1) req w2
      | Except.error e => (Except.error e, req, w1)
termination_by (w.auth.GetRetries - retries).toNat
decreasing_by
  all_goals
    have h1 : w1.auth = w.auth := by
      have h := Execute_auth ext req w
      rw [_hexec] at h
      exact h
    have h2 : w2.auth.GetRetries = w1.auth.GetRetries := by
      have h := RefreshToken_retries ext w1
      rw [_hrefresh] at h
      exact h
    have h3 : w1.auth.GetRetries = w.auth.GetRetries := by rw [h1]
    omega

/-- The method `ResourceImpl::DealWithErrorsAndAuth(req)`. -/
def DealWithErrorsAndAuth (ext : Externals) (req : Request) (w : World) :
    Except Exception Reply × Request × World :=
  DealWithErrorsAndAuthLoop ext 0 req w

/-- The method `ResourceImpl::DeleteUrl_(url)`.  The reply body is read and
thrown away. -/
def DeleteUrl_ (ext : Externals) (url : String) (w : World) : Except Exception Unit × World :=
  let headers := ToHeaders w.auth
  let req := Request.Create url RequestType.DELETE none none headers
  match Execute ext req w with
  | (Except.error e, w1) => (Except.error e, w1)
  | (Except.ok _, w1) => (Except.ok (), w1)

/-- The method `ResourceImpl::Delete_(id)`. -/
def Delete_ (ext : Externals) (resource_url_ : String) (id : String) (w : World) :
    Except Exception Unit × World :=
  DeleteUrl_ ext (resource_url_ ++ "/" ++ id) w

/-- The state of the closure returned by `List_`: its own copy of `args`
(the lambda is `mutable`) and, through `this`, the world of the resource. -/
structure ListEnv where
  args : Option args_t
  world : World
  deriving DecidableEq, Repr

/-- The closure that `ResourceImpl::List_` binds into the `AsyncForwardList`,
for captured `headers` and the resource URL.  `parseList` is
`restc_cpp::SerializeFromJson` at the page type (with the field mapping of the
resource); binding the records back to the resource does not change the
page. -/
def List_fetch {T : Type} (ext : Externals) (parseList : Reply → Except String (ListReturnMapper T))
    (resource_url_ : String) (headers : Option StringMap) : fetch_fn_t T ListEnv :=
  fun env offset =>
    let args : Option args_t :=
      if offset ≠ 0 then
        some (SetOrReplaceArg (env.args.getD []) "offset" (toString offset))
      else env.args
    let req := Request.Create resource_url_ RequestType.GET none args headers
    match DealWithErrorsAndAuth ext req env.world with
    | (Except.error e, _, w1) => (Except.error e, { args := args, world := w1 })
    | (Except.ok reply, _, w1) =>
        match parseList reply with
        | Except.error what =>
            (Except.error (Exception.library_error what), { args := args, world := w1 })
        | Except.ok rval => (Except.ok (some rval), { args := args, world := w1 })

/-- The method `ResourceImpl::List_(filter, lp)`: the fetch closure, with the
headers and arguments built at the call. -/
def List_fetch_fn {T : Type} (ext : Externals)
    (parseList : Reply → Except String (ListReturnMapper T)) (resource_url_ : String)
    (w : World) : fetch_fn_t T ListEnv :=
  List_fetch ext parseList resource_url_ (ToHeaders w.auth)

/-- The method `ResourceImpl::List_(filter, lp)`: the list it returns, not
yet started. -/
def List_ {T : Type} (filter : Option StringMap) (lp : Option ListParameters) (w : World) :
    AsyncForwardList T ListEnv :=
  let args := ToArgs filter lp
  let start_offset : Int :=
    match lp with
    | some lp => lp.start_offset
    | none => 0
  AsyncForwardList.mk_ { args := args, world := w } start_offset

/-! ## `ResourceImpl.h`: the writing operations -/

/-- The type `restc_cpp::JsonFieldMapping` as the SDK uses it: pairs of a
member name and its name on the wire. -/
abbrev JsonFieldMapping : Type := List (String × String)

/-- The type `restc_cpp::excluded_names_t`, a `std::set<std::string>`. -/
abbrev excluded_names_t : Type := List String

/-- The serialiser of the HTTP library,
`RequestBuilder::Data(object, mappings, ro_names)`: the request body it
produces for an object. -/
abbrev Serializer (objectT : Type) : Type :=
  objectT → Option JsonFieldMapping → Option excluded_names_t → String

/-- A `ResourceImpl<dataT>` object: the URL of the collection and the results
of the two virtual methods a resource class may override (both return a null
pointer by default).  The session is the `World` passed to the operations. -/
structure ResourceImpl where
  resource_url_ : String
  GetReadOnlyNames : Option excluded_names_t
  GetJsonFieldMapping : Option JsonFieldMapping
  deriving DecidableEq, Repr

/-- The method `ResourceImpl::DoPost(object, url)`. -/
def DoPost {objectT : Type} (ext : Externals) (serialize : Serializer objectT)
    (res : ResourceImpl) (object : objectT) (url : String) (w : World) :
    Except Exception Reply × Request × World :=
  let mappings := res.GetJsonFieldMapping
  let ro_names := res.GetReadOnlyNames
  let request : Request :=
    { url := url, type := RequestType.POST, body := some (serialize object mappings ro_names),
      args := [], headers := (ToHeaders w.auth).getD [] }
  DealWithErrorsAndAuth ext request w

/-- The method `ResourceImpl::Update_(object)`; `id_of` reads the member `id`
of the data class.  The reply is dropped. -/
def Update_ {dataT : Type} (ext : Externals) (serialize : Serializer dataT)
    (res : ResourceImpl) (id_of : dataT → String) (object : dataT) (w : World) :
    Except Exception Unit × World :=
  let url := res.resource_url_ ++ "/" ++ id_of object
  let r := DoPost ext serialize res object url w
  (r.1.map (fun _ => ()), r.2.2)

/-! ## `BaseData.h` and the data classes of `Contact.h` -/

/-- The resource objects that are alive, by address.  A `Resource*` is an
address (`none` is the null pointer); a `std::weak_ptr<int>` observing the
member `exists_` of a resource is the address of that resource (`none` is an
empty `weak_ptr`).  Addresses are not reused. -/
abbrev Resources : Type := Nat → Option ResourceImpl

/-- The call `res_exists_.expired()`. -/
def weakExpired (resources : Resources) (res_exists_ : Option Nat) : Bool :=
  match res_exists_ with
  | none => true
  | some a => (resources a).isNone

/-- The use `res_->` of a raw resource pointer: the object it points to, when
the pointer is not null and the object is alive. -/
def derefResource (resources : Resources) (res_ : Option Nat) : Except Failure ResourceImpl :=
  match res_ with
  | none => Except.error Failure.bad_pointer
  | some a =>
      match resources a with
      | none => Except.error Failure.bad_pointer
      | some res => Except.ok res

/-- The method `BaseData::VerifyForOperations_(id)`. -/
def BaseData.VerifyForOperations_ (resources : Resources) (res_exists_ : Option Nat)
    (id : String) : Except Exception Unit :=
  if id = "" then
    Except.error (Exception.runtime_error "This object is not initialized for operations")
  else if weakExpired resources res_exists_ then
    Except.error (Exception.runtime_error "This object\x27s resource has expired")
  else Except.ok ()

/-- The class `Contact`: its member `id`, its other data members as
name/value pairs, the pointer `res_` and the inherited `res_exists_`. -/
structure Contact where
  id : String
  data : List (String × String)
  res_ : Option Nat
  res_exists_ : Option Nat
  deriving DecidableEq, Repr

namespace Contact

/-- The method `Contact::SetResource(res)`, for a resource that is alive. -/
def SetResource (c : Contact) (res : Nat) : Contact :=
  { c with res_ := some res, res_exists_ := some res }

/-- The method `Contact::VerifyForOperations()`. -/
def VerifyForOperations (resources : Resources) (c : Contact) : Except Exception Unit :=
  BaseData.VerifyForOperations_ resources c.res_exists_ c.id

/-- The method `Contact::Update()`: `VerifyForOperations()`, then
`res_->Update(*this)`, which is `Update_(*this)`. -/
def Update (ext : Externals) (serialize : Serializer Contact) (resources : Resources)
    (c : Contact) (w : World) : Except Failure Unit × World :=
  match c.VerifyForOperations resources with
  | Except.error e => (Except.error (Failure.thrown e), w)
  | Except.ok () =>
      match derefResource resources c.res_ with
      | Except.error f => (Except.error f, w)
      | Except.ok res =>
          let r := Update_ ext serialize res Contact.id c w
          (r.1.mapError Failure.thrown, r.2)

/-- The method `Contact::Delete()`: `VerifyForOperations()`, then
`res_->Delete(id)`, which is `Delete_(id)`. -/
def Delete (ext : Externals) (resources : Resources) (c : Contact) (w : World) :
    Except Failure Unit × World :=
  match c.VerifyForOperations resources with
  | Except.error e => (Except.error (Failure.thrown e), w)
  | Except.ok () =>
      match derefResource resources c.res_ with
      | Except.error f => (Except.error f, w)
      | Except.ok res =>
          let r := Delete_ ext res.resource_url_ c.id w
          (r.1.mapError Failure.thrown, r.2)

/-- The nested class `Contact::ApplicationToken`. -/
structure ApplicationToken where
  message_delivery_provider : String
  sender_id_address : String
  token : String
  version_number : Int
  id : String
  application_id : Int
  created_date : Int
  last_update_date : Int
  res_ : Option Nat
  res_exists_ : Option Nat
  deriving DecidableEq, Repr

/-- The method `ApplicationToken::SetResource(res)`: it stores the pointer
only. -/
def ApplicationToken.SetResource (t : ApplicationToken) (res : Nat) : ApplicationToken :=
  { t with res_ := some res }

/-- The method `ApplicationToken::VerifyForOperations()`. -/
def ApplicationToken.VerifyForOperations (t : ApplicationToken) : Except Exception Unit :=
  if t.res_ = none ∨ t.id = "" then
    Except.error (Exception.runtime_error "This object is not initialized for operations")
  else Except.ok ()

/-- The method `ApplicationToken::Delete()`: `VerifyForOperations()`, then
`res_->Delete(id)`. -/
def ApplicationToken.Delete (ext : Externals) (resources : Resources) (t : ApplicationToken)
    (w : World) : Except Failure Unit × World :=
  match t.VerifyForOperations with
  | Except.error e => (Except.error (Failure.thrown e), w)
  | Except.ok () =>
      match derefResource resources t.res_ with
      | Except.error f => (Except.error f, w)
      | Except.ok res =>
          let r := Delete_ ext res.resource_url_ t.id w
          (r.1.mapError Failure.thrown, r.2)

/-- The nested class `Contact::AccessToken`. -/
structure AccessToken where
  duration : Int
  version_number : Int
  id : String
  expiry_time : Int
  application_id : Int
  created_date : Int
  last_update_date : Int
  res_ : Option Nat
  res_exists_ : Option Nat
  deriving DecidableEq, Repr

/-- The method `AccessToken::SetResource(res)`: it stores the pointer only. -/
def AccessToken.SetResource (t : Contact.AccessToken) (res : Nat) : Contact.AccessToken :=
  { t with res_ := some res }

/-- The method `AccessToken::VerifyForOperations()`. -/
def AccessToken.VerifyForOperations (t : Contact.AccessToken) : Except Exception Unit :=
  if t.res_ = none ∨ t.id = "" then
    Except.error (Exception.runtime_error "This object is not initialized for operations")
  else Except.ok ()

/-- The method `AccessToken::Delete()`: `VerifyForOperations()`, then
`res_->Delete(id)`. -/
def AccessToken.Delete (ext : Externals) (resources : Resources) (t : Contact.AccessToken)
    (w : World) : Except Failure Unit × World :=
  match t.VerifyForOperations with
  | Except.error e => (Except.error (Failure.thrown e), w)
  | Except.ok () =>
      match derefResource resources t.res_ with
      | Except.error f => (Except.error f, w)
      | Except.ok res =>
          let r := Delete_ ext res.resource_url_ t.id w
          (r.1.mapError Failure.thrown, r.2)

end Contact

/-! ## `ResourceImpl.h`: creating a record, and a list with what its closure captured -/

/-- The struct `GenericReply`: what the server answers to a create request. -/
structure GenericReply where
  id : String
  deriving DecidableEq, Repr

/-- The method `ResourceImpl::Create_(object)`; `parseGenericReply` is
`restc_cpp::SerializeFromJson` at the type `GenericReply`, which can throw. -/
def Create_ {createTypeT : Type} (ext : Externals) (serialize : Serializer createTypeT)
    (parseGenericReply : Reply → Except String GenericReply) (res : ResourceImpl)
    (object : createTypeT) (w : World) : Except Exception String × World :=
  match DoPost ext serialize res object res.resource_url_ w with
  | (Except.error e, _, w1) => (Except.error e, w1)
  | (Except.ok reply, _, w1) =>
      match parseGenericReply reply with
      | Except.error what => (Except.error (Exception.library_error what), w1)
      | Except.ok rval => (Except.ok rval.id, w1)

/-- The `list_t` that `ResourceImpl::List_` returns, with what the lambda of
its fetch closure captured besides `args`: `this` (of which it uses
`resource_url_`) and `headers`. -/
structure ListHandle (T : Type) where
  resource_url_ : String
  headers : Option StringMap
  list : AsyncForwardList T ListEnv
  deriving DecidableEq, Repr

/-- The method `List(filter, lp)` of a resource class, `return List_(filter, lp)`,
called on a resource object. -/
def ResourceImpl.List {T : Type} (res : ResourceImpl) (filter : Option StringMap)
    (lp : Option ListParameters) (w : World) : ListHandle T :=
  { resource_url_ := res.resource_url_, headers := ToHeaders w.auth, list := List_ filter lp w }

/-- The fetch closure of a list returned by `List_`. -/
def ListHandle.fetch_fn {T : Type} (ext : Externals)
    (parseList : Reply → Except String (ListReturnMapper T)) (h : ListHandle T) :
    fetch_fn_t T ListEnv :=
  List_fetch ext parseList h.resource_url_ h.headers

/-! ## `MessageRequest.h` and `ContactGroup.h`: the lists below a record -/

/-- The constructor `Message::Resource(session, url)`, with the read-only
names of the class. -/
def Message.Resource.mk_ (url : String) : ResourceImpl :=
  { resource_url_ := url, GetReadOnlyNames := some ["id"], GetJsonFieldMapping := none }

/-- The constructor `Contact::Resource(session, url)`, with the read-only
names of the class. -/
def Contact.Resource.mk_ (url : String) : ResourceImpl :=
  { resource_url_ := url,
    GetReadOnlyNames := some ["id", "application_id", "created_date", "last_update_date"],
    GetJsonFieldMapping := none }

/-- A `MessageRequest::Resource` object: its `ResourceImpl<MessageRequest>` base
and the member `message_res_`, a `std::unique_ptr<Message::Resource>` (`none`
is the null pointer). -/
structure MessageRequest.Resource where
  base : ResourceImpl
  message_res_ : Option ResourceImpl
  deriving DecidableEq, Repr

/-- The constructor `MessageRequest::Resource(session)`, for the URL of the
session. -/
def MessageRequest.Resource.mk_ (session_url : String) : MessageRequest.Resource :=
  { base :=
      { resource_url_ := session_url ++ "/scg-external-api/api/v1/messaging/message_requests",
        GetReadOnlyNames :=
          some ["id", "recipient_count", "sent_count", "delivered_count", "read_count",
                "converted_count", "canceled_count", "failed_count", "created_date",
                "last_update_date"],
        GetJsonFieldMapping := none },
    message_res_ := none }

/-- The method `MessageRequest::Resource::GetMessagesUrl(id)`. -/
def MessageRequest.Resource.GetMessagesUrl (r : MessageRequest.Resource) (id : String) :
    String :=
  r.base.resource_url_ ++ "/" ++ id ++ "/messages"

/-- The method `MessageRequest::Resource::ListMessages(id, filter, lp)`:
`message_res_` is created when it is null, then `message_res_->List(filter, lp)`.
The result is the list, and the resource object after the call. -/
def MessageRequest.Resource.ListMessages {T : Type} (r : MessageRequest.Resource) (id : String)
    (filter : Option StringMap) (lp : Option ListParameters) (w : World) :
    ListHandle T × MessageRequest.Resource :=
  let message_res_ : ResourceImpl :=
    match r.message_res_ with
    | none => Message.Resource.mk_ (r.GetMessagesUrl id)
    | some held => held
  (message_res_.List filter lp w, { r with message_res_ := some message_res_ })

/-- The `MessageRequest::Resource` objects that are alive, by address. -/
abbrev MessageRequest.Resources : Type := Nat → Option MessageRequest.Resource

/-- The class `MessageRequest`: its member `id`, the pointer `res_` and the
inherited `res_exists_`. -/
structure MessageRequest where
  id : String
  res_ : Option Nat
  res_exists_ : Option Nat
  deriving DecidableEq, Repr

/-- The method `MessageRequest::SetResource(res)`, for a resource that is alive. -/
def MessageRequest.SetResource (m : MessageRequest) (res : Nat) : MessageRequest :=
  { m with res_ := some res, res_exists_ := some res }

/-- The method `MessageRequest::ListMessages(filter, lp)`:
`VerifyForOperations()`, then `return res_->ListMessages(id, filter)`; the
third parameter of the resource method takes its default, a null pointer, and
the parameter `lp` (here `_lp`) is not used.  Returned with the list is the
resource object after the call. -/
def MessageRequest.ListMessages {T : Type} (resources : MessageRequest.Resources)
    (m : MessageRequest) (filter : Option StringMap) (_lp : Option ListParameters) (w : World) :
    Except Failure (ListHandle T × MessageRequest.Resource) :=
  match BaseData.VerifyForOperations_ (fun a => (resources a).map (fun r => r.base))
      m.res_exists_ m.id with
  | Except.error e => Except.error (Failure.thrown e)
  | Except.ok () =>
      match m.res_ with
      | none => Except.error Failure.bad_pointer
      | some a =>
          match resources a with
          | none => Except.error Failure.bad_pointer
          | some res => Except.ok (res.ListMessages m.id filter none w)

/-- A `ContactGroup::Resource` object: its `ResourceImpl<ContactGroup>` base and
the member `contact_res_`, a `std::unique_ptr<Contact::Resource>`. -/
structure ContactGroup.Resource where
  base : ResourceImpl
  contact_res_ : Option ResourceImpl
  deriving DecidableEq, Repr

/-- The constructor `ContactGroup::Resource(session)`, for the URL of the
session. -/
def ContactGroup.Resource.mk_ (session_url : String) : ContactGroup.Resource :=
  { base :=
      { resource_url_ := session_url ++ "/scg-external-api/api/v1/contact_groups",
        GetReadOnlyNames :=
          some ["id", "status", "member_count", "type", "created_date", "last_update_date",
                "application_id"],
        GetJsonFieldMapping := none },
    contact_res_ := none }

/-- The method `ContactGroup::Resource::GetContactsUrl(id)`. -/
def ContactGroup.Resource.GetContactsUrl (r : ContactGroup.Resource) (id : String) : String :=
  r.base.resource_url_ ++ "/" ++ id ++ "/contacts"

/-- The method `ContactGroup::Resource::ListContacts(id, filter, lp)`:
`contact_res_` is created when it is null, then `contact_res_->List(filter, lp)`.
The result is the list, and the resource object after the call. -/
def ContactGroup.Resource.ListContacts {T : Type} (r : ContactGroup.Resource) (id : String)
    (filter : Option StringMap) (lp : Option ListParameters) (w : World) :
    ListHandle T × ContactGroup.Resource :=
  let contact_res_ : ResourceImpl :=
    match r.contact_res_ with
    | none => Contact.Resource.mk_ (r.GetContactsUrl id)
    | some held => held
  (contact_res_.List filter lp w, { r with contact_res_ := some contact_res_ })

/-- The `ContactGroup::Resource` objects that are alive, by address. -/
abbrev ContactGroup.Resources : Type := Nat → Option ContactGroup.Resource

/-- The class `ContactGroup`: its member `id`, the pointer `res_` and the
inherited `res_exists_`. -/
structure ContactGroup where
  id : String
  res_ : Option Nat
  res_exists_ : Option Nat
  deriving DecidableEq, Repr

/-- The method `ContactGroup::ListContacts(filter, lp)`: `VerifyForOperations()`,
then `return res_->ListContacts(id, filter, lp)`. -/
def ContactGroup.ListContacts {T : Type} (resources : ContactGroup.Resources)
    (g : ContactGroup) (filter : Option StringMap) (lp : Option ListParameters) (w : World) :
    Except Failure (ListHandle T × ContactGroup.Resource) :=
  match BaseData.VerifyForOperations_ (fun a => (resources a).map (fun r => r.base))
      g.res_exists_ g.id with
  | Except.error e => Except.error (Failure.thrown e)
  | Except.ok () =>
      match g.res_ with
      | none => Except.error Failure.bad_pointer
      | some a =>
          match resources a with
          | none => Except.error Failure.bad_pointer
          | some res => Except.ok (res.ListContacts g.id filter lp w)

/-! ## `AuthInfo.h`: the accesses to the token and the mutex -/

/-- What a method does to the member `config_.token` and to `mutex_`, in
program order. -/
inductive TokenStep where
  | lock
  | unlock
  | read_token
  | write_token
  deriving DecidableEq, Repr

/-- The method `AuthInfo::GetToken()`: the `lock_guard` is taken, the token is
copied into the return value, the guard is released. -/
def AuthInfo.GetToken_steps : List TokenStep :=
  [TokenStep.lock, TokenStep.read_token, TokenStep.unlock]

/-- The method `AuthInfo::SetToken(token)`: the `lock_guard` is taken, the
token is assigned, the guard is released. -/
def AuthInfo.SetToken_steps : List TokenStep :=
  [TokenStep.lock, TokenStep.write_token, TokenStep.unlock]

/-- The method `AuthInfo::GetConfig()`, `return config_`: it returns a
reference and touches neither the token nor the mutex. -/
def AuthInfo.GetConfig_steps : List TokenStep := []

/-- The method `ResourceSupport::ToHeaders(auth)` up to its first statement,
`const auto auth_conf = auth.GetConfig()`, which copies the `Config` behind
the reference, the token with it.  After that it works on the copy. -/
def ToHeaders_steps : List TokenStep := AuthInfo.GetConfig_steps ++ [TokenStep.read_token]

/-- Every access to the token in the steps is made while the thread holds the
mutex (`held` says whether it holds it at the start). -/
def guardedFrom : Bool → List TokenStep → Bool
  | _, [] => true
  | _, TokenStep.lock :: rest => guardedFrom true rest
  | _, TokenStep.unlock :: rest => guardedFrom false rest
  | held, TokenStep.read_token :: rest => held && guardedFrom held rest
  | held, TokenStep.write_token :: rest => held && guardedFrom held rest

/-- Two threads run the steps `a` and `b` on one `AuthInfo`; `holder` is the
thread that holds the mutex (`some true` for the first).  A thread can take
the mutex only when it is free.  The result says whether some interleaving
reaches a point where one thread is about to write the token and the other
is about to read or write it: a data race. -/
def racesFrom : Nat → Option Bool → List TokenStep → List TokenStep → Bool
  | 0, _, _, _ => false
  | fuel + 1, holder, a, b =>
      let conflict : Bool :=
        match a, b with
        | TokenStep.write_token :: _, TokenStep.read_token :: _ => true
        | TokenStep.write_token :: _, TokenStep.write_token :: _ => true
        | TokenStep.read_token :: _, TokenStep.write_token :: _ => true
        | _, _ => false
      let first : Bool :=
        match a with
        | [] => false
        | TokenStep.lock :: rest => holder.isNone && racesFrom fuel (some true) rest b
        | TokenStep.unlock :: rest => racesFrom fuel none rest b
        | _ :: rest => racesFrom fuel holder rest b
      let second : Bool :=
        match b with
        | [] => false
        | TokenStep.lock :: rest => holder.isNone && racesFrom fuel (some false) a rest
        | TokenStep.unlock :: rest => racesFrom fuel none a rest
        | _ :: rest => racesFrom fuel holder a rest
      conflict || first || second

/-- Whether two methods, run by two threads on one `AuthInfo`, can race on the
token. -/
def races (a b : List TokenStep) : Bool := racesFrom (a.length + b.length + 1) none a b

/-! ## Conditions on maps, closures and lists used in the theorems -/

/-- The invariant of a `std::map`: the keys of its entries ascend strictly, so
no key occurs twice. -/
def StringMap.keysAscending (m : StringMap) : Prop :=
  m.Pairwise (fun a b => keyLess a.1 b.1 = true)

instance (m : StringMap) : Decidable m.keysAscending :=
  inferInstanceAs
    (Decidable (List.Pairwise (fun (a b : String × String) => keyLess a.1 b.1 = true) m))

/-- Following the specification of `ToArgs`: the value that the returned
arguments give to the key `k`, for the filter `f` and the list parameters
`lp`.  It is `decimal(lp.page_size)` for `limit` when the page size is not 0,
`lp.sort` for `sort` when that is not empty, and the value of `k` in `f`
otherwise. -/
def ToArgs_spec (f : Option StringMap) (lp : Option ListParameters) (k : String) :
    Option String :=
  match lp with
  | some p =>
      if k = "limit" ∧ p.page_size ≠ 0 then some (toString p.page_size)
      else if k = "sort" ∧ p.sort ≠ "" then some p.sort
      else (f.getD []).find k
  | none => (f.getD []).find k

/-- Every page the closure returns reports the total `total`, and holds a
number of records far below the range of the 64 bit cursor. -/
def AsyncForwardList.sameTotal {T σ : Type} (fetch_fn_ : fetch_fn_t T σ) (total : Int) : Prop :=
  ∀ env arg l env1, fetch_fn_ env arg = (Except.ok (some l), env1) →
    l.total = total ∧ l.list.length < 4611686018427387904

/-- The invariant of a list that is drained from the offset `start`, over a
closure that reports `total` on every page: the list has ended or has a
current record; the cursor is not negative; the cumulative offset is at
least `start` and within range; the closure was invoked at most
`offset_ - start + 1` times, and more than once only if the cumulative
offset is below `total`; the page held reports `total`. -/
def AsyncForwardList.DrainInvariant {T σ : Type} (total start : Int)
    (s : AsyncForwardList T σ) : Prop :=
  (s.reached_end_ = true ∨ s.HaveCurrent = true)
  ∧ 0 ≤ s.current_
  ∧ start ≤ s.offset_ ∧ s.offset_ < 4611686018427387904
  ∧ (s.fetched_.length : Int) ≤ s.offset_ - start + 1
  ∧ (2 ≤ s.fetched_.length → s.offset_ < total)
  ∧ (∀ l, s.list_ = some l → l.total = total ∧ l.list.length < 4611686018427387904)

/-! ## Sample inputs used to instantiate the theorems -/

/-- A credential with the given retry budget. -/
def sampleAuth (retries : Int) : AuthInfo := AuthInfo.mk_ "key" "secret" "old-token" retries

/-- A request to a resource, carrying the bearer token of `sampleAuth`. -/
def sampleRequest : Request :=
  Request.Create "https://api.example/contacts" RequestType.GET none none
    (some [("Authorization", "Bearer old-token")])

/-- A toy deserialiser: the body of the reply is the `accessToken`. -/
def bodyAsToken (reply : Reply) : Except String AccessToken :=
  Except.ok { accessToken := reply.body, validityTime := 3600 }

/-- A toy deserialiser: the error carries the status code and the body. -/
def bodyAsError (reply : Reply) : Except String GenericError :=
  Except.ok { error_code := reply.code, error_description := reply.body }

/-- A server that answers every resource request with `code`, and whose
refresh endpoint answers 200 with the token `newToken`. -/
def serverStatus (code : Int) (newToken : String) : Externals :=
  { Execute := fun _ q =>
      if q.url = refreshUrl then Except.ok { code := 200, body := newToken }
      else Except.ok { code := code, body := "reply" },
    parseGenericError := bodyAsError,
    parseAccessToken := bodyAsToken }

/-- A server on which the token has expired: the first request executed is
answered with 401, the refresh endpoint hands out `new-token`, and every
later resource request is answered with 200. -/
def serverExpiredOnce : Externals :=
  { Execute := fun history q =>
      if q.url = refreshUrl then Except.ok { code := 200, body := "new-token" }
      else if history = [] then Except.ok { code := 401, body := "expired" }
      else Except.ok { code := 200, body := "data" },
    parseGenericError := bodyAsError,
    parseAccessToken := bodyAsToken }

/-- A transport on which every request times out. -/
def serverTimeout : Externals :=
  { Execute := fun _ _ => Except.error "timeout",
    parseGenericError := bodyAsError,
    parseAccessToken := bodyAsToken }

/-- A toy page deserialiser: every reply is an empty page. -/
def emptyPage (_ : Reply) : Except String (ListReturnMapper String) :=
  Except.ok { list := [], limit := 0, total := 0 }

/-- The resource of the contacts collection. -/
def sampleResource : ResourceImpl :=
  { resource_url_ := "https://api.example/contacts",
    GetReadOnlyNames := some ["id", "application_id", "created_date", "last_update_date"],
    GetJsonFieldMapping := none }

/-- One resource alive, at address 1. -/
def sampleResources : Resources := fun a => if a = 1 then some sampleResource else none

/-- No resource alive: the resource at address 1 has been destroyed. -/
def noResources : Resources := fun _ => none

/-- A toy serialiser: the body is the id of the contact. -/
def idAsBody : Serializer Contact := fun c _ _ => c.id

/-- An application token received from the resource at address 1. -/
def sampleApplicationToken : Contact.ApplicationToken :=
  Contact.ApplicationToken.SetResource
    { message_delivery_provider := "provider", sender_id_address := "address",
      token := "secret", version_number := 1, id := "tok-1", application_id := 7,
      created_date := 0, last_update_date := 0, res_ := none, res_exists_ := none } 1

/-- An access token received from the resource at address 1. -/
def sampleAccessToken : Contact.AccessToken :=
  Contact.AccessToken.SetResource
    { duration := 60, version_number := 1, id := "acc-1", expiry_time := 0,
      application_id := 7, created_date := 0, last_update_date := 0, res_ := none,
      res_exists_ := none } 1

/-- A contact received from the resource at address 1. -/
def sampleContact : Contact :=
  Contact.SetResource { id := "c-1", data := [("first_name", "John")], res_ := none,
                        res_exists_ := none } 1

/-- A session that has executed nothing yet, with the credential `sampleAuth 3`. -/
def sampleWorld : World := { auth := sampleAuth 3, log := [] }

/-- The message request resource of a session. -/
def sampleMessageRequests : MessageRequest.Resource :=
  MessageRequest.Resource.mk_ "https://api.example"

/-- The contact group resource of a session. -/
def sampleContactGroups : ContactGroup.Resource :=
  ContactGroup.Resource.mk_ "https://api.example"

/-- One message request resource alive, at address 1. -/
def sampleMessageRequestResources : MessageRequest.Resources :=
  fun a => if a = 1 then some sampleMessageRequests else none

/-- One contact group resource alive, at address 1. -/
def sampleContactGroupResources : ContactGroup.Resources :=
  fun a => if a = 1 then some sampleContactGroups else none

/-- A message request received from the resource at address 1. -/
def sampleMessageRequest : MessageRequest :=
  MessageRequest.SetResource { id := "mr-1", res_ := none, res_exists_ := none } 1

/-- A contact group received from the resource at address 1. -/
def sampleContactGroup : ContactGroup := { id := "cg-1", res_ := some 1, res_exists_ := some 1 }

/-- List parameters that ask for pages of 5 records sorted by `id`, from
record 20 on. -/
def sampleListParameters : ListParameters := { start_offset := 20, page_size := 5, sort := "id" }

/-- A toy serialiser for records given as name/value pairs: it writes the
pairs whose name is not excluded, one `name=value;` each. -/
def pairsAsBody : Serializer (List (String × String)) :=
  fun object _ ro_names =>
    String.join ((object.filter (fun p => !((ro_names.getD []).contains p.1))).map
      (fun p => p.1 ++ "=" ++ p.2 ++ ";"))

/-- A toy deserialiser: the body of the reply is the id. -/
def bodyAsId (reply : Reply) : Except String GenericReply := Except.ok { id := reply.body }

/-- The field names of a body written by `pairsAsBody`: what stands before
each `=`, the entries being closed by `;`. -/
def bodyFieldNamesFrom : List Char → List Char → Bool → List String
  | [], _, _ => []
  | c :: rest, name, inName =>
      if c = ';' then bodyFieldNamesFrom rest [] true
      else if inName then
        if c = '=' then String.mk name.reverse :: bodyFieldNamesFrom rest [] false
        else bodyFieldNamesFrom rest (c :: name) true
      else bodyFieldNamesFrom rest name false

/-- The field names of a body written by `pairsAsBody`. -/
def bodyFieldNames (body : String) : List String := bodyFieldNamesFrom body.data [] true

/-- The list returned for the id `B` by a message request resource that was
asked for the list of the id `A` before. -/
def messagesOfBAfterA : ListHandle String :=
  (MessageRequest.Resource.ListMessages
    (@MessageRequest.Resource.ListMessages String sampleMessageRequests "A" none none
      sampleWorld).2
    "B" none none sampleWorld).1

/-- The list returned for the id `B` by a contact group resource that was
asked for the list of the id `A` before. -/
def contactsOfBAfterA : ListHandle String :=
  (ContactGroup.Resource.ListContacts
    (@ContactGroup.Resource.ListContacts String sampleContactGroups "A" none none
      sampleWorld).2
    "B" none none sampleWorld).1

/-- A server that checks the bearer token: its refresh endpoint hands out
`new-token`, and a resource request is answered with 200 when it carries
`Bearer new-token` and with 401 otherwise. -/
def serverChecksToken : Externals :=
  { Execute := fun _ q =>
      if q.url = refreshUrl then Except.ok { code := 200, body := "new-token" }
      else if q.headers.find "Authorization" = some "Bearer new-token" then
        Except.ok { code := 200, body := "data" }
      else Except.ok { code := 401, body := "expired" },
    parseGenericError := bodyAsError,
    parseAccessToken := bodyAsToken }

/-- A toy page deserialiser: every reply is a page of one record, its body,
out of a result set of two records. -/
def onePageOfTwo (reply : Reply) : Except String (ListReturnMapper String) :=
  Except.ok { list := [reply.body], limit := 1, total := 2 }

/-- What the log shows of a request: its URL, its arguments and its
`Authorization` header. -/
def requestSummary (q : Request) : String × args_t × Option String :=
  (q.url, q.args, q.headers.find "Authorization")

/-- A server that rejects everything: every request, the refresh call
included, is answered with 401. -/
def serverRefreshDenied : Externals :=
  { Execute := fun _ _ => Except.ok { code := 401, body := "denied" },
    parseGenericError := bodyAsError,
    parseAccessToken := bodyAsToken }

end scg_api

/-! # Theorems -/

namespace scg_api

/-! ## Machine integers in range -/

/-- A value in the range of `std::int64_t` is not changed by the conversion. -/
theorem wrapInt64_of_bounds (x : Int) (h1 : -9223372036854775808 ≤ x)
    (h2 : x < 9223372036854775808) : wrapInt64 x = x := by
  unfold wrapInt64; omega

/-- A value in the range of `int` is not changed by the conversion. -/
theorem wrapInt32_of_bounds (x : Int) (h1 : -2147483648 ≤ x)
    (h2 : x < 2147483648) : wrapInt32 x = x := by
  unfold wrapInt32; omega

section fake
variable {T : Type} (recs : List T) (p : Nat)

/-- The page at offset `o` holds `min p (N - o)` records. -/
theorem fakePage_length (o : Nat) :
    (fakePage recs p o).list.length = min p (recs.length - o) := by
  simp [fakePage]

/-- A cursor inside the page and inside the result set has a current record. -/
theorem fakeState_HaveCurrent (o c pages : Nat) (tr : List Int)
    (hN : recs.length < 2147483648) (hc : c < p) (hoc : o + c < recs.length) :
    (fakeState recs p o c pages tr).HaveCurrent = true := by
  have hlen := fakePage_length recs p o
  have hw : wrapInt64 ((fakePage recs p o).list.length : Int) = (fakePage recs p o).list.length :=
    wrapInt64_of_bounds _ (by omega) (by omega)
  simp only [AsyncForwardList.HaveCurrent, fakeState, hw]
  simp
  omega

/-- The current record at page offset `o` and cursor `c` is record `o + c`. -/
theorem fakeState_GetCurrent (o c pages : Nat) (tr : List Int)
    (hN : recs.length < 2147483648) (hc : c < p) (hoc : o + c < recs.length) :
    (fakeState recs p o c pages tr).GetCurrent = Except.ok (recs.get ⟨o + c, hoc⟩) := by
  unfold AsyncForwardList.GetCurrent
  rw [fakeState_HaveCurrent recs p o c pages tr hN hc hoc]
  have hnn : ¬ ((c : Int) < 0) := by omega
  simp [fakeState, fakePage, List.getElem?_take, hc, List.getElem?_drop, hoc, hnn]

/-- `Next()` inside a page only moves the cursor. -/
theorem fakeState_Next_within (o c pages : Nat) (tr : List Int)
    (hN : recs.length < 2147483648) (hc : c + 1 < p) (hoc : o + c + 1 < recs.length) :
    AsyncForwardList.Next (fakeFetch recs p) (fakeState recs p o c pages tr)
      = (Except.ok (), fakeState recs p o (c + 1) pages tr) := by
  have hlen := fakePage_length recs p o
  have hw : wrapInt64 ((fakePage recs p o).list.length : Int) = (fakePage recs p o).list.length :=
    wrapInt64_of_bounds _ (by omega) (by omega)
  have hw1 : wrapInt64 ((c : Int) + 1) = ((c + 1 : Nat) : Int) := by
    rw [wrapInt64_of_bounds _ (by omega) (by omega)]; push_cast; rfl
  unfold AsyncForwardList.Next
  rw [fakeState_HaveCurrent recs p o c pages tr hN (by omega) (by omega)]
  simp only [fakeState, hw, hw1, if_true]
  rw [if_neg (by omega)]

/-- `Next()` on the last record of the result set ends the list without a
fetch. -/
theorem fakeState_Next_last (o c pages : Nat) (tr : List Int)
    (hN : recs.length < 2147483648) (hc : c < p) (hoc : o + c + 1 = recs.length) :
    AsyncForwardList.Next (fakeFetch recs p) (fakeState recs p o c pages tr)
      = (Except.ok (), { fakeState recs p o (c + 1) pages tr with reached_end_ := true }) := by
  have hlen := fakePage_length recs p o
  have hw : wrapInt64 ((fakePage recs p o).list.length : Int) = (fakePage recs p o).list.length :=
    wrapInt64_of_bounds _ (by omega) (by omega)
  have hw1 : wrapInt64 ((c : Int) + 1) = ((c + 1 : Nat) : Int) := by
    rw [wrapInt64_of_bounds _ (by omega) (by omega)]; push_cast; rfl
  have hw2 : wrapInt64 ((o : Int) + ((c + 1 : Nat) : Int)) = (o : Int) + ((c + 1 : Nat) : Int) :=
    wrapInt64_of_bounds _ (by omega) (by omega)
  unfold AsyncForwardList.Next
  rw [fakeState_HaveCurrent recs p o c pages tr hN (by omega) (by omega)]
  simp only [fakeState, hw, hw1, hw2, if_true]
  rw [if_pos (by omega), if_pos (by simp only [fakePage]; omega)]

/-- `Next()` on the last record of a full page, with records remaining,
fetches the page at the next offset. -/
theorem fakeState_Next_fetch (o c pages : Nat) (tr : List Int)
    (hN : recs.length < 2147483648) (hc : c + 1 = p) (hoc : o + c + 1 < recs.length) :
    AsyncForwardList.Next (fakeFetch recs p) (fakeState recs p o c pages tr)
      = (Except.ok (), fakeState recs p (o + p) 0 (pages + 1) (tr ++ [((o + p : Nat) : Int)])) := by
  have hw1 : wrapInt64 ((c : Int) + 1) = ((c + 1 : Nat) : Int) := by
    rw [wrapInt64_of_bounds _ (by omega) (by omega)]; push_cast; rfl
  have hw2 : wrapInt64 ((o : Int) + ((c + 1 : Nat) : Int)) = ((o + p : Nat) : Int) := by
    rw [wrapInt64_of_bounds _ (by omega) (by omega)]; omega
  have hw3 : wrapInt32 ((o + p : Nat) : Int) = ((o + p : Nat) : Int) :=
    wrapInt32_of_bounds _ (by omega) (by omega)
  have hlen := fakePage_length recs p o
  have hw : wrapInt64 ((fakePage recs p o).list.length : Int) = (fakePage recs p o).list.length :=
    wrapInt64_of_bounds _ (by omega) (by omega)
  have hge : ((c + 1 : Nat) : Int) ≥ ((fakePage recs p o).list.length : Int) := by omega
  have hpos : 0 < (fakePage recs p (o + p)).list.length := by
    rw [fakePage_length]; omega
  have hw4 : wrapInt64 ((fakePage recs p (o + p)).list.length : Int)
      = (fakePage recs p (o + p)).list.length := by
    have h := fakePage_length recs p (o + p)
    exact wrapInt64_of_bounds _ (by omega) (by omega)
  have htot : ¬ ((fakePage recs p o).total ≤ ((o + p : Nat) : Int)) := by
    simp only [fakePage]; omega
  unfold AsyncForwardList.Next
  rw [fakeState_HaveCurrent recs p o c pages tr hN (by omega) (by omega)]
  simp only [fakeState, hw, hw1, hw2, if_true]
  rw [if_pos hge, if_neg htot]
  simp only [AsyncForwardList.Fetch, hw2, hw3, fakeFetch, Int.toNat_ofNat,
    AsyncForwardList.HaveCurrent, hw4]
  simp
  exact List.ne_nil_of_length_pos hpos

/-- Draining a list over the deterministic server from record `o + c`
on: the remaining records are appended in order, and the number of pages
counted at the end is the one of the page on which the records run out. -/
theorem fake_ToContainerLoop (hp : 1 ≤ p) (hN : recs.length < 2147483648) :
    ∀ (fuel k c : Nat) (tr : List Int) (cont : List T),
      c < p → k * p + c < recs.length → recs.length - (k * p + c) + 1 ≤ fuel →
      ∃ s, AsyncForwardList.ToContainerLoop (fakeFetch recs p) fuel
              (fakeState recs p (k * p) c (k + 1) tr) cont
            = some (Except.ok (cont ++ recs.drop (k * p + c)), s)
          ∧ s.Ended = true
          ∧ (s.GetPagesFetched - 1) * p < recs.length
          ∧ recs.length ≤ s.GetPagesFetched * p := by
  intro fuel
  induction fuel with
  | zero => intro k c tr cont _ _ h; omega
  | succ fuel ih =>
    intro k c tr cont hc hoc hfuel
    have hdrop : recs.drop (k * p + c) = recs.get ⟨k * p + c, hoc⟩ :: recs.drop (k * p + c + 1) :=
      List.drop_eq_getElem_cons hoc
    have hE : (fakeState recs p (k * p) c (k + 1) tr).Ended = false := rfl
    have hcur := fakeState_GetCurrent recs p (k * p) c (k + 1) tr hN hc hoc
    by_cases hlast : k * p + c + 1 = recs.length
    · have hnext := fakeState_Next_last recs p (k * p) c (k + 1) tr hN hc hlast
      obtain ⟨fuel1, rfl⟩ : ∃ f, fuel = f + 1 := ⟨fuel - 1, by omega⟩
      have hkp : (k + 1) * p = k * p + p := by ring
      refine ⟨{ fakeState recs p (k * p) (c + 1) (k + 1) tr with reached_end_ := true },
        ?_, ?_, ?_, ?_⟩
      · rw [AsyncForwardList.ToContainerLoop, hE, hcur, hnext]
        dsimp only [Bool.false_eq_true, if_false]
        rw [AsyncForwardList.ToContainerLoop]
        dsimp only [AsyncForwardList.Ended, if_true]
        rw [hdrop, List.drop_of_length_le (by omega)]
        rfl
      · rfl
      · show (k + 1 - 1) * p < recs.length
        rw [Nat.add_sub_cancel]; omega
      · show recs.length ≤ (k + 1) * p
        omega
    · have hlt : k * p + c + 1 < recs.length := by omega
      by_cases hfull : c + 1 = p
      · have hnext := fakeState_Next_fetch recs p (k * p) c (k + 1) tr hN hfull hlt
        have hkp : k * p + p = (k + 1) * p := by ring
        rw [hkp] at hnext
        obtain ⟨s, hs, hrest⟩ := ih (k + 1) 0 (tr ++ [(((k + 1) * p : Nat) : Int)])
          (cont ++ [recs.get ⟨k * p + c, hoc⟩]) (by omega) (by omega) (by omega)
        refine ⟨s, ?_, hrest⟩
        rw [AsyncForwardList.ToContainerLoop, hE, hcur, hnext]
        dsimp only [Bool.false_eq_true, if_false]
        rw [hs, hdrop]
        have h3 : (k + 1) * p + 0 = k * p + c + 1 := by omega
        rw [h3, List.append_assoc]
        rfl
      · have hnext := fakeState_Next_within recs p (k * p) c (k + 1) tr hN (by omega) hlt
        obtain ⟨s, hs, hrest⟩ := ih k (c + 1) tr
          (cont ++ [recs.get ⟨k * p + c, hoc⟩]) (by omega) (by omega) (by omega)
        refine ⟨s, ?_, hrest⟩
        rw [AsyncForwardList.ToContainerLoop, hE, hcur, hnext]
        dsimp only [Bool.false_eq_true, if_false]
        rw [hs, hdrop]
        have h3 : k * p + (c + 1) = k * p + c + 1 := by omega
        rw [h3, List.append_assoc]
        rfl

/-- `begin()` over an empty result set ends the list; no page is counted. -/
theorem fake_begin_empty (hz : recs.length = 0) :
    AsyncForwardList.begin_ (fakeFetch recs p) (AsyncForwardList.mk_ () 0)
      = (Except.ok (), { list_ := none, offset_ := 0, current_ := 0, reached_end_ := true,
                         pages_fected_ := 0, fetch_env_ := (), fetched_ := [0] }) := by
  have hw0 : wrapInt64 (0 + 0) = 0 := by decide
  have hw1 : wrapInt32 0 = 0 := by decide
  have hnil : recs = [] := List.eq_nil_of_length_eq_zero hz
  subst hnil
  have hw : wrapInt64 (((fakePage ([] : List T) p 0).list.length : Nat) : Int) = 0 := by
    simp only [fakePage, List.drop_nil, List.take_nil, List.length_nil]
    decide
  simp only [AsyncForwardList.begin_, AsyncForwardList.Fetch, AsyncForwardList.mk_, hw0, hw1,
    fakeFetch, AsyncForwardList.HaveCurrent, Int.toNat_zero, hw]
  rfl

/-- `begin()` over a non-empty result set holds the first page. -/
theorem fake_begin_nonempty (hN : recs.length < 2147483648) (hp : 1 ≤ p) (hz : 0 < recs.length) :
    AsyncForwardList.begin_ (fakeFetch recs p) (AsyncForwardList.mk_ () 0)
      = (Except.ok (), fakeState recs p (0 * p) 0 (0 + 1) [0]) := by
  have hw0 : wrapInt64 (0 + 0) = 0 := by decide
  have hw1 : wrapInt32 0 = 0 := by decide
  have hlen := fakePage_length recs p 0
  have hw : wrapInt64 ((fakePage recs p 0).list.length : Int) = (fakePage recs p 0).list.length :=
    wrapInt64_of_bounds _ (by omega) (by omega)
  have hpos : ((fakePage recs p 0).list.length : Int) > 0 := by omega
  simp only [AsyncForwardList.begin_, AsyncForwardList.Fetch, AsyncForwardList.mk_, hw0, hw1,
    fakeFetch, AsyncForwardList.HaveCurrent, Int.toNat_zero, hw]
  rw [if_neg (by simp [hpos])]
  simp only [fakeState, Nat.zero_mul, List.nil_append, Nat.zero_add, Nat.cast_zero]

/-- Draining a fresh list over the deterministic server: the records come
back exactly, the list has ended, and the page counter `n` satisfies
`(n - 1) * p < N ≤ n * p`. -/
theorem fake_ToContainer (hp : 1 ≤ p) (hN : recs.length < 2147483648)
    (fuel : Nat) (hfuel : recs.length + 1 ≤ fuel) :
    ∃ s, AsyncForwardList.ToContainer (fakeFetch recs p) fuel (AsyncForwardList.mk_ () 0)
            = some (Except.ok recs, s)
        ∧ s.Ended = true
        ∧ (recs.length = 0 → s.GetPagesFetched = 0)
        ∧ (0 < recs.length →
            (s.GetPagesFetched - 1) * p < recs.length ∧ recs.length ≤ s.GetPagesFetched * p) := by
  obtain ⟨fuel1, rfl⟩ : ∃ f, fuel = f + 1 := ⟨fuel - 1, by omega⟩
  by_cases hz : recs.length = 0
  · have hbegin := fake_begin_empty recs p hz
    have hnil : recs = [] := List.eq_nil_of_length_eq_zero hz
    refine ⟨{ list_ := none, offset_ := 0, current_ := 0, reached_end_ := true,
              pages_fected_ := 0, fetch_env_ := (), fetched_ := [0] }, ?_, rfl, fun _ => rfl, ?_⟩
    · rw [AsyncForwardList.ToContainer, hbegin]
      dsimp only
      rw [AsyncForwardList.ToContainerLoop]
      dsimp only [AsyncForwardList.Ended, if_true]
      rw [hnil, if_pos rfl]
    · intro h; omega
  · have hbegin := fake_begin_nonempty recs p hN hp (by omega)
    obtain ⟨s, hs, hE, h1, h2⟩ := fake_ToContainerLoop recs p hp hN (fuel1 + 1) 0 0 [0] []
      (by omega) (by omega) (by omega)
    refine ⟨s, ?_, hE, fun h => absurd h hz, fun _ => ⟨h1, h2⟩⟩
    rw [AsyncForwardList.ToContainer, hbegin]
    dsimp only
    rw [hs]
    simp only [Nat.zero_mul, Nat.add_zero, List.drop_zero, List.nil_append]

end fake

/-! ## Facts about the pieces of the loop -/

/-- Looking up a key just assigned yields the assigned value. -/
theorem StringMap.find_set_self (m : StringMap) (k v : String) :
    StringMap.find (StringMap.set m k v) k = some v := by
  induction m with
  | nil => simp [StringMap.set, StringMap.find]
  | cons hd rest ih =>
    obtain ⟨k1, v1⟩ := hd
    unfold StringMap.set
    by_cases h1 : keyLess k k1 = true
    · rw [if_pos h1]; simp [StringMap.find]
    · rw [if_neg h1]
      by_cases h2 : k = k1
      · rw [if_pos h2]; simp [StringMap.find]
      · rw [if_neg h2]
        unfold StringMap.find
        rw [if_neg h2]
        exact ih

/-- An answered request is appended to the log. -/
theorem Execute_ok (ext : Externals) (req : Request) (w : World) (reply : Reply)
    (h : ext.Execute w.log req = Except.ok reply) :
    Execute ext req w = (Except.ok reply, { w with log := w.log ++ [req] }) := by
  unfold Execute
  rw [h]

/-- A request on which the transport throws is appended to the log too. -/
theorem Execute_error (ext : Externals) (req : Request) (w : World) (what : String)
    (h : ext.Execute w.log req = Except.error what) :
    Execute ext req w
      = (Except.error (Exception.library_error what), { w with log := w.log ++ [req] }) := by
  unfold Execute
  rw [h]

/-- Status codes below 300 pass `DealWithErrors`. -/
theorem DealWithErrors_lt_300 (ext : Externals) (reply : Reply) (h : reply.code < 300) :
    DealWithErrors ext reply = Except.ok () := by
  unfold DealWithErrors
  simp only [h, if_true]

/-- Status code 401 raises `AuthenticationException` carrying the body. -/
theorem DealWithErrors_401 (ext : Externals) (reply : Reply) (h : reply.code = 401) :
    DealWithErrors ext reply
      = Except.error (Exception.AuthenticationException
          { error_code := 401, error_description := reply.body }) := by
  unfold DealWithErrors
  simp only [h]
  rfl

/-- Status codes from 300 on other than 401 raise an exception that is not
an `AuthenticationException`. -/
theorem DealWithErrors_other (ext : Externals) (reply : Reply) (h300 : 300 ≤ reply.code)
    (h401 : reply.code ≠ 401) :
    ∃ e, DealWithErrors ext reply = Except.error e
      ∧ ∀ err, e ≠ Exception.AuthenticationException err := by
  unfold DealWithErrors
  simp only
  rw [if_neg (by omega), if_neg h401]
  by_cases h400 : reply.code ≥ 400
  · rw [if_pos h400]
    cases hp : ext.parseGenericError reply with
    | error what => exact ⟨_, rfl, fun err h => by cases h⟩
    | ok error =>
      by_cases h404 : reply.code = 404
      · simp only [h404, if_true]; exact ⟨_, rfl, fun err h => by cases h⟩
      · simp only [h404, if_false]; exact ⟨_, rfl, fun err h => by cases h⟩
  · rw [if_neg h400]
    exact ⟨_, rfl, fun err h => by cases h⟩

/-- A refresh call answered with a status below 300 and a non-empty
`accessToken` stores the token and returns true. -/
theorem RefreshToken_success (ext : Externals) (w : World) (reply : Reply) (tok : AccessToken)
    (h : ext.Execute w.log (refreshRequest w.auth) = Except.ok reply) (hc : reply.code < 300)
    (ht : ext.parseAccessToken reply = Except.ok tok) (hne : tok.accessToken ≠ "") :
    RefreshToken ext w
      = (Except.ok true, { auth := w.auth.SetToken tok.accessToken,
                           log := w.log ++ [refreshRequest w.auth] }) := by
  unfold RefreshToken
  rw [Execute_ok ext _ w reply h]
  dsimp only
  rw [DealWithErrors_lt_300 ext reply hc]
  dsimp only
  rw [ht]
  dsimp only
  rw [if_pos hne]

/-- A refresh call answered with a status below 300 and an empty
`accessToken` leaves the token alone and returns false. -/
theorem RefreshToken_empty (ext : Externals) (w : World) (reply : Reply) (tok : AccessToken)
    (h : ext.Execute w.log (refreshRequest w.auth) = Except.ok reply) (hc : reply.code < 300)
    (ht : ext.parseAccessToken reply = Except.ok tok) (hne : tok.accessToken = "") :
    RefreshToken ext w = (Except.ok false, { w with log := w.log ++ [refreshRequest w.auth] }) := by
  unfold RefreshToken
  rw [Execute_ok ext _ w reply h]
  dsimp only
  rw [DealWithErrors_lt_300 ext reply hc]
  dsimp only
  rw [ht]
  dsimp only
  rw [if_neg (by simp [hne])]

/-! ## One iteration of the auth-and-error loop -/

/-- An exception thrown by the transport leaves the loop at once. -/
theorem loop_execute_throws (ext : Externals) (retries : Int) (req : Request) (w w1 : World)
    (e : Exception) (hexec : Execute ext req w = (Except.error e, w1)) :
    DealWithErrorsAndAuthLoop ext retries req w = (Except.error e, req, w1) := by
  rw [DealWithErrorsAndAuthLoop]
  split
  · rename_i e2 w2 h
    rw [hexec] at h
    cases h; rfl
  all_goals
    rename_i h
    rw [hexec] at h
    cases h

/-- A reply that `DealWithErrors` accepts is returned. -/
theorem loop_success (ext : Externals) (retries : Int) (req : Request) (w w1 : World)
    (reply : Reply) (hexec : Execute ext req w = (Except.ok reply, w1))
    (hok : DealWithErrors ext reply = Except.ok ()) :
    DealWithErrorsAndAuthLoop ext retries req w = (Except.ok reply, req, w1) := by
  rw [DealWithErrorsAndAuthLoop]
  split
  · rename_i h
    rw [hexec] at h
    cases h
  · rename_i reply w2 h
    rw [hexec] at h
    cases h
    rw [hok]

/-- An exception of `DealWithErrors` other than `AuthenticationException`
is not caught. -/
theorem loop_other_error (ext : Externals) (retries : Int) (req : Request) (w w1 : World)
    (reply : Reply) (e : Exception) (hexec : Execute ext req w = (Except.ok reply, w1))
    (herr : DealWithErrors ext reply = Except.error e)
    (hne : ∀ err, e ≠ Exception.AuthenticationException err) :
    DealWithErrorsAndAuthLoop ext retries req w = (Except.error e, req, w1) := by
  rw [DealWithErrorsAndAuthLoop]
  split
  · rename_i h
    rw [hexec] at h
    cases h
  · rename_i reply w2 h
    rw [hexec] at h
    cases h
    rw [herr]
    cases e with
    | AuthenticationException err => exact absurd rfl (hne err)
    | _ => rfl

/-- An `AuthenticationException` is rethrown when the counter has reached
the retry budget. -/
theorem loop_auth_exhausted (ext : Externals) (retries : Int) (req : Request) (w w1 : World)
    (reply : Reply) (err : GenericError) (hexec : Execute ext req w = (Except.ok reply, w1))
    (herr : DealWithErrors ext reply = Except.error (Exception.AuthenticationException err))
    (hge : retries ≥ w1.auth.GetRetries) :
    DealWithErrorsAndAuthLoop ext retries req w
      = (Except.error (Exception.AuthenticationException err), req, w1) := by
  rw [DealWithErrorsAndAuthLoop]
  split
  · rename_i h
    rw [hexec] at h
    cases h
  · rename_i reply w2 h
    rw [hexec] at h
    cases h
    rw [herr]
    dsimp only
    rw [dif_pos hge]

/-- An exception thrown inside `RefreshToken()` leaves the loop. -/
theorem loop_refresh_throws (ext : Externals) (retries : Int) (req : Request) (w w1 w2 : World)
    (reply : Reply) (err : GenericError) (e : Exception)
    (hexec : Execute ext req w = (Except.ok reply, w1))
    (herr : DealWithErrors ext reply = Except.error (Exception.AuthenticationException err))
    (hlt : retries < w1.auth.GetRetries)
    (href : RefreshToken ext w1 = (Except.error e, w2)) :
    DealWithErrorsAndAuthLoop ext retries req w = (Except.error e, req, w2) := by
  rw [DealWithErrorsAndAuthLoop]
  split
  · rename_i h
    rw [hexec] at h
    cases h
  · rename_i reply w2 h
    rw [hexec] at h
    cases h
    rw [herr]
    dsimp only
    rw [dif_neg (by omega)]
    split
    · rename_i h; rw [href] at h; cases h; rfl
    · rename_i h; rw [href] at h; cases h
    · rename_i h; rw [href] at h; cases h

/-- After a successful refresh the loop goes round with the new token in the
`Authorization` header. -/
theorem loop_refresh_true (ext : Externals) (retries : Int) (req : Request) (w w1 w2 : World)
    (reply : Reply) (err : GenericError)
    (hexec : Execute ext req w = (Except.ok reply, w1))
    (herr : DealWithErrors ext reply = Except.error (Exception.AuthenticationException err))
    (hlt : retries < w1.auth.GetRetries)
    (href : RefreshToken ext w1 = (Except.ok true, w2)) :
    DealWithErrorsAndAuthLoop ext retries req w
      = DealWithErrorsAndAuthLoop ext (retries + 1) (withBearer req w2.auth.GetToken) w2 := by
  rw [DealWithErrorsAndAuthLoop]
  split
  · rename_i h
    rw [hexec] at h
    cases h
  · rename_i reply w2 h
    rw [hexec] at h
    cases h
    rw [herr]
    dsimp only
    rw [dif_neg (by omega)]
    split
    · rename_i h; rw [href] at h; cases h
    · rename_i h; rw [href] at h; cases h; rfl
    · rename_i h; rw [href] at h; cases h

/-- When `RefreshToken()` returns false the loop goes round with the request
unchanged. -/
theorem loop_refresh_false (ext : Externals) (retries : Int) (req : Request) (w w1 w2 : World)
    (reply : Reply) (err : GenericError)
    (hexec : Execute ext req w = (Except.ok reply, w1))
    (herr : DealWithErrors ext reply = Except.error (Exception.AuthenticationException err))
    (hlt : retries < w1.auth.GetRetries)
    (href : RefreshToken ext w1 = (Except.ok false, w2)) :
    DealWithErrorsAndAuthLoop ext retries req w
      = DealWithErrorsAndAuthLoop ext (retries + 1) req w2 := by
  rw [DealWithErrorsAndAuthLoop]
  split
  · rename_i h
    rw [hexec] at h
    cases h
  · rename_i reply w2 h
    rw [hexec] at h
    cases h
    rw [herr]
    dsimp only
    rw [dif_neg (by omega)]
    split
    · rename_i h; rw [href] at h; cases h
    · rename_i h; rw [href] at h; cases h
    · rename_i h; rw [href] at h; cases h; rfl

/-! ## The loop under a server that rejects every token -/

/-- With every execution of a request to `u` answered by 401 and every
refresh call succeeding, the loop entered with `n` retries left executes the
request `n + 1` times, refreshes `n` times and throws
`AuthenticationException`. -/
theorem loop_all_401 (ext : Externals) (u : String) (hu : u ≠ refreshUrl)
    (hreq : ∀ history q, q.url = u →
      ∃ reply, ext.Execute history q = Except.ok reply ∧ reply.code = 401)
    (href : ∀ history q, q.url = refreshUrl →
      ∃ reply tok, ext.Execute history q = Except.ok reply ∧ reply.code < 300
        ∧ ext.parseAccessToken reply = Except.ok tok ∧ tok.accessToken ≠ "") :
    ∀ (n : Nat) (retries : Int) (req : Request) (w : World),
      req.url = u → retries + (n : Int) = w.auth.GetRetries →
      ∃ err req1 w1 calls,
        DealWithErrorsAndAuthLoop ext retries req w
          = (Except.error (Exception.AuthenticationException err), req1, w1)
        ∧ w1.log = w.log ++ calls
        ∧ calls.countP (fun q => decide (q.url = u)) = n + 1
        ∧ calls.countP (fun q => decide (q.url = refreshUrl)) = n
        ∧ calls.length = 2 * n + 1 := by
  intro n
  induction n with
  | zero =>
    intro retries req w hurl hbudget
    obtain ⟨reply, hex, hcode⟩ := hreq w.log req hurl
    have e1 := Execute_ok ext req w reply hex
    have d1 := DealWithErrors_401 ext reply hcode
    refine ⟨_, req, _, [req],
      loop_auth_exhausted ext retries req w _ reply _ e1 d1
        (by show retries ≥ w.auth.GetRetries; omega), rfl, ?_, ?_, rfl⟩
    · simp [hurl]
    · have hne : req.url ≠ refreshUrl := by rw [hurl]; exact hu
      simp [hne]
  | succ n ih =>
    intro retries req w hurl hbudget
    obtain ⟨reply, hex, hcode⟩ := hreq w.log req hurl
    have e1 := Execute_ok ext req w reply hex
    have d1 := DealWithErrors_401 ext reply hcode
    obtain ⟨r2, tok, hex2, hc2, ht2, hne2⟩ :=
      href (w.log ++ [req]) (refreshRequest w.auth) rfl
    have f1 := RefreshToken_success ext { w with log := w.log ++ [req] } r2 tok hex2 hc2 ht2 hne2
    have hstep := loop_refresh_true ext retries req w _ _ reply _ e1 d1
      (by show retries < w.auth.GetRetries; omega) f1
    obtain ⟨err, req1, w1, calls, hloop, hlog, hc1, hc3, hlen⟩ :=
      ih (retries + 1) (withBearer req tok.accessToken)
        { auth := w.auth.SetToken tok.accessToken, log := w.log ++ [req] ++ [refreshRequest w.auth] }
        hurl (by show retries + 1 + (n : Int) = w.auth.GetRetries; omega)
    refine ⟨err, req1, w1, [req, refreshRequest w.auth] ++ calls, ?_, ?_, ?_, ?_, ?_⟩
    · rw [hstep]; exact hloop
    · rw [hlog]; simp
    · have hne : (refreshRequest w.auth).url ≠ u := fun h => hu h.symm
      rw [List.countP_append, hc1]
      simp [hurl, hne, List.countP_cons]
      omega
    · have hne : req.url ≠ refreshUrl := by rw [hurl]; exact hu
      have hre : (refreshRequest w.auth).url = refreshUrl := rfl
      rw [List.countP_append, hc3]
      simp [hne, hre, List.countP_cons]
      omega
    · simp [hlen]; omega

/-! ## One fetch, whatever the closure does -/


section anyFetch
variable {T σ : Type} (f : fetch_fn_t T σ) (s : AsyncForwardList T σ)

/-- A fetch invokes the closure exactly once, with the cumulative offset
converted to `int`. -/
theorem Fetch_fetched :
    (AsyncForwardList.Fetch f s).2.fetched_
      = s.fetched_ ++ [wrapInt32 (wrapInt64 (s.offset_ + s.current_))] := by
  unfold AsyncForwardList.Fetch
  dsimp only
  split
  · rfl
  · split <;> rfl

/-- A fetch moves the intra-page cursor into the cumulative offset. -/
theorem Fetch_offset :
    (AsyncForwardList.Fetch f s).2.offset_ = wrapInt64 (s.offset_ + s.current_)
      ∧ (AsyncForwardList.Fetch f s).2.current_ = 0 := by
  unfold AsyncForwardList.Fetch
  dsimp only
  split
  · exact ⟨rfl, rfl⟩
  · split <;> exact ⟨rfl, rfl⟩

/-- A fetch never clears the terminal flag. -/
theorem Fetch_reached_end (h : s.reached_end_ = true) :
    (AsyncForwardList.Fetch f s).2.reached_end_ = true := by
  unfold AsyncForwardList.Fetch
  dsimp only
  split
  · exact h
  · split
    · rfl
    · rename_i hc
      simp [AsyncForwardList.HaveCurrent, h] at hc

/-- A fetch raises the page counter by one when it leaves the list with a
current record, and not at all otherwise. -/
theorem Fetch_pages_le :
    s.pages_fected_ ≤ (AsyncForwardList.Fetch f s).2.pages_fected_
      ∧ (AsyncForwardList.Fetch f s).2.pages_fected_ ≤ s.pages_fected_ + 1 := by
  unfold AsyncForwardList.Fetch
  dsimp only
  split
  · exact ⟨le_refl _, Nat.le_succ _⟩
  · split
    · exact ⟨le_refl _, Nat.le_succ _⟩
    · exact ⟨Nat.le_succ _, le_refl _⟩

end anyFetch

/-! ## Properties kept by every call on a list -/


section kept
variable {T σ : Type} (f : fetch_fn_t T σ) (P : AsyncForwardList T σ → Prop)
  (hFetch : ∀ s, P s → P (AsyncForwardList.Fetch f s).2)
  (hcur : ∀ (s : AsyncForwardList T σ) c, P s → P { s with current_ := c })
  (hend : ∀ (s : AsyncForwardList T σ) c, P s → P { s with current_ := c, reached_end_ := true })

include hFetch hcur hend

/-- A property kept by `Fetch()`, by moving the cursor and by setting the
terminal flag is kept by `Next()`. -/
theorem Next_keeps (s : AsyncForwardList T σ) (h : P s) : P (AsyncForwardList.Next f s).2 := by
  unfold AsyncForwardList.Next
  split
  · split
    · exact h
    · dsimp only
      split
      · split
        · exact hend s _ h
        · exact hFetch _ (hcur s _ h)
      · exact hcur s _ h
  · exact h

/-- Such a property is kept by the loop of `ToContainer()`. -/
theorem ToContainerLoop_keeps :
    ∀ (fuel : Nat) (s : AsyncForwardList T σ) (cont : List T) r s1, P s →
      AsyncForwardList.ToContainerLoop f fuel s cont = some (r, s1) → P s1 := by
  intro fuel
  induction fuel with
  | zero =>
    intro s cont r s1 _ h
    simp [AsyncForwardList.ToContainerLoop] at h
  | succ fuel ih =>
    intro s cont r s1 hP h
    rw [AsyncForwardList.ToContainerLoop] at h
    split at h
    · cases h; exact hP
    · split at h
      · cases h; exact hP
      · have hn := Next_keeps f P hFetch hcur hend s hP
        split at h
        · rename_i heq
          rw [heq] at hn
          cases h; exact hn
        · rename_i heq
          rw [heq] at hn
          exact ih _ _ _ _ hn h

/-- Such a property is kept by `ToContainer()`. -/
theorem ToContainer_keeps (fuel : Nat) (s : AsyncForwardList T σ) r s1 (hP : P s)
    (h : AsyncForwardList.ToContainer f fuel s = some (r, s1)) : P s1 := by
  unfold AsyncForwardList.ToContainer at h
  have hb : P (AsyncForwardList.begin_ f s).2 := hFetch s hP
  split at h
  · rename_i heq
    rw [heq] at hb
    cases h; exact hb
  · rename_i heq
    rw [heq] at hb
    exact ToContainerLoop_keeps f P hFetch hcur hend fuel _ _ _ _ hb h

/-- Such a property is kept by every sequence of calls. -/
theorem runOps_keeps :
    ∀ (ops : List AsyncForwardList.ListOp) (s s1 : AsyncForwardList T σ), P s →
      AsyncForwardList.runOps f ops s = some s1 → P s1 := by
  intro ops
  induction ops with
  | nil =>
    intro s s1 hP h
    simp only [AsyncForwardList.runOps, Option.some.injEq] at h
    rw [← h]; exact hP
  | cons op ops ih =>
    intro s s1 hP h
    rw [AsyncForwardList.runOps] at h
    cases op with
    | begin =>
      simp only [AsyncForwardList.applyOp, Option.some_bind] at h
      exact ih _ _ (hFetch s hP) h
    | next =>
      simp only [AsyncForwardList.applyOp, Option.some_bind] at h
      exact ih _ _ (Next_keeps f P hFetch hcur hend s hP) h
    | toContainer fuel =>
      simp only [AsyncForwardList.applyOp] at h
      cases hc : AsyncForwardList.ToContainer f fuel s with
      | none => rw [hc] at h; simp at h
      | some r =>
        rw [hc] at h
        simp only [Option.map_some', Option.some_bind] at h
        exact ih _ _ (ToContainer_keeps f P hFetch hcur hend fuel s r.1 r.2 hP hc) h

end kept

/-! ## One pass over a list -/


section pass
variable {T σ : Type} (f : fetch_fn_t T σ)

/-- The page a list holds after a fetch is the one it held (the closure
threw) or one the closure returned. -/
theorem Fetch_list (s : AsyncForwardList T σ) (l : ListReturnMapper T)
    (h : (AsyncForwardList.Fetch f s).2.list_ = some l) :
    s.list_ = some l ∨ ∃ env arg env1, f env arg = (Except.ok (some l), env1) := by
  unfold AsyncForwardList.Fetch at h
  dsimp only at h
  split at h
  · exact Or.inl h
  · rename_i l1 env1 heq
    split at h
    · simp at h
    · dsimp only at h
      rw [h] at heq
      exact Or.inr ⟨_, _, _, heq⟩

/-- `begin()` on a fresh list establishes the invariant of a pass. -/
theorem begin_PassInvariant (hb : AsyncForwardList.pagesBounded f) (env : σ) (start_offset : Int)
    (h1 : -2147483648 ≤ start_offset) (h2 : start_offset < 4611686018427387904) :
    AsyncForwardList.PassInvariant
      (AsyncForwardList.begin_ f (AsyncForwardList.mk_ env start_offset)).2 := by
  have hw : wrapInt64 (start_offset + 0) = start_offset := by
    rw [Int.add_zero]; exact wrapInt64_of_bounds _ (by omega) (by omega)
  have hle : wrapInt32 start_offset ≤ start_offset := by
    unfold wrapInt32; omega
  have hf := Fetch_fetched f (AsyncForwardList.mk_ env start_offset)
  have ho := Fetch_offset f (AsyncForwardList.mk_ env start_offset)
  have hfl := Fetch_list f (AsyncForwardList.mk_ env start_offset)
  simp only [AsyncForwardList.mk_, hw, List.nil_append] at hf ho hfl
  unfold AsyncForwardList.begin_
  refine ⟨?_, ?_, ?_, ?_, ?_, ?_⟩
  · simp only [AsyncForwardList.mk_]; rw [hf]; exact List.pairwise_singleton _ _
  · simp only [AsyncForwardList.mk_]; rw [hf, ho.1]
    intro a ha
    rw [List.mem_singleton] at ha
    rw [ha]; exact hle
  · simp only [AsyncForwardList.mk_]; rw [ho.1]; exact h1
  · simp only [AsyncForwardList.mk_]; rw [ho.1]; exact h2
  · simp only [AsyncForwardList.mk_]; rw [ho.2]
  · intro l hl
    simp only [AsyncForwardList.mk_] at hl
    rcases hfl l hl with h | ⟨env2, arg, env3, h⟩
    · cases h
    · exact hb _ _ _ _ h

/-- `Next()` keeps the invariant of a pass. -/
theorem Next_PassInvariant (hb : AsyncForwardList.pagesBounded f) (s : AsyncForwardList T σ)
    (h : AsyncForwardList.PassInvariant s) :
    AsyncForwardList.PassInvariant (AsyncForwardList.Next f s).2 := by
  obtain ⟨hpair, hle, ho1, ho2, hc, hl⟩ := h
  by_cases hcur : s.HaveCurrent = true
  · cases hlist : s.list_ with
    | none =>
      have hn : AsyncForwardList.Next f s = (Except.error Failure.assert_failed, s) := by
        unfold AsyncForwardList.Next
        rw [hcur]
        simp only [hlist, if_true]
      rw [hn]
      exact ⟨hpair, hle, ho1, ho2, hc, hl⟩
    | some l =>
      obtain ⟨hlen, htot⟩ := hl l hlist
      have hw : wrapInt64 (l.list.length : Int) = (l.list.length : Int) :=
        wrapInt64_of_bounds _ (by omega) (by omega)
      have hlt : s.current_ < (l.list.length : Int) := by
        have h := hcur
        simp only [AsyncForwardList.HaveCurrent, hlist, hw, Bool.and_eq_true,
          decide_eq_true_eq] at h
        exact h.2
      have hw1 : wrapInt64 (s.current_ + 1) = s.current_ + 1 :=
        wrapInt64_of_bounds _ (by omega) (by omega)
      have hw2 : wrapInt64 (s.offset_ + (s.current_ + 1)) = s.offset_ + (s.current_ + 1) :=
        wrapInt64_of_bounds _ (by omega) (by omega)
      by_cases hge : s.current_ + 1 ≥ (l.list.length : Int)
      · by_cases hreach : l.total ≤ s.offset_ + (s.current_ + 1)
        · have hn : AsyncForwardList.Next f s
              = (Except.ok (), { s with current_ := s.current_ + 1, reached_end_ := true }) := by
            unfold AsyncForwardList.Next
            rw [hcur]
            simp only [hlist, hw, hw1, hw2, if_true]
            rw [if_pos hge, if_pos hreach]
          rw [hn]
          exact ⟨hpair, hle, ho1, ho2, by show 0 ≤ s.current_ + 1; omega, hl⟩
        · have hn : AsyncForwardList.Next f s
              = AsyncForwardList.Fetch f { s with current_ := s.current_ + 1 } := by
            unfold AsyncForwardList.Next
            rw [hcur]
            simp only [hlist, hw, hw1, hw2, if_true]
            rw [if_pos hge, if_neg hreach]
          have hf := Fetch_fetched f { s with current_ := s.current_ + 1 }
          have hoff := Fetch_offset f { s with current_ := s.current_ + 1 }
          have hfl := Fetch_list f { s with current_ := s.current_ + 1 }
          have hw3 : wrapInt32 (s.offset_ + (s.current_ + 1)) = s.offset_ + (s.current_ + 1) :=
            wrapInt32_of_bounds _ (by omega) (by omega)
          dsimp only at hf hoff hfl
          rw [hw2] at hf hoff
          rw [hw3] at hf
          rw [hn]
          refine ⟨?_, ?_, ?_, ?_, ?_, ?_⟩
          · rw [hf, List.pairwise_append]
            refine ⟨hpair, List.pairwise_singleton _ _, ?_⟩
            intro a ha b hb1
            rw [List.mem_singleton] at hb1
            have := hle a ha
            omega
          · rw [hf, hoff.1]
            intro a ha
            rw [List.mem_append, List.mem_singleton] at ha
            rcases ha with ha | ha
            · have := hle a ha
              omega
            · omega
          · rw [hoff.1]; omega
          · rw [hoff.1]; omega
          · rw [hoff.2]
          · intro l1 hl1
            rcases hfl l1 hl1 with h | ⟨env2, arg, env3, h⟩
            · exact hl l1 h
            · exact hb _ _ _ _ h
      · have hn : AsyncForwardList.Next f s
            = (Except.ok (), { s with current_ := s.current_ + 1 }) := by
          unfold AsyncForwardList.Next
          rw [hcur]
          simp only [hlist, hw, hw1, if_true]
          rw [if_neg hge]
        rw [hn]
        exact ⟨hpair, hle, ho1, ho2, by show 0 ≤ s.current_ + 1; omega, hl⟩
  · have hn : AsyncForwardList.Next f s = (Except.error Failure.assert_failed, s) := by
      unfold AsyncForwardList.Next
      rw [if_neg hcur]
    rw [hn]
    exact ⟨hpair, hle, ho1, ho2, hc, hl⟩

/-- A pass runs to the end of its calls and keeps the invariant. -/
theorem pass_PassInvariant (hb : AsyncForwardList.pagesBounded f) :
    ∀ (n : Nat) (s : AsyncForwardList T σ), AsyncForwardList.PassInvariant s →
      ∃ s1, AsyncForwardList.runOps f (List.replicate n AsyncForwardList.ListOp.next) s = some s1
        ∧ AsyncForwardList.PassInvariant s1 := by
  intro n
  induction n with
  | zero => intro s h; exact ⟨s, rfl, h⟩
  | succ n ih =>
    intro s h
    obtain ⟨s1, hs1, hinv⟩ := ih _ (Next_PassInvariant f hb s h)
    refine ⟨s1, ?_, hinv⟩
    rw [List.replicate_succ, AsyncForwardList.runOps]
    simp only [AsyncForwardList.applyOp, Option.some_bind]
    exact hs1

end pass

/-! ## The requests a call of the loop executes -/


/-- Executing a request appends it to the log. -/
theorem Execute_log (ext : Externals) (req : Request) (w : World) :
    (Execute ext req w).2.log = w.log ++ [req] := by
  unfold Execute
  split <;> rfl

/-- A token refresh executes exactly the refresh request. -/
theorem RefreshToken_log (ext : Externals) (w : World) :
    (RefreshToken ext w).2.log = w.log ++ [refreshRequest w.auth] := by
  have h := Execute_log ext (refreshRequest w.auth) w
  unfold RefreshToken
  split
  · rename_i heq; rw [heq] at h; exact h
  · rename_i heq
    rw [heq] at h
    repeat' split
    all_goals exact h

/-- The loop executes the request it is given first; every request it
executes after that is a token refresh or a replay of the request with the
same URL, method, arguments and body. -/
theorem loop_log (ext : Externals) :
    ∀ (n : Nat) (retries : Int) (req : Request) (w : World),
      (w.auth.GetRetries - retries).toNat ≤ n →
      ∃ rest, (DealWithErrorsAndAuthLoop ext retries req w).2.2.log = w.log ++ req :: rest
        ∧ ∀ q ∈ rest, q.url = refreshUrl
            ∨ (q.url = req.url ∧ q.type = req.type ∧ q.args = req.args ∧ q.body = req.body) := by
  intro n
  induction n with
  | zero =>
    intro retries req w hn
    have hlog := Execute_log ext req w
    have hauth := Execute_auth ext req w
    cases hE : Execute ext req w with
    | mk r1 w1 =>
      rw [hE] at hlog hauth
      dsimp only at hlog hauth
      cases r1 with
      | error e =>
        rw [loop_execute_throws ext retries req w w1 e hE]
        exact ⟨[], by rw [hlog], fun q hq => by cases hq⟩
      | ok reply =>
        cases hD : DealWithErrors ext reply with
        | ok u =>
          rw [loop_success ext retries req w w1 reply hE hD]
          exact ⟨[], by rw [hlog], fun q hq => by cases hq⟩
        | error e =>
          have hge : retries ≥ w1.auth.GetRetries := by rw [hauth]; omega
          cases e with
          | AuthenticationException err =>
            rw [loop_auth_exhausted ext retries req w w1 reply err hE hD hge]
            exact ⟨[], by rw [hlog], fun q hq => by cases hq⟩
          | ServerErrorException err =>
            rw [loop_other_error ext retries req w w1 reply _ hE hD (fun _ h => by cases h)]
            exact ⟨[], by rw [hlog], fun q hq => by cases hq⟩
          | NotFoundException err =>
            rw [loop_other_error ext retries req w w1 reply _ hE hD (fun _ h => by cases h)]
            exact ⟨[], by rw [hlog], fun q hq => by cases hq⟩
          | runtime_error what =>
            rw [loop_other_error ext retries req w w1 reply _ hE hD (fun _ h => by cases h)]
            exact ⟨[], by rw [hlog], fun q hq => by cases hq⟩
          | library_error what =>
            rw [loop_other_error ext retries req w w1 reply _ hE hD (fun _ h => by cases h)]
            exact ⟨[], by rw [hlog], fun q hq => by cases hq⟩
  | succ n ih =>
    intro retries req w hn
    have hlog := Execute_log ext req w
    have hauth := Execute_auth ext req w
    cases hE : Execute ext req w with
    | mk r1 w1 =>
      rw [hE] at hlog hauth
      dsimp only at hlog hauth
      cases r1 with
      | error e =>
        rw [loop_execute_throws ext retries req w w1 e hE]
        exact ⟨[], by rw [hlog], fun q hq => by cases hq⟩
      | ok reply =>
        cases hD : DealWithErrors ext reply with
        | ok u =>
          rw [loop_success ext retries req w w1 reply hE hD]
          exact ⟨[], by rw [hlog], fun q hq => by cases hq⟩
        | error e =>
          cases e with
          | AuthenticationException err =>
            by_cases hge : retries ≥ w1.auth.GetRetries
            · rw [loop_auth_exhausted ext retries req w w1 reply err hE hD hge]
              exact ⟨[], by rw [hlog], fun q hq => by cases hq⟩
            · have hlt : retries < w1.auth.GetRetries := by omega
              have hrlog := RefreshToken_log ext w1
              have hrret := RefreshToken_retries ext w1
              cases hR : RefreshToken ext w1 with
              | mk r2 w2 =>
                rw [hR] at hrlog hrret
                dsimp only at hrlog hrret
                have hmeasure : (w2.auth.GetRetries - (retries + 1)).toNat ≤ n := by
                  rw [hrret, hauth]; omega
                cases r2 with
                | error e2 =>
                  rw [loop_refresh_throws ext retries req w w1 w2 reply err e2 hE hD hlt hR]
                  refine ⟨[refreshRequest w1.auth], by rw [hrlog, hlog]; simp, ?_⟩
                  intro q hq
                  rw [List.mem_singleton] at hq
                  rw [hq]; exact Or.inl rfl
                | ok b =>
                  cases b with
                  | true =>
                    rw [loop_refresh_true ext retries req w w1 w2 reply err hE hD hlt hR]
                    obtain ⟨rest, hrest, hall⟩ :=
                      ih (retries + 1) (withBearer req w2.auth.GetToken) w2 hmeasure
                    refine ⟨refreshRequest w1.auth :: withBearer req w2.auth.GetToken :: rest,
                      by rw [hrest, hrlog, hlog]; simp, ?_⟩
                    intro q hq
                    rcases List.mem_cons.mp hq with hq | hq
                    · rw [hq]; exact Or.inl rfl
                    · rcases List.mem_cons.mp hq with hq | hq
                      · rw [hq]; exact Or.inr ⟨rfl, rfl, rfl, rfl⟩
                      · exact hall q hq
                  | false =>
                    rw [loop_refresh_false ext retries req w w1 w2 reply err hE hD hlt hR]
                    obtain ⟨rest, hrest, hall⟩ := ih (retries + 1) req w2 hmeasure
                    refine ⟨refreshRequest w1.auth :: req :: rest,
                      by rw [hrest, hrlog, hlog]; simp, ?_⟩
                    intro q hq
                    rcases List.mem_cons.mp hq with hq | hq
                    · rw [hq]; exact Or.inl rfl
                    · rcases List.mem_cons.mp hq with hq | hq
                      · rw [hq]; exact Or.inr ⟨rfl, rfl, rfl, rfl⟩
                      · exact hall q hq
          | ServerErrorException err =>
            rw [loop_other_error ext retries req w w1 reply _ hE hD (fun _ h => by cases h)]
            exact ⟨[], by rw [hlog], fun q hq => by cases hq⟩
          | NotFoundException err =>
            rw [loop_other_error ext retries req w w1 reply _ hE hD (fun _ h => by cases h)]
            exact ⟨[], by rw [hlog], fun q hq => by cases hq⟩
          | runtime_error what =>
            rw [loop_other_error ext retries req w w1 reply _ hE hD (fun _ h => by cases h)]
            exact ⟨[], by rw [hlog], fun q hq => by cases hq⟩
          | library_error what =>
            rw [loop_other_error ext retries req w w1 reply _ hE hD (fun _ h => by cases h)]
            exact ⟨[], by rw [hlog], fun q hq => by cases hq⟩

/-- The requests executed by `DealWithErrorsAndAuth(req)`: the request first,
then token refreshes and replays of it. -/
theorem DealWithErrorsAndAuth_log (ext : Externals) (req : Request) (w : World) :
    ∃ rest, (DealWithErrorsAndAuth ext req w).2.2.log = w.log ++ req :: rest
      ∧ ∀ q ∈ rest, q.url = refreshUrl
          ∨ (q.url = req.url ∧ q.type = req.type ∧ q.args = req.args ∧ q.body = req.body) :=
  loop_log ext _ 0 req w (le_refl _)

/-! ## `SetOrReplaceArg` -/


/-- After `SetOrReplaceArg` every argument with the name has the value. -/
theorem SetOrReplaceArg_value (args : args_t) (name value : String) :
    ∀ p ∈ SetOrReplaceArg args name value, p.1 = name → p.2 = value := by
  intro p hp hname
  unfold SetOrReplaceArg at hp
  dsimp only at hp
  have hmap : ∀ q ∈ args.map (fun a => if a.1 = name then (a.1, value) else a),
      q.1 = name → q.2 = value := by
    intro q hq hqn
    rw [List.mem_map] at hq
    obtain ⟨a, _, ha⟩ := hq
    by_cases h : a.1 = name
    · rw [if_pos h] at ha; rw [← ha]
    · rw [if_neg h] at ha; rw [← ha] at hqn; exact absurd hqn h
  split at hp
  · exact hmap p hp hname
  · rw [List.mem_append, List.mem_singleton] at hp
    rcases hp with hp | hp
    · exact hmap p hp hname
    · rw [hp]

/-- After `SetOrReplaceArg` the argument is there. -/
theorem SetOrReplaceArg_mem (args : args_t) (name value : String) :
    (name, value) ∈ SetOrReplaceArg args name value := by
  unfold SetOrReplaceArg
  dsimp only
  split
  · rename_i h
    rw [List.any_eq_true] at h
    obtain ⟨a, ha, hn⟩ := h
    rw [decide_eq_true_eq] at hn
    rw [List.mem_map]
    exact ⟨a, ha, by rw [if_pos hn, hn]⟩
  · rw [List.mem_append, List.mem_singleton]
    exact Or.inr rfl

/-- `SetOrReplaceArg` leaves the arguments with other names as they are, in
their order. -/
theorem SetOrReplaceArg_others (args : args_t) (name value : String) :
    (SetOrReplaceArg args name value).filter (fun p => decide (p.1 ≠ name))
      = args.filter (fun p => decide (p.1 ≠ name)) := by
  have hmap : (args.map (fun a => if a.1 = name then (a.1, value) else a)).filter
      (fun p => decide (p.1 ≠ name)) = args.filter (fun p => decide (p.1 ≠ name)) := by
    induction args with
    | nil => rfl
    | cons a rest ih =>
      rw [List.map_cons]
      by_cases h : a.1 = name
      · rw [if_pos h, List.filter_cons_of_neg (by simp [h]),
          List.filter_cons_of_neg (by simp [h])]
        exact ih
      · rw [if_neg h, List.filter_cons_of_pos (by simp [h]),
          List.filter_cons_of_pos (by simp [h]), ih]
  unfold SetOrReplaceArg
  dsimp only
  split
  · exact hmap
  · rw [List.filter_append, hmap]
    simp

/-- `SetOrReplaceArg` does not change the number of arguments with the name,
except that it makes it one when it was zero. -/
theorem SetOrReplaceArg_count (args : args_t) (name value : String) :
    (SetOrReplaceArg args name value).countP (fun p => decide (p.1 = name))
      = max 1 (args.countP (fun p => decide (p.1 = name))) := by
  have hmap : (args.map (fun a => if a.1 = name then (a.1, value) else a)).countP
      (fun p => decide (p.1 = name)) = args.countP (fun p => decide (p.1 = name)) := by
    induction args with
    | nil => rfl
    | cons a rest ih =>
      rw [List.map_cons]
      by_cases h : a.1 = name
      · rw [if_pos h, List.countP_cons_of_pos _ _ (by simp [h]),
          List.countP_cons_of_pos _ _ (by simp [h]), ih]
      · rw [if_neg h, List.countP_cons_of_neg _ _ (by simp [h]),
          List.countP_cons_of_neg _ _ (by simp [h]), ih]
  unfold SetOrReplaceArg
  dsimp only
  split
  · rename_i h
    rw [hmap]
    have hpos : 0 < args.countP (fun p => decide (p.1 = name)) := by
      rw [List.countP_pos_iff]
      rw [List.any_eq_true] at h
      exact h
    omega
  · rename_i h
    rw [List.countP_append, hmap]
    have hz : args.countP (fun p => decide (p.1 = name)) = 0 := by
      rw [List.countP_eq_zero]
      intro a ha hn
      apply h
      rw [List.any_eq_true]
      exact ⟨a, ha, hn⟩
    rw [hz]
    simp

/-- The world after a call of the closure of `List_` is the world after
`DealWithErrorsAndAuth` on the request it built. -/
theorem List_fetch_world {T : Type} (ext : Externals)
    (parseList : Reply → Except String (ListReturnMapper T)) (url : String)
    (headers : Option StringMap) (env : ListEnv) (offset : Int) :
    (List_fetch ext parseList url headers env offset).2.world
      = (DealWithErrorsAndAuth ext
          (Request.Create url RequestType.GET none
            (if offset ≠ 0 then
              some (SetOrReplaceArg (env.args.getD []) "offset" (toString offset))
             else env.args) headers) env.world).2.2 := by
  unfold List_fetch
  dsimp only
  split
  · rename_i heq; rw [heq]
  · rename_i heq
    split <;> rw [heq]

/-! ## The bodies of the requests a call of the loop executes -/

/-- A property of requests that the request given to the loop has, that
every refresh request has and that replacing the `Authorization` header
keeps, holds for every request the loop executes. -/
theorem loop_log_all (ext : Externals) (P : Request → Prop)
    (hrefresh : ∀ a, P (refreshRequest a)) (hbearer : ∀ q tok, P q → P (withBearer q tok)) :
    ∀ (n : Nat) (retries : Int) (req : Request) (w : World),
      (w.auth.GetRetries - retries).toNat ≤ n → P req →
      ∃ rest, (DealWithErrorsAndAuthLoop ext retries req w).2.2.log = w.log ++ req :: rest
        ∧ ∀ q ∈ rest, P q := by
  intro n
  induction n with
  | zero =>
    intro retries req w hn hreq
    have hlog := Execute_log ext req w
    have hauth := Execute_auth ext req w
    cases hE : Execute ext req w with
    | mk r1 w1 =>
      rw [hE] at hlog hauth
      dsimp only at hlog hauth
      cases r1 with
      | error e =>
        rw [loop_execute_throws ext retries req w w1 e hE]
        exact ⟨[], by rw [hlog], fun q hq => by cases hq⟩
      | ok reply =>
        cases hD : DealWithErrors ext reply with
        | ok u =>
          rw [loop_success ext retries req w w1 reply hE hD]
          exact ⟨[], by rw [hlog], fun q hq => by cases hq⟩
        | error e =>
          have hge : retries ≥ w1.auth.GetRetries := by rw [hauth]; omega
          cases e with
          | AuthenticationException err =>
            rw [loop_auth_exhausted ext retries req w w1 reply err hE hD hge]
            exact ⟨[], by rw [hlog], fun q hq => by cases hq⟩
          | ServerErrorException err =>
            rw [loop_other_error ext retries req w w1 reply _ hE hD (fun _ h => by cases h)]
            exact ⟨[], by rw [hlog], fun q hq => by cases hq⟩
          | NotFoundException err =>
            rw [loop_other_error ext retries req w w1 reply _ hE hD (fun _ h => by cases h)]
            exact ⟨[], by rw [hlog], fun q hq => by cases hq⟩
          | runtime_error what =>
            rw [loop_other_error ext retries req w w1 reply _ hE hD (fun _ h => by cases h)]
            exact ⟨[], by rw [hlog], fun q hq => by cases hq⟩
          | library_error what =>
            rw [loop_other_error ext retries req w w1 reply _ hE hD (fun _ h => by cases h)]
            exact ⟨[], by rw [hlog], fun q hq => by cases hq⟩
  | succ n ih =>
    intro retries req w hn hreq
    have hlog := Execute_log ext req w
    have hauth := Execute_auth ext req w
    cases hE : Execute ext req w with
    | mk r1 w1 =>
      rw [hE] at hlog hauth
      dsimp only at hlog hauth
      cases r1 with
      | error e =>
        rw [loop_execute_throws ext retries req w w1 e hE]
        exact ⟨[], by rw [hlog], fun q hq => by cases hq⟩
      | ok reply =>
        cases hD : DealWithErrors ext reply with
        | ok u =>
          rw [loop_success ext retries req w w1 reply hE hD]
          exact ⟨[], by rw [hlog], fun q hq => by cases hq⟩
        | error e =>
          cases e with
          | AuthenticationException err =>
            by_cases hge : retries ≥ w1.auth.GetRetries
            · rw [loop_auth_exhausted ext retries req w w1 reply err hE hD hge]
              exact ⟨[], by rw [hlog], fun q hq => by cases hq⟩
            · have hlt : retries < w1.auth.GetRetries := by omega
              have hrlog := RefreshToken_log ext w1
              have hrret := RefreshToken_retries ext w1
              cases hR : RefreshToken ext w1 with
              | mk r2 w2 =>
                rw [hR] at hrlog hrret
                dsimp only at hrlog hrret
                have hmeasure : (w2.auth.GetRetries - (retries + 1)).toNat ≤ n := by
                  rw [hrret, hauth]; omega
                cases r2 with
                | error e2 =>
                  rw [loop_refresh_throws ext retries req w w1 w2 reply err e2 hE hD hlt hR]
                  refine ⟨[refreshRequest w1.auth], by rw [hrlog, hlog]; simp, ?_⟩
                  intro q hq
                  rw [List.mem_singleton] at hq
                  rw [hq]; exact hrefresh _
                | ok b =>
                  cases b with
                  | true =>
                    rw [loop_refresh_true ext retries req w w1 w2 reply err hE hD hlt hR]
                    obtain ⟨rest, hrest, hall⟩ :=
                      ih (retries + 1) (withBearer req w2.auth.GetToken) w2 hmeasure
                        (hbearer req _ hreq)
                    refine ⟨refreshRequest w1.auth :: withBearer req w2.auth.GetToken :: rest,
                      by rw [hrest, hrlog, hlog]; simp, ?_⟩
                    intro q hq
                    rcases List.mem_cons.mp hq with hq | hq
                    · rw [hq]; exact hrefresh _
                    · rcases List.mem_cons.mp hq with hq | hq
                      · rw [hq]; exact hbearer req _ hreq
                      · exact hall q hq
                  | false =>
                    rw [loop_refresh_false ext retries req w w1 w2 reply err hE hD hlt hR]
                    obtain ⟨rest, hrest, hall⟩ := ih (retries + 1) req w2 hmeasure hreq
                    refine ⟨refreshRequest w1.auth :: req :: rest,
                      by rw [hrest, hrlog, hlog]; simp, ?_⟩
                    intro q hq
                    rcases List.mem_cons.mp hq with hq | hq
                    · rw [hq]; exact hrefresh _
                    · rcases List.mem_cons.mp hq with hq | hq
                      · rw [hq]; exact hreq
                      · exact hall q hq
          | ServerErrorException err =>
            rw [loop_other_error ext retries req w w1 reply _ hE hD (fun _ h => by cases h)]
            exact ⟨[], by rw [hlog], fun q hq => by cases hq⟩
          | NotFoundException err =>
            rw [loop_other_error ext retries req w w1 reply _ hE hD (fun _ h => by cases h)]
            exact ⟨[], by rw [hlog], fun q hq => by cases hq⟩
          | runtime_error what =>
            rw [loop_other_error ext retries req w w1 reply _ hE hD (fun _ h => by cases h)]
            exact ⟨[], by rw [hlog], fun q hq => by cases hq⟩
          | library_error what =>
            rw [loop_other_error ext retries req w w1 reply _ hE hD (fun _ h => by cases h)]
            exact ⟨[], by rw [hlog], fun q hq => by cases hq⟩

/-- Every request that `DoPost(object, url)` executes is the POST of the
serialised object, a replay of it with another `Authorization` header, or a
token refresh, which has no body: whatever holds for the serialised object
holds for every body sent. -/
theorem DoPost_bodies {objectT : Type} (ext : Externals) (serialize : Serializer objectT)
    (res : ResourceImpl) (object : objectT) (url : String) (w : World) (good : String → Prop)
    (hgood : good (serialize object res.GetJsonFieldMapping res.GetReadOnlyNames)) :
    ∃ first rest, (DoPost ext serialize res object url w).2.2.log = w.log ++ first :: rest
      ∧ first.url = url ∧ first.type = RequestType.POST
      ∧ first.body = some (serialize object res.GetJsonFieldMapping res.GetReadOnlyNames)
      ∧ ∀ q ∈ first :: rest, ∀ b, q.body = some b → good b := by
  have hP : ∀ (q : Request) (tok : String), (∀ b, q.body = some b → good b) →
      ∀ b, (withBearer q tok).body = some b → good b := fun q _ h b hb => h b hb
  obtain ⟨rest, hlog, hall⟩ :=
    loop_log_all ext (fun q => ∀ b, q.body = some b → good b)
      (fun a b hb => by cases hb) hP _ 0
      { url := url, type := RequestType.POST,
        body := some (serialize object res.GetJsonFieldMapping res.GetReadOnlyNames),
        args := [], headers := (ToHeaders w.auth).getD [] } w (le_refl _)
      (fun b hb => by cases hb; exact hgood)
  refine ⟨_, rest, hlog, rfl, rfl, rfl, ?_⟩
  intro q hq
  rcases List.mem_cons.mp hq with hq | hq
  · rw [hq]; intro b hb; cases hb; exact hgood
  · exact hall q hq

/-- The world after `Create_(object)` is the world after its `DoPost`. -/
theorem Create_world {createTypeT : Type} (ext : Externals) (serialize : Serializer createTypeT)
    (parseGenericReply : Reply → Except String GenericReply) (res : ResourceImpl)
    (object : createTypeT) (w : World) :
    (Create_ ext serialize parseGenericReply res object w).2
      = (DoPost ext serialize res object res.resource_url_ w).2.2 := by
  unfold Create_
  split
  · rename_i heq; rw [heq]
  · rename_i heq
    split <;> rw [heq]

/-- The state of the closure after a fetch is the state the closure returned,
called on the cumulative offset converted to `int`. -/
theorem Fetch_env {T σ : Type} (f : fetch_fn_t T σ) (s : AsyncForwardList T σ) :
    (AsyncForwardList.Fetch f s).2.fetch_env_
      = (f s.fetch_env_ (wrapInt32 (wrapInt64 (s.offset_ + s.current_)))).2 := by
  unfold AsyncForwardList.Fetch
  dsimp only
  split
  · rename_i heq; rw [heq]
  · rename_i heq
    split <;> rw [heq]

/-- On a server that answers every resource request with 200, the `begin()`
of a list without arguments that starts at offset 0 executes one request: a
GET of the URL the closure is bound to, with the captured headers. -/
theorem begin_first_request {T : Type} (parseList : Reply → Except String (ListReturnMapper T))
    (tok url : String) (hne : url ≠ refreshUrl) (headers : Option StringMap) (w : World) :
    (AsyncForwardList.begin_ (List_fetch (serverStatus 200 tok) parseList url headers)
        (AsyncForwardList.mk_ { args := none, world := w } 0)).2.fetch_env_.world.log
      = w.log ++ [Request.Create url RequestType.GET none none headers] := by
  have hexec : Execute (serverStatus 200 tok)
      (Request.Create url RequestType.GET none none headers) w
      = (Except.ok { code := 200, body := "reply" },
         { w with log := w.log ++ [Request.Create url RequestType.GET none none headers] }) := by
    simp [Execute, serverStatus, Request.Create, hne]
  have hloop := loop_success (serverStatus 200 tok) 0 _ _ _ _ hexec
    (DealWithErrors_lt_300 _ _ (by decide))
  have hw := List_fetch_world (serverStatus 200 tok) parseList url headers
    { args := none, world := w } 0
  rw [if_neg (by decide)] at hw
  unfold AsyncForwardList.begin_
  rw [Fetch_env]
  have h0 : wrapInt32 (wrapInt64 ((AsyncForwardList.mk_ ({ args := none, world := w } : ListEnv)
      0 : AsyncForwardList T ListEnv).offset_
      + (AsyncForwardList.mk_ ({ args := none, world := w } : ListEnv) 0
          : AsyncForwardList T ListEnv).current_)) = 0 := by
    show wrapInt32 (wrapInt64 (0 + 0)) = 0
    decide
  rw [h0]
  show (List_fetch (serverStatus 200 tok) parseList url headers
    { args := none, world := w } 0).2.world.log = _
  rw [hw]
  unfold DealWithErrorsAndAuth
  rw [hloop]

/-! ## The key order of a `std::map` -/

/-- No character sequence is below itself. -/
theorem charsLess_irrefl : ∀ a : List Char, charsLess a a = false
  | [] => rfl
  | c :: cs => by
    rw [charsLess]
    simp [charsLess_irrefl cs]

/-- The order on character sequences is transitive. -/
theorem charsLess_trans : ∀ a b c : List Char,
    charsLess a b = true → charsLess b c = true → charsLess a c = true
  | _, [], _, h1, _ => by simp [charsLess] at h1
  | _, _ :: _, [], _, h2 => by simp [charsLess] at h2
  | [], _ :: _, _ :: _, _, _ => by simp [charsLess]
  | x :: xs, y :: ys, z :: zs, h1, h2 => by
    simp only [charsLess, Bool.or_eq_true, Bool.and_eq_true, decide_eq_true_eq] at h1 h2 ⊢
    rcases h1 with h1 | ⟨h1, h1r⟩
    · rcases h2 with h2 | ⟨h2, _⟩
      · exact Or.inl (by omega)
      · exact Or.inl (by omega)
    · rcases h2 with h2 | ⟨h2, h2r⟩
      · exact Or.inl (by omega)
      · exact Or.inr ⟨by omega, charsLess_trans xs ys zs h1r h2r⟩

/-- Two different character sequences are ordered one way or the other. -/
theorem charsLess_total : ∀ a b : List Char,
    charsLess a b = false → a ≠ b → charsLess b a = true
  | [], [], _, hne => absurd rfl hne
  | [], _ :: _, h, _ => by simp [charsLess] at h
  | _ :: _, [], _, _ => by simp [charsLess]
  | x :: xs, y :: ys, h, hne => by
    simp only [charsLess, Bool.or_eq_false_iff, Bool.and_eq_false_iff, decide_eq_false_iff_not,
      Bool.or_eq_true, Bool.and_eq_true, decide_eq_true_eq] at h ⊢
    obtain ⟨h1, h2⟩ := h
    by_cases hxy : x.toNat = y.toNat
    · have hc : x = y := by
        rw [← Char.ofNat_toNat x, ← Char.ofNat_toNat y, hxy]
      have hrest : xs ≠ ys := fun he => hne (by rw [hc, he])
      rcases h2 with h2 | h2
      · exact absurd hxy h2
      · exact Or.inr ⟨hxy.symm, charsLess_total xs ys h2 hrest⟩
    · exact Or.inl (by omega)

/-- No key is below itself. -/
theorem keyLess_irrefl (a : String) : keyLess a a = false := charsLess_irrefl a.data

/-- The key order is transitive. -/
theorem keyLess_trans (a b c : String) (h1 : keyLess a b = true) (h2 : keyLess b c = true) :
    keyLess a c = true :=
  charsLess_trans _ _ _ h1 h2

/-- Two different keys are ordered one way or the other. -/
theorem keyLess_total (a b : String) (h : keyLess a b = false) (hne : a ≠ b) :
    keyLess b a = true :=
  charsLess_total _ _ h (fun he => hne (String.ext he))

/-- Every key of `m[k] = v` is `k` or a key of `m`. -/
theorem StringMap.mem_set (m : StringMap) (k v : String) :
    ∀ p ∈ m.set k v, p = (k, v) ∨ p ∈ m := by
  induction m with
  | nil =>
    intro p hp
    simp only [StringMap.set, List.mem_singleton] at hp
    exact Or.inl hp
  | cons e rest ih =>
    obtain ⟨k1, v1⟩ := e
    intro p hp
    rw [StringMap.set] at hp
    split at hp
    · rcases List.mem_cons.mp hp with hp | hp
      · exact Or.inl hp
      · exact Or.inr hp
    · split at hp
      · rcases List.mem_cons.mp hp with hp | hp
        · exact Or.inl hp
        · exact Or.inr (List.mem_cons_of_mem _ hp)
      · rcases List.mem_cons.mp hp with hp | hp
        · exact Or.inr (by rw [hp]; exact List.mem_cons_self _ _)
        · rcases ih p hp with hp | hp
          · exact Or.inl hp
          · exact Or.inr (List.mem_cons_of_mem _ hp)

/-- Assignment keeps the keys of a map in ascending order. -/
theorem StringMap.set_keysAscending (m : StringMap) (k v : String) (h : m.keysAscending) :
    (m.set k v).keysAscending := by
  unfold StringMap.keysAscending at h ⊢
  induction m with
  | nil => simp [StringMap.set]
  | cons e rest ih =>
    obtain ⟨k1, v1⟩ := e
    rw [List.pairwise_cons] at h
    obtain ⟨hhead, htail⟩ := h
    rw [StringMap.set]
    split
    · rename_i hlt
      rw [List.pairwise_cons]
      refine ⟨?_, List.pairwise_cons.mpr ⟨hhead, htail⟩⟩
      intro p hp
      rcases List.mem_cons.mp hp with hp | hp
      · rw [hp]; exact hlt
      · exact keyLess_trans _ _ _ hlt (hhead p hp)
    · rename_i hnlt
      split
      · rename_i heq
        rw [List.pairwise_cons]
        refine ⟨?_, htail⟩
        intro p hp
        rw [heq]
        exact hhead p hp
      · rename_i hne
        rw [List.pairwise_cons]
        refine ⟨?_, ih htail⟩
        intro p hp
        rcases StringMap.mem_set rest k v p hp with hp | hp
        · rw [hp]
          exact keyLess_total k k1 (by simpa using hnlt) hne
        · exact hhead p hp

/-- Assignment to a key leaves the values of the other keys alone. -/
theorem StringMap.find_set_other (m : StringMap) (k v k2 : String) (hne : k2 ≠ k) :
    (m.set k v).find k2 = m.find k2 := by
  induction m with
  | nil => simp [StringMap.set, StringMap.find, hne]
  | cons e rest ih =>
    obtain ⟨k1, v1⟩ := e
    rw [StringMap.set]
    split
    · rw [StringMap.find, if_neg hne]
    · split
      · rename_i heq
        rw [StringMap.find, if_neg hne, StringMap.find, if_neg (by rw [← heq]; exact hne)]
      · rw [StringMap.find, StringMap.find]
        split
        · rfl
        · exact ih

/-- In a map, the entries are the key/value pairs that lookup finds. -/
theorem StringMap.mem_iff_find (m : StringMap) (h : m.keysAscending) (k v : String) :
    (k, v) ∈ m ↔ m.find k = some v := by
  unfold StringMap.keysAscending at h
  induction m with
  | nil => simp [StringMap.find]
  | cons e rest ih =>
    obtain ⟨k1, v1⟩ := e
    rw [List.pairwise_cons] at h
    obtain ⟨hhead, htail⟩ := h
    rw [StringMap.find, List.mem_cons]
    by_cases hk : k = k1
    · rw [if_pos hk]
      constructor
      · intro hm
        rcases hm with hm | hm
        · cases hm; rfl
        · have := hhead _ hm
          rw [hk] at this
          dsimp only at this
          rw [keyLess_irrefl] at this
          cases this
      · intro hv
        cases hv
        exact Or.inl (by rw [hk])
    · rw [if_neg hk, ← ih htail]
      constructor
      · intro hm
        rcases hm with hm | hm
        · cases hm; exact absurd rfl hk
        · exact hm
      · intro hm
        exact Or.inr hm

/-- A map in which lookup finds nothing is empty. -/
theorem StringMap.eq_nil_of_find_none (m : StringMap) (h : ∀ k, m.find k = none) : m = [] := by
  cases m with
  | nil => rfl
  | cons e rest =>
    obtain ⟨k1, v1⟩ := e
    have := h k1
    rw [StringMap.find, if_pos rfl] at this
    cases this

/-- The arguments that `ToArgs` returns are a map with ascending keys, given
as such unless it is empty, in which lookup finds what the specification
says. -/
theorem ToArgs_map (f : Option StringMap) (lp : Option ListParameters)
    (hf : ∀ m, f = some m → m.keysAscending) :
    ∃ m : StringMap, ToArgs f lp = (if m ≠ [] then some m else none) ∧ m.keysAscending
      ∧ ∀ k, m.find k = ToArgs_spec f lp k := by
  have h0 : (f.getD []).keysAscending := by
    cases f with
    | none => exact List.Pairwise.nil
    | some m => exact hf m rfl
  have hplain : ToArgs f none = (if f.getD [] ≠ [] then some (f.getD []) else none) := by
    cases f with
    | none => rfl
    | some m => rfl
  cases lp with
  | none => exact ⟨f.getD [], hplain, h0, fun k => rfl⟩
  | some p =>
    by_cases hc : p.page_size ≠ 0 ∨ p.start_offset ≠ 0 ∨ p.sort ≠ ""
    · have hm1 : (if p.page_size ≠ 0 then (f.getD []).set "limit" (toString p.page_size)
          else f.getD []).keysAscending := by
        split
        · exact StringMap.set_keysAscending _ _ _ h0
        · exact h0
      refine ⟨if p.sort ≠ "" then
          (if p.page_size ≠ 0 then (f.getD []).set "limit" (toString p.page_size)
            else f.getD []).set "sort" p.sort
          else (if p.page_size ≠ 0 then (f.getD []).set "limit" (toString p.page_size)
            else f.getD []), ?_, ?_, ?_⟩
      · unfold ToArgs
        simp only [if_pos hc]
      · split
        · exact StringMap.set_keysAscending _ _ _ hm1
        · exact hm1
      · intro k
        unfold ToArgs_spec
        dsimp only
        by_cases hks : k = "sort"
        · subst hks
          by_cases hs : p.sort = ""
          · by_cases hp : p.page_size = 0
            · simp [hs, hp]
            · simp [hs, hp, StringMap.find_set_other]
          · simp [hs, StringMap.find_set_self]
        · by_cases hkl : k = "limit"
          · subst hkl
            by_cases hs : p.sort = ""
            · by_cases hp : p.page_size = 0
              · simp [hs, hp]
              · simp [hs, hp, StringMap.find_set_self]
            · by_cases hp : p.page_size = 0
              · simp [hs, hp, StringMap.find_set_other]
              · simp [hs, hp, StringMap.find_set_other, StringMap.find_set_self]
          · by_cases hs : p.sort = ""
            · by_cases hp : p.page_size = 0
              · simp [hs, hp, hks, hkl]
              · simp [hs, hp, hks, hkl, StringMap.find_set_other]
            · by_cases hp : p.page_size = 0
              · simp [hs, hp, hks, hkl, StringMap.find_set_other]
              · simp [hs, hp, hks, hkl, StringMap.find_set_other]
    · have hps : ¬ p.page_size ≠ 0 := fun h => hc (Or.inl h)
      have hso : ¬ p.sort ≠ "" := fun h => hc (Or.inr (Or.inr h))
      refine ⟨f.getD [], ?_, h0, ?_⟩
      · rw [← hplain]
        unfold ToArgs
        simp only [if_neg hc]
      · intro k
        unfold ToArgs_spec
        dsimp only
        rw [if_neg (fun h => hps h.2), if_neg (fun h => hso h.2)]

/-! ## A list over the deterministic server that is iterated again -/

section fakeAgain
variable {T : Type} (recs : List T) (p : Nat)

/-- `begin()` on a list that holds a page and has a current record fetches
the page that starts at the current record. -/
theorem fakeState_begin (o c pages : Nat) (tr : List Int) (hN : recs.length < 2147483648)
    (hp : 1 ≤ p) (hoc : o + c < recs.length) :
    AsyncForwardList.begin_ (fakeFetch recs p) (fakeState recs p o c pages tr)
      = (Except.ok (),
         fakeState recs p (o + c) 0 (pages + 1) (tr ++ [((o + c : Nat) : Int)])) := by
  have hw2 : wrapInt64 ((o : Int) + (c : Int)) = ((o + c : Nat) : Int) := by
    rw [wrapInt64_of_bounds _ (by omega) (by omega)]; omega
  have hw3 : wrapInt32 ((o + c : Nat) : Int) = ((o + c : Nat) : Int) :=
    wrapInt32_of_bounds _ (by omega) (by omega)
  have hpos : 0 < (fakePage recs p (o + c)).list.length := by
    rw [fakePage_length]; omega
  have hw4 : wrapInt64 ((fakePage recs p (o + c)).list.length : Int)
      = (fakePage recs p (o + c)).list.length := by
    have h := fakePage_length recs p (o + c)
    exact wrapInt64_of_bounds _ (by omega) (by omega)
  simp only [AsyncForwardList.begin_, AsyncForwardList.Fetch, fakeState, hw2, hw3, fakeFetch,
    Int.toNat_ofNat, AsyncForwardList.HaveCurrent, hw4]
  simp
  exact List.ne_nil_of_length_pos hpos

/-- Draining a list over the deterministic server from record `o + c` on,
wherever its page starts: the remaining records are appended in order. -/
theorem fake_ToContainerLoop_from (hN : recs.length < 2147483648) :
    ∀ (fuel o c pages : Nat) (tr : List Int) (cont : List T),
      c < p → o + c < recs.length → recs.length - (o + c) + 1 ≤ fuel →
      ∃ s, AsyncForwardList.ToContainerLoop (fakeFetch recs p) fuel
              (fakeState recs p o c pages tr) cont
            = some (Except.ok (cont ++ recs.drop (o + c)), s)
          ∧ s.Ended = true := by
  intro fuel
  induction fuel with
  | zero => intro o c pages tr cont _ _ h; omega
  | succ fuel ih =>
    intro o c pages tr cont hc hoc hfuel
    have hdrop : recs.drop (o + c) = recs.get ⟨o + c, hoc⟩ :: recs.drop (o + c + 1) :=
      List.drop_eq_getElem_cons hoc
    have hE : (fakeState recs p o c pages tr).Ended = false := rfl
    have hcur := fakeState_GetCurrent recs p o c pages tr hN hc hoc
    by_cases hlast : o + c + 1 = recs.length
    · have hnext := fakeState_Next_last recs p o c pages tr hN hc hlast
      obtain ⟨fuel1, rfl⟩ : ∃ f, fuel = f + 1 := ⟨fuel - 1, by omega⟩
      refine ⟨{ fakeState recs p o (c + 1) pages tr with reached_end_ := true }, ?_, rfl⟩
      rw [AsyncForwardList.ToContainerLoop, hE, hcur, hnext]
      dsimp only [Bool.false_eq_true, if_false]
      rw [AsyncForwardList.ToContainerLoop]
      dsimp only [AsyncForwardList.Ended, if_true]
      rw [hdrop, List.drop_of_length_le (by omega)]
      rfl
    · have hlt : o + c + 1 < recs.length := by omega
      by_cases hfull : c + 1 = p
      · have hnext := fakeState_Next_fetch recs p o c pages tr hN hfull hlt
        obtain ⟨s, hs, hrest⟩ := ih (o + p) 0 (pages + 1) (tr ++ [((o + p : Nat) : Int)])
          (cont ++ [recs.get ⟨o + c, hoc⟩]) (by omega) (by omega) (by omega)
        refine ⟨s, ?_, hrest⟩
        rw [AsyncForwardList.ToContainerLoop, hE, hcur, hnext]
        dsimp only [Bool.false_eq_true, if_false]
        rw [hs, hdrop]
        have h3 : o + p + 0 = o + c + 1 := by omega
        rw [h3, List.append_assoc]
        rfl
      · have hnext := fakeState_Next_within recs p o c pages tr hN (by omega) hlt
        obtain ⟨s, hs, hrest⟩ := ih o (c + 1) pages tr
          (cont ++ [recs.get ⟨o + c, hoc⟩]) (by omega) (by omega) (by omega)
        refine ⟨s, ?_, hrest⟩
        rw [AsyncForwardList.ToContainerLoop, hE, hcur, hnext]
        dsimp only [Bool.false_eq_true, if_false]
        rw [hs, hdrop]
        have h3 : o + (c + 1) = o + c + 1 := by omega
        rw [h3, List.append_assoc]
        rfl

/-- `ToContainer()` on a list that holds a page and has a current record
returns the records from the current record on. -/
theorem fakeState_ToContainer (o c pages : Nat) (tr : List Int) (hN : recs.length < 2147483648)
    (hp : 1 ≤ p) (hoc : o + c < recs.length) (fuel : Nat)
    (hfuel : recs.length - (o + c) + 1 ≤ fuel) :
    ∃ s, AsyncForwardList.ToContainer (fakeFetch recs p) fuel (fakeState recs p o c pages tr)
          = some (Except.ok (recs.drop (o + c)), s)
        ∧ s.Ended = true := by
  obtain ⟨s, hs, hE⟩ := fake_ToContainerLoop_from recs p hN fuel (o + c) 0 (pages + 1)
    (tr ++ [((o + c : Nat) : Int)]) [] (by omega) (by omega) (by omega)
  refine ⟨s, ?_, hE⟩
  rw [AsyncForwardList.ToContainer, fakeState_begin recs p o c pages tr hN hp hoc]
  dsimp only
  rw [hs]
  simp only [Nat.add_zero, List.nil_append]

end fakeAgain

/-- Calls made one after the other. -/
theorem runOps_append {T σ : Type} (f : fetch_fn_t T σ) (a b : List AsyncForwardList.ListOp) :
    ∀ s : AsyncForwardList T σ,
      AsyncForwardList.runOps f (a ++ b) s
        = (AsyncForwardList.runOps f a s).bind (AsyncForwardList.runOps f b) := by
  induction a with
  | nil => intro s; rfl
  | cons op ops ih =>
    intro s
    rw [List.cons_append, AsyncForwardList.runOps, AsyncForwardList.runOps]
    cases AsyncForwardList.applyOp f op s with
    | none => rfl
    | some s1 => exact ih s1

/-- After `begin()` and `k` calls of `Next()` on a fresh list over the
deterministic server with more than `k` records, the list holds a page and
its cursor is on record `k`. -/
theorem fake_after_nexts {T : Type} (recs : List T) (p : Nat) (hp : 1 ≤ p)
    (hN : recs.length < 2147483648) :
    ∀ k, k < recs.length →
      ∃ o c pages tr,
        AsyncForwardList.runOps (fakeFetch recs p)
            (AsyncForwardList.ListOp.begin :: List.replicate k AsyncForwardList.ListOp.next)
            (AsyncForwardList.mk_ () 0)
          = some (fakeState recs p o c pages tr)
        ∧ o + c = k ∧ c < p := by
  intro k
  induction k with
  | zero =>
    intro hk
    refine ⟨0 * p, 0, 0 + 1, [0], ?_, by omega, by omega⟩
    simp only [List.replicate_zero, AsyncForwardList.runOps, AsyncForwardList.applyOp,
      fake_begin_nonempty recs p hN hp hk, Option.some_bind]
  | succ k ih =>
    intro hk
    obtain ⟨o, c, pages, tr, hrun, hoc, hc⟩ := ih (by omega)
    have happ : AsyncForwardList.ListOp.begin
          :: List.replicate (k + 1) AsyncForwardList.ListOp.next
        = (AsyncForwardList.ListOp.begin :: List.replicate k AsyncForwardList.ListOp.next)
            ++ [AsyncForwardList.ListOp.next] := by
      rw [List.replicate_succ', List.cons_append]
    rw [happ, runOps_append, hrun]
    by_cases hfull : c + 1 = p
    · refine ⟨o + p, 0, pages + 1, tr ++ [((o + p : Nat) : Int)], ?_, by omega, by omega⟩
      simp only [Option.some_bind, AsyncForwardList.runOps, AsyncForwardList.applyOp,
        fakeState_Next_fetch recs p o c pages tr hN hfull (by omega)]
    · refine ⟨o, c + 1, pages, tr, ?_, by omega, by omega⟩
      simp only [Option.some_bind, AsyncForwardList.runOps, AsyncForwardList.applyOp,
        fakeState_Next_within recs p o c pages tr hN (by omega) (by omega)]

/-! ## The cursor and the terminal flag -/

/-- A length converted to the 64 bit cursor type is never above the length. -/
theorem wrapInt64_natCast_le (n : Nat) : wrapInt64 (n : Int) ≤ (n : Int) := by
  unfold wrapInt64
  omega

/-- A converted value is within the range of the 64 bit type. -/
theorem wrapInt64_lt (x : Int) : wrapInt64 x < 9223372036854775808 := by
  unfold wrapInt64
  omega

section cursor
variable {T σ : Type} (f : fetch_fn_t T σ)

/-- What `HaveCurrent()` says: the list has not ended, it holds a page, and
the cursor is below the converted length of the page. -/
theorem HaveCurrent_iff (s : AsyncForwardList T σ) :
    s.HaveCurrent = true
      ↔ s.reached_end_ = false
        ∧ ∃ l, s.list_ = some l ∧ s.current_ < wrapInt64 (l.list.length : Int) := by
  unfold AsyncForwardList.HaveCurrent
  cases hl : s.list_ with
  | none => simp
  | some l => simp

/-- After a fetch that returned normally, and after a fetch on a list that
has not ended and holds a page with records, the list has ended or has a
current record, and the cursor is 0. -/
theorem Fetch_cursor (s : AsyncForwardList T σ)
    (h : (AsyncForwardList.Fetch f s).1 = Except.ok ()
      ∨ (s.reached_end_ = false ∧ ∃ l, s.list_ = some l ∧ 0 < wrapInt64 (l.list.length : Int))) :
    ((AsyncForwardList.Fetch f s).2.reached_end_ = true
        ∨ (AsyncForwardList.Fetch f s).2.HaveCurrent = true)
      ∧ (AsyncForwardList.Fetch f s).2.current_ = 0 := by
  unfold AsyncForwardList.Fetch at h ⊢
  dsimp only at h ⊢
  split
  · rename_i e env heq
    rw [heq] at h
    dsimp only at h
    rcases h with h | ⟨hre, l, hl, hpos⟩
    · cases h
    · refine ⟨Or.inr ?_, rfl⟩
      rw [HaveCurrent_iff]
      exact ⟨hre, l, hl, hpos⟩
  · rename_i l env heq
    split
    · exact ⟨Or.inl rfl, rfl⟩
    · rename_i hhc
      refine ⟨Or.inr ?_, rfl⟩
      rw [Bool.not_eq_true, Bool.not_eq_false_eq_eq_true] at hhc
      rw [HaveCurrent_iff] at hhc ⊢
      exact hhc

/-- `Next()` keeps a list ended or on a current record, with a cursor that is
not negative. -/
theorem Next_cursor (s : AsyncForwardList T σ)
    (h : (s.reached_end_ = true ∨ s.HaveCurrent = true) ∧ 0 ≤ s.current_) :
    ((AsyncForwardList.Next f s).2.reached_end_ = true
        ∨ (AsyncForwardList.Next f s).2.HaveCurrent = true)
      ∧ 0 ≤ (AsyncForwardList.Next f s).2.current_ := by
  obtain ⟨hor, hc⟩ := h
  by_cases hcur : s.HaveCurrent = true
  · obtain ⟨hre, l, hlist, hlt⟩ := (HaveCurrent_iff s).mp hcur
    have hmax := wrapInt64_lt (l.list.length : Int)
    have hw1 : wrapInt64 (s.current_ + 1) = s.current_ + 1 :=
      wrapInt64_of_bounds _ (by omega) (by omega)
    by_cases hge : s.current_ + 1 ≥ wrapInt64 (l.list.length : Int)
    · by_cases hreach : l.total ≤ wrapInt64 (s.offset_ + (s.current_ + 1))
      · have hn : AsyncForwardList.Next f s
            = (Except.ok (), { s with current_ := s.current_ + 1, reached_end_ := true }) := by
          unfold AsyncForwardList.Next
          rw [hcur]
          simp only [hlist, hw1, if_true]
          rw [if_pos hge, if_pos hreach]
        rw [hn]
        exact ⟨Or.inl rfl, by show 0 ≤ s.current_ + 1; omega⟩
      · have hn : AsyncForwardList.Next f s
            = AsyncForwardList.Fetch f { s with current_ := s.current_ + 1 } := by
          unfold AsyncForwardList.Next
          rw [hcur]
          simp only [hlist, hw1, if_true]
          rw [if_pos hge, if_neg hreach]
        rw [hn]
        have hF := Fetch_cursor f { s with current_ := s.current_ + 1 }
          (Or.inr ⟨hre, l, hlist, by omega⟩)
        exact ⟨hF.1, by rw [hF.2]⟩
    · have hn : AsyncForwardList.Next f s
          = (Except.ok (), { s with current_ := s.current_ + 1 }) := by
        unfold AsyncForwardList.Next
        rw [hcur]
        simp only [hlist, hw1, if_true]
        rw [if_neg hge]
      rw [hn]
      refine ⟨Or.inr ?_, by show 0 ≤ s.current_ + 1; omega⟩
      rw [HaveCurrent_iff]
      exact ⟨hre, l, hlist, by show s.current_ + 1 < _; omega⟩
  · have hn : AsyncForwardList.Next f s = (Except.error Failure.assert_failed, s) := by
      unfold AsyncForwardList.Next
      rw [if_neg hcur]
    rw [hn]
    exact ⟨hor, hc⟩

/-- Calls of `Next()` run to the end of the calls and keep a list ended or on
a current record. -/
theorem nexts_cursor :
    ∀ (n : Nat) (s : AsyncForwardList T σ),
      (s.reached_end_ = true ∨ s.HaveCurrent = true) ∧ 0 ≤ s.current_ →
      ∃ s1, AsyncForwardList.runOps f (List.replicate n AsyncForwardList.ListOp.next) s = some s1
        ∧ (s1.reached_end_ = true ∨ s1.HaveCurrent = true) ∧ 0 ≤ s1.current_ := by
  intro n
  induction n with
  | zero => intro s h; exact ⟨s, rfl, h⟩
  | succ n ih =>
    intro s h
    obtain ⟨s1, hs1, hinv⟩ := ih _ (Next_cursor f s h)
    refine ⟨s1, ?_, hinv⟩
    rw [List.replicate_succ, AsyncForwardList.runOps]
    simp only [AsyncForwardList.applyOp, Option.some_bind]
    exact hs1

/-- A current record is a record of the page: the cursor is a valid index and
`GetCurrent()` returns the record there. -/
theorem HaveCurrent_index (s : AsyncForwardList T σ) (hcur : s.HaveCurrent = true)
    (hc : 0 ≤ s.current_) :
    ∃ l, s.list_ = some l ∧ s.current_ < (l.list.length : Int)
      ∧ ∃ x, l.list[s.current_.toNat]? = some x ∧ s.GetCurrent = Except.ok x := by
  obtain ⟨_, l, hlist, hlt⟩ := (HaveCurrent_iff s).mp hcur
  have hle := wrapInt64_natCast_le l.list.length
  have hidx : s.current_.toNat < l.list.length := by omega
  refine ⟨l, hlist, by omega, l.list[s.current_.toNat], List.getElem?_eq_getElem hidx, ?_⟩
  unfold AsyncForwardList.GetCurrent
  rw [hcur]
  simp only [hlist, if_true]
  rw [if_neg (by omega), List.getElem?_eq_getElem hidx]

end cursor

/-! ## Draining a list over any closure that reports one total -/

section drain
variable {T σ : Type} (f : fetch_fn_t T σ)

/-- The loop of `ToContainer()` on a list that has ended. -/
theorem ToContainerLoop_ended (fuel : Nat) (s : AsyncForwardList T σ) (cont : List T)
    (hE : s.Ended = true) :
    AsyncForwardList.ToContainerLoop f (fuel + 1) s cont = some (Except.ok cont, s) := by
  rw [AsyncForwardList.ToContainerLoop, hE]
  rfl

/-- One iteration of the loop of `ToContainer()`. -/
theorem ToContainerLoop_step (fuel : Nat) (s s1 : AsyncForwardList T σ) (cont : List T) (x : T)
    (hE : s.Ended = false) (hcur : s.GetCurrent = Except.ok x)
    (hn : AsyncForwardList.Next f s = (Except.ok (), s1)) :
    AsyncForwardList.ToContainerLoop f (fuel + 1) s cont
      = AsyncForwardList.ToContainerLoop f fuel s1 (cont ++ [x]) := by
  rw [AsyncForwardList.ToContainerLoop, hE, hcur, hn]
  rfl

/-- The loop of `ToContainer()` when `Next()` does not return. -/
theorem ToContainerLoop_throws (fuel : Nat) (s s1 : AsyncForwardList T σ) (cont : List T)
    (x : T) (e : Failure) (hE : s.Ended = false) (hcur : s.GetCurrent = Except.ok x)
    (hn : AsyncForwardList.Next f s = (Except.error e, s1)) :
    AsyncForwardList.ToContainerLoop f (fuel + 1) s cont = some (Except.error e, s1) := by
  rw [AsyncForwardList.ToContainerLoop, hE, hcur, hn]
  rfl

/-- More fuel does not change what the loop of `ToContainer()` returns. -/
theorem ToContainerLoop_more_fuel :
    ∀ (fuel : Nat) (s : AsyncForwardList T σ) (cont : List T) r,
      AsyncForwardList.ToContainerLoop f fuel s cont = some r →
      ∀ k, AsyncForwardList.ToContainerLoop f (fuel + k) s cont = some r := by
  intro fuel
  induction fuel with
  | zero =>
    intro s cont r h
    simp [AsyncForwardList.ToContainerLoop] at h
  | succ fuel ih =>
    intro s cont r h k
    have hk : fuel + 1 + k = (fuel + k) + 1 := by omega
    rw [hk]
    rw [AsyncForwardList.ToContainerLoop] at h ⊢
    split
    · rename_i hE
      rw [if_pos hE] at h
      exact h
    · rename_i hE
      rw [if_neg hE] at h
      split
      · rename_i e hcur
        rw [hcur] at h
        exact h
      · rename_i x hcur
        rw [hcur] at h
        dsimp only at h ⊢
        split
        · rename_i e s1 hn
          rw [hn] at h
          exact h
        · rename_i s1 hn
          rw [hn] at h
          exact ih _ _ _ h k

/-- `begin()` on a fresh list that returns normally establishes the invariant
of draining. -/
theorem begin_DrainInvariant (total : Int) (hb : AsyncForwardList.sameTotal f total) (env : σ)
    (start : Int) (h1 : -9223372036854775808 ≤ start) (h2 : start < 4611686018427387904)
    (hok : (AsyncForwardList.begin_ f (AsyncForwardList.mk_ env start)).1 = Except.ok ()) :
    AsyncForwardList.DrainInvariant total start
      (AsyncForwardList.begin_ f (AsyncForwardList.mk_ env start)).2 := by
  have hw : wrapInt64 (start + 0) = start := by
    rw [Int.add_zero]; exact wrapInt64_of_bounds _ (by omega) (by omega)
  have hF := Fetch_cursor f (AsyncForwardList.mk_ env start) (Or.inl hok)
  have hf := Fetch_fetched f (AsyncForwardList.mk_ env start)
  have ho := Fetch_offset f (AsyncForwardList.mk_ env start)
  have hfl := Fetch_list f (AsyncForwardList.mk_ env start)
  simp only [AsyncForwardList.mk_, hw, List.nil_append] at hf ho hfl hF
  unfold AsyncForwardList.begin_
  simp only [AsyncForwardList.mk_]
  refine ⟨hF.1, by rw [ho.2], by rw [ho.1], by rw [ho.1]; exact h2, ?_, ?_, ?_⟩
  · rw [hf, ho.1]
    simp
  · rw [hf]
    intro h
    simp at h
  · intro l hl
    rcases hfl l hl with h | ⟨env2, arg, env3, h⟩
    · cases h
    · exact hb _ _ _ _ h

/-- `Next()` on a current record keeps the invariant of draining, and either
moves the cursor by one inside the page held, or fetches at a cumulative
offset that is larger than the one before and below the total. -/
theorem Next_drain (total : Int) (htot : total < 2147483648)
    (hb : AsyncForwardList.sameTotal f total) (start : Int)
    (hstart : -9223372036854775808 ≤ start) (s : AsyncForwardList T σ)
    (h : AsyncForwardList.DrainInvariant total start s) (hcur : s.HaveCurrent = true) :
    AsyncForwardList.DrainInvariant total start (AsyncForwardList.Next f s).2
      ∧ (((AsyncForwardList.Next f s).2.offset_ = s.offset_
            ∧ (AsyncForwardList.Next f s).2.list_ = s.list_
            ∧ (AsyncForwardList.Next f s).2.current_ = s.current_ + 1
            ∧ (AsyncForwardList.Next f s).2.fetched_ = s.fetched_)
          ∨ (s.offset_ < (AsyncForwardList.Next f s).2.offset_
              ∧ (AsyncForwardList.Next f s).2.offset_ < total
              ∧ (AsyncForwardList.Next f s).2.fetched_.length = s.fetched_.length + 1)) := by
  obtain ⟨hor, hc, ho1, ho2, hcount, htwo, hl⟩ := h
  obtain ⟨hre, l, hlist, hlt⟩ := (HaveCurrent_iff s).mp hcur
  obtain ⟨hltot, hlen⟩ := hl l hlist
  have hw : wrapInt64 (l.list.length : Int) = (l.list.length : Int) :=
    wrapInt64_of_bounds _ (by omega) (by omega)
  rw [hw] at hlt
  have hw1 : wrapInt64 (s.current_ + 1) = s.current_ + 1 :=
    wrapInt64_of_bounds _ (by omega) (by omega)
  have hw2 : wrapInt64 (s.offset_ + (s.current_ + 1)) = s.offset_ + (s.current_ + 1) :=
    wrapInt64_of_bounds _ (by omega) (by omega)
  by_cases hge : s.current_ + 1 ≥ (l.list.length : Int)
  · by_cases hreach : l.total ≤ s.offset_ + (s.current_ + 1)
    · have hn : AsyncForwardList.Next f s
          = (Except.ok (), { s with current_ := s.current_ + 1, reached_end_ := true }) := by
        unfold AsyncForwardList.Next
        rw [hcur]
        simp only [hlist, hw, hw1, hw2, if_true]
        rw [if_pos hge, if_pos hreach]
      rw [hn]
      exact ⟨⟨Or.inl rfl, by show 0 ≤ s.current_ + 1; omega, ho1, ho2, hcount, htwo,
        fun l1 hl1 => hl l1 hl1⟩, Or.inl ⟨rfl, rfl, rfl, rfl⟩⟩
    · have hn : AsyncForwardList.Next f s
          = AsyncForwardList.Fetch f { s with current_ := s.current_ + 1 } := by
        unfold AsyncForwardList.Next
        rw [hcur]
        simp only [hlist, hw, hw1, hw2, if_true]
        rw [if_pos hge, if_neg hreach]
      have hF := Fetch_cursor f { s with current_ := s.current_ + 1 }
        (Or.inr ⟨hre, l, hlist, by rw [hw]; omega⟩)
      have hf := Fetch_fetched f { s with current_ := s.current_ + 1 }
      have hoff := Fetch_offset f { s with current_ := s.current_ + 1 }
      have hfl := Fetch_list f { s with current_ := s.current_ + 1 }
      dsimp only at hf hoff hfl
      rw [hw2] at hf hoff
      rw [hn]
      have hlenf : (AsyncForwardList.Fetch f { s with current_ := s.current_ + 1 }).2.fetched_.length
          = s.fetched_.length + 1 := by
        rw [hf]; simp
      refine ⟨⟨hF.1, by rw [hF.2], by rw [hoff.1]; omega, by rw [hoff.1]; omega, ?_, ?_, ?_⟩,
        Or.inr ⟨by rw [hoff.1]; omega, by rw [hoff.1]; omega, hlenf⟩⟩
      · rw [hlenf, hoff.1]
        push_cast
        omega
      · intro _
        rw [hoff.1]
        omega
      · intro l1 hl1
        rcases hfl l1 hl1 with h | ⟨env2, arg, env3, h⟩
        · exact hl l1 h
        · exact hb _ _ _ _ h
  · have hn : AsyncForwardList.Next f s
        = (Except.ok (), { s with current_ := s.current_ + 1 }) := by
      unfold AsyncForwardList.Next
      rw [hcur]
      simp only [hlist, hw, hw1, if_true]
      rw [if_neg hge]
    rw [hn]
    refine ⟨⟨Or.inr ?_, by show 0 ≤ s.current_ + 1; omega, ho1, ho2, hcount, htwo,
      fun l1 hl1 => hl l1 hl1⟩, Or.inl ⟨rfl, rfl, rfl, rfl⟩⟩
    rw [HaveCurrent_iff]
    exact ⟨hre, l, hlist, by show s.current_ + 1 < _; rw [hw]; omega⟩

/-- The loop of `ToContainer()` ends, with enough fuel, on every list that
satisfies the invariant of draining. -/
theorem ToContainerLoop_terminates (total : Int) (htot : total < 2147483648)
    (hb : AsyncForwardList.sameTotal f total) (start : Int)
    (hstart : -9223372036854775808 ≤ start) :
    ∀ (d e : Nat) (s : AsyncForwardList T σ) (cont : List T),
      AsyncForwardList.DrainInvariant total start s →
      (total - s.offset_).toNat ≤ d →
      (∀ l, s.list_ = some l → ((l.list.length : Int) - s.current_).toNat ≤ e) →
      ∃ fuel r s1, AsyncForwardList.ToContainerLoop f fuel s cont = some (r, s1)
        ∧ AsyncForwardList.DrainInvariant total start s1
        ∧ (∀ c, r = Except.ok c → s1.Ended = true) := by
  intro d
  induction d using Nat.strong_induction_on with
  | _ d ihd =>
    intro e
    induction e with
    | zero =>
      intro s cont hinv hd he
      by_cases hre : s.reached_end_ = true
      · exact ⟨1, _, _, ToContainerLoop_ended f 0 s cont hre, hinv, fun _ _ => hre⟩
      · exfalso
        obtain ⟨hor, hc, _, _, _, _, hl⟩ := hinv
        rcases hor with h | h
        · exact hre h
        · obtain ⟨_, l, hlist, hlt⟩ := (HaveCurrent_iff s).mp h
          have hle := wrapInt64_natCast_le l.list.length
          have := he l hlist
          omega
    | succ e ihe =>
      intro s cont hinv hd he
      by_cases hre : s.reached_end_ = true
      · exact ⟨1, _, _, ToContainerLoop_ended f 0 s cont hre, hinv, fun _ _ => hre⟩
      · have hE : s.Ended = false := by
          unfold AsyncForwardList.Ended
          cases h : s.reached_end_ with
          | true => exact absurd h hre
          | false => rfl
        have hcur : s.HaveCurrent = true := by
          rcases hinv.1 with h | h
          · exact absurd h hre
          · exact h
        obtain ⟨l, hlist, hlt, x, _, hget⟩ := HaveCurrent_index s hcur hinv.2.1
        obtain ⟨hinv1, hprog⟩ := Next_drain f total htot hb start hstart s hinv hcur
        cases hN : AsyncForwardList.Next f s with
        | mk r s1 =>
          rw [hN] at hinv1 hprog
          dsimp only at hinv1 hprog
          cases r with
          | error err =>
            refine ⟨1, _, _, ToContainerLoop_throws f 0 s s1 cont x err hE hget hN, hinv1, ?_⟩
            intro c hc
            cases hc
          | ok u =>
            have hstep := fun fuel => ToContainerLoop_step f fuel s s1 cont x hE hget hN
            rcases hprog with ⟨ho, hl1, hc1, _⟩ | ⟨ho, hlt1, _⟩
            · have hrem : ∀ l1, s1.list_ = some l1 →
                  ((l1.list.length : Int) - s1.current_).toNat ≤ e := by
                intro l1 hl1s
                rw [hl1, hlist] at hl1s
                cases hl1s
                have := he l hlist
                rw [hc1]
                omega
              obtain ⟨fuel, r2, s2, hloop, hinv2, hend⟩ :=
                ihe s1 (cont ++ [x]) hinv1 (by rw [ho]; exact hd) hrem
              exact ⟨fuel + 1, r2, s2, by rw [hstep fuel]; exact hloop, hinv2, hend⟩
            · have hlt2 : (total - s1.offset_).toNat < d := by omega
              obtain ⟨fuel, r2, s2, hloop, hinv2, hend⟩ :=
                ihd (total - s1.offset_).toNat hlt2
                  (match s1.list_ with
                    | some l1 => ((l1.list.length : Int) - s1.current_).toNat
                    | none => 0)
                  s1 (cont ++ [x]) hinv1 (le_refl _)
                  (by intro l1 hl1s; rw [hl1s])
              exact ⟨fuel + 1, r2, s2, by rw [hstep fuel]; exact hloop, hinv2, hend⟩

end drain

/-! ## The loop under a server that checks the token -/

/-- On the server that checks the token, a resource request that does not
carry the new token is answered with 401, the token is refreshed, and the
replay with the new token succeeds. -/
theorem checksToken_loop (req : Request) (w : World) (hurl : req.url ≠ refreshUrl)
    (hauth : req.headers.find "Authorization" ≠ some "Bearer new-token")
    (hret : 0 < w.auth.GetRetries) :
    DealWithErrorsAndAuth serverChecksToken req w
      = (Except.ok { code := 200, body := "data" }, withBearer req "new-token",
         { auth := w.auth.SetToken "new-token",
           log := w.log ++ [req, refreshRequest w.auth, withBearer req "new-token"] }) := by
  have hx1 : serverChecksToken.Execute w.log req
      = Except.ok { code := 401, body := "expired" } := by
    simp [serverChecksToken, hurl, hauth]
  have hE1 := Execute_ok serverChecksToken req w _ hx1
  have hD1 := DealWithErrors_401 serverChecksToken { code := 401, body := "expired" } rfl
  have hR := RefreshToken_success serverChecksToken { w with log := w.log ++ [req] }
    { code := 200, body := "new-token" } { accessToken := "new-token", validityTime := 3600 }
    (by simp [serverChecksToken, refreshRequest, Request.Create]) (by decide) rfl (by decide)
  have hx2 : serverChecksToken.Execute (w.log ++ [req] ++ [refreshRequest w.auth])
      (withBearer req "new-token") = Except.ok { code := 200, body := "data" } := by
    simp [serverChecksToken, withBearer, hurl, StringMap.find_set_self]
  have hE2 := Execute_ok serverChecksToken (withBearer req "new-token")
    { auth := w.auth.SetToken "new-token", log := w.log ++ [req] ++ [refreshRequest w.auth] }
    _ hx2
  unfold DealWithErrorsAndAuth
  rw [loop_refresh_true serverChecksToken 0 req w _ _ _ _ hE1 hD1 hret hR]
  show DealWithErrorsAndAuthLoop serverChecksToken (0 + 1) (withBearer req "new-token")
      { auth := w.auth.SetToken "new-token", log := w.log ++ [req] ++ [refreshRequest w.auth] }
    = _
  rw [loop_success serverChecksToken _ _ _ _ _ hE2 (DealWithErrors_lt_300 _ _ (by decide))]
  simp

/-! ## The loop when the token refresh fails -/

/-- A refresh call answered with a status from 300 on throws what
`DealWithErrors` throws for that reply, and stores no token. -/
theorem RefreshToken_error_status (ext : Externals) (w : World) (reply : Reply)
    (h : ext.Execute w.log (refreshRequest w.auth) = Except.ok reply) (hc : 300 ≤ reply.code) :
    ∃ e, DealWithErrors ext reply = Except.error e
      ∧ RefreshToken ext w
          = (Except.error e, { w with log := w.log ++ [refreshRequest w.auth] }) := by
  have hD : ∃ e, DealWithErrors ext reply = Except.error e := by
    by_cases h401 : reply.code = 401
    · exact ⟨_, DealWithErrors_401 ext reply h401⟩
    · obtain ⟨e, he, _⟩ := DealWithErrors_other ext reply hc h401
      exact ⟨e, he⟩
  obtain ⟨e, he⟩ := hD
  refine ⟨e, he, ?_⟩
  unfold RefreshToken
  rw [Execute_ok ext _ w reply h]
  dsimp only
  rw [he]

/-- With every execution of a request to `u` answered by 401 and every
refresh call answered with an empty `accessToken`, the loop entered with `n`
retries left executes the request `n + 1` times, always the same request,
calls the refresh endpoint `n` times, leaves the credential as it is and
throws `AuthenticationException`. -/
theorem loop_all_401_empty_refresh (ext : Externals) (u : String) (hu : u ≠ refreshUrl)
    (hreq : ∀ history q, q.url = u →
      ∃ reply, ext.Execute history q = Except.ok reply ∧ reply.code = 401)
    (href : ∀ history q, q.url = refreshUrl →
      ∃ reply tok, ext.Execute history q = Except.ok reply ∧ reply.code < 300
        ∧ ext.parseAccessToken reply = Except.ok tok ∧ tok.accessToken = "") :
    ∀ (n : Nat) (retries : Int) (req : Request) (w : World),
      req.url = u → retries + (n : Int) = w.auth.GetRetries →
      ∃ err calls,
        DealWithErrorsAndAuthLoop ext retries req w
          = (Except.error (Exception.AuthenticationException err), req,
             { auth := w.auth, log := w.log ++ calls })
        ∧ calls.countP (fun q => decide (q = req)) = n + 1
        ∧ calls.countP (fun q => decide (q = refreshRequest w.auth)) = n
        ∧ calls.length = 2 * n + 1 := by
  intro n
  induction n with
  | zero =>
    intro retries req w hurl hbudget
    obtain ⟨reply, hex, hcode⟩ := hreq w.log req hurl
    have e1 := Execute_ok ext req w reply hex
    have d1 := DealWithErrors_401 ext reply hcode
    have hne : req ≠ refreshRequest w.auth := by
      intro h
      have h1 : req.url = refreshUrl := by rw [h]; rfl
      exact hu (by rw [← hurl, h1])
    refine ⟨_, [req],
      loop_auth_exhausted ext retries req w _ reply _ e1 d1
        (by show retries ≥ w.auth.GetRetries; omega), ?_, ?_, rfl⟩
    · simp
    · simp [hne]
  | succ n ih =>
    intro retries req w hurl hbudget
    obtain ⟨reply, hex, hcode⟩ := hreq w.log req hurl
    have e1 := Execute_ok ext req w reply hex
    have d1 := DealWithErrors_401 ext reply hcode
    obtain ⟨r2, tok, hex2, hc2, ht2, hne2⟩ :=
      href (w.log ++ [req]) (refreshRequest w.auth) rfl
    have f1 := RefreshToken_empty ext { w with log := w.log ++ [req] } r2 tok hex2 hc2 ht2 hne2
    have hstep := loop_refresh_false ext retries req w _ _ reply _ e1 d1
      (by show retries < w.auth.GetRetries; omega) f1
    obtain ⟨err, calls, hloop, hc1, hc3, hlen⟩ :=
      ih (retries + 1) req
        { auth := w.auth, log := w.log ++ [req] ++ [refreshRequest w.auth] }
        hurl (by show retries + 1 + (n : Int) = w.auth.GetRetries; omega)
    have hne : req ≠ refreshRequest w.auth := by
      intro h
      have h1 : req.url = refreshUrl := by rw [h]; rfl
      exact hu (by rw [← hurl, h1])
    refine ⟨err, [req, refreshRequest w.auth] ++ calls, ?_, ?_, ?_, ?_⟩
    · rw [hstep]
      show DealWithErrorsAndAuthLoop ext (retries + 1) req
        { auth := w.auth, log := w.log ++ [req] ++ [refreshRequest w.auth] } = _
      rw [hloop]
      simp
    · rw [List.countP_append, hc1]
      simp [hne.symm, List.countP_cons]
      omega
    · rw [List.countP_append, hc3]
      simp [hne, List.countP_cons]
      omega
    · simp [hlen]; omega

/-! # The claims -/

/-! ## The header set of a request -/

/-- Claim C1, evaluated on the credential with token `abc`: the header set
built by `ToHeaders` consists of `Accept` and `Accept-Encoding` only; it has
no `Authorization` entry, although the claim requires
`Authorization = "Bearer abc"`. -/
theorem ToHeaders_drops_nonempty_token :
    ToHeaders (AuthInfo.mk_ "key" "secret" "abc" 3)
        = some [("Accept", "*/*"), ("Accept-Encoding", "identity")]
    ∧ (ToHeaders (AuthInfo.mk_ "key" "secret" "abc" 3)).bind
        (fun headers => StringMap.find headers "Authorization") = none
    ∧ (ToHeaders (AuthInfo.mk_ "key" "secret" "" 3)).bind
        (fun headers => StringMap.find headers "Authorization") = some "Bearer " := by
  decide

/-! ## Draining a list over a deterministic server -/

/-- Claim C2: for every record list of `N` records (with `N` representable in
the `int` field `total` of the reply) and every page size `p ≥ 1`,
`ToContainer()` on a fresh `AsyncForwardList` started at offset 0 over the
deterministic server returns exactly the records `0 .. N-1`, in order, each
once; `N + 1` loop iterations suffice. -/
theorem ToContainer_fake_exact {T : Type} (recs : List T) (p : Nat) (hp : 1 ≤ p)
    (hN : recs.length < 2147483648) (fuel : Nat) (hfuel : recs.length + 1 ≤ fuel) :
    ∃ s, AsyncForwardList.ToContainer (fakeFetch recs p) fuel (AsyncForwardList.mk_ () 0)
          = some (Except.ok recs, s) := by
  obtain ⟨s, hs, _⟩ := fake_ToContainer recs p hp hN fuel hfuel
  exact ⟨s, hs⟩

/-- Witness of claim C2: three records in pages of two. -/
theorem ToContainer_fake_exact_witness :
    ∃ s, AsyncForwardList.ToContainer (fakeFetch [7, 8, 9] 2) 4 (AsyncForwardList.mk_ () 0)
          = some (Except.ok [7, 8, 9], s) :=
  ToContainer_fake_exact [7, 8, 9] 2 (by decide) (by decide) 4 (by decide)

/-! ## The auth-and-error protocol -/

/-- Claim C3: when the first execution of a request is answered with 401,
the retry budget is at least 1, the refresh call succeeds with a non-empty
token `t'` and the replay is answered with a status below 300, then
`DealWithErrorsAndAuth` returns the reply of the replay; the requests executed
are, in order, the request, one refresh call and the replay; the replay
carries `Authorization = "Bearer " + t'`; and the token of the credential is
`t'` afterwards. -/
theorem DealWithErrorsAndAuth_refresh_and_replay (ext : Externals) (req : Request) (w : World)
    (r1 r2 r3 : Reply) (tok : AccessToken)
    (hbudget : 1 ≤ w.auth.GetRetries)
    (h1 : ext.Execute w.log req = Except.ok r1) (h1c : r1.code = 401)
    (h2 : ext.Execute (w.log ++ [req]) (refreshRequest w.auth) = Except.ok r2)
    (h2c : r2.code < 300)
    (h2t : ext.parseAccessToken r2 = Except.ok tok) (hne : tok.accessToken ≠ "")
    (h3 : ext.Execute (w.log ++ [req] ++ [refreshRequest w.auth])
            (withBearer req tok.accessToken) = Except.ok r3)
    (h3c : r3.code < 300) :
    ∃ w1, DealWithErrorsAndAuth ext req w = (Except.ok r3, withBearer req tok.accessToken, w1)
      ∧ w1.log = w.log ++ [req, refreshRequest w.auth, withBearer req tok.accessToken]
      ∧ StringMap.find (withBearer req tok.accessToken).headers "Authorization"
          = some ("Bearer " ++ tok.accessToken)
      ∧ w1.auth.GetToken = tok.accessToken := by
  have e1 := Execute_ok ext req w r1 h1
  have d1 := DealWithErrors_401 ext r1 h1c
  have f1 := RefreshToken_success ext { w with log := w.log ++ [req] } r2 tok h2 h2c h2t hne
  have e3 := Execute_ok ext (withBearer req tok.accessToken)
    { auth := w.auth.SetToken tok.accessToken, log := w.log ++ [req] ++ [refreshRequest w.auth] }
    r3 h3
  have d3 := DealWithErrors_lt_300 ext r3 h3c
  refine ⟨{ auth := w.auth.SetToken tok.accessToken,
            log := w.log ++ [req] ++ [refreshRequest w.auth] ++ [withBearer req tok.accessToken] },
    ?_, ?_, ?_, rfl⟩
  · unfold DealWithErrorsAndAuth
    rw [loop_refresh_true ext 0 req w _ _ r1 _ e1 d1 (by show (0 : Int) < w.auth.GetRetries; omega) f1]
    exact loop_success ext _ _ _ _ r3 e3 d3
  · simp
  · exact StringMap.find_set_self _ _ _

/-- Witness of claim C3: the server on which the token expired once. -/
theorem DealWithErrorsAndAuth_refresh_and_replay_witness :
    ∃ w1, DealWithErrorsAndAuth serverExpiredOnce sampleRequest { auth := sampleAuth 1, log := [] }
        = (Except.ok { code := 200, body := "data" }, withBearer sampleRequest "new-token", w1)
      ∧ w1.log = [] ++ [sampleRequest, refreshRequest (sampleAuth 1),
                        withBearer sampleRequest "new-token"]
      ∧ StringMap.find (withBearer sampleRequest "new-token").headers "Authorization"
          = some ("Bearer " ++ "new-token")
      ∧ w1.auth.GetToken = "new-token" :=
  DealWithErrorsAndAuth_refresh_and_replay serverExpiredOnce sampleRequest
    { auth := sampleAuth 1, log := [] }
    { code := 401, body := "expired" } { code := 200, body := "new-token" }
    { code := 200, body := "data" } { accessToken := "new-token", validityTime := 3600 }
    (by decide) (by decide) (by decide) (by decide) (by decide) (by decide) (by decide)
    (by decide) (by decide)

/-- Claim C4: for every retry budget `r ≥ 0`, when every execution of the
request is answered with 401 and every refresh call succeeds,
`DealWithErrorsAndAuth` executes the request exactly `r + 1` times, makes
exactly `r` refresh calls (and no other call), and then raises
`AuthenticationException`; with `r = 0` that is one execution and no refresh
call. -/
theorem DealWithErrorsAndAuth_budget_exhausted (ext : Externals) (req : Request) (w : World)
    (r : Nat) (hr : w.auth.GetRetries = (r : Int)) (hurl : req.url ≠ refreshUrl)
    (hreq : ∀ history q, q.url = req.url →
      ∃ reply, ext.Execute history q = Except.ok reply ∧ reply.code = 401)
    (href : ∀ history q, q.url = refreshUrl →
      ∃ reply tok, ext.Execute history q = Except.ok reply ∧ reply.code < 300
        ∧ ext.parseAccessToken reply = Except.ok tok ∧ tok.accessToken ≠ "") :
    ∃ err req1 w1 calls,
      DealWithErrorsAndAuth ext req w
        = (Except.error (Exception.AuthenticationException err), req1, w1)
      ∧ w1.log = w.log ++ calls
      ∧ calls.countP (fun q => decide (q.url = req.url)) = r + 1
      ∧ calls.countP (fun q => decide (q.url = refreshUrl)) = r
      ∧ calls.length = 2 * r + 1 :=
  loop_all_401 ext req.url hurl hreq href r 0 req w rfl (by rw [hr]; omega)

/-- Witness of claim C4: budget 2 on a server that answers every resource
request with 401. -/
theorem DealWithErrorsAndAuth_budget_exhausted_witness :
    ∃ err req1 w1 calls,
      DealWithErrorsAndAuth (serverStatus 401 "new-token") sampleRequest
          { auth := sampleAuth 2, log := [] }
        = (Except.error (Exception.AuthenticationException err), req1, w1)
      ∧ w1.log = [] ++ calls
      ∧ calls.countP (fun q => decide (q.url = sampleRequest.url)) = 2 + 1
      ∧ calls.countP (fun q => decide (q.url = refreshUrl)) = 2
      ∧ calls.length = 2 * 2 + 1 :=
  DealWithErrorsAndAuth_budget_exhausted (serverStatus 401 "new-token") sampleRequest
    { auth := sampleAuth 2, log := [] } 2 (by decide) (by decide)
    (fun _ q hq => ⟨{ code := 401, body := "reply" }, by
      have hne : q.url ≠ refreshUrl := by rw [hq]; decide
      simp [serverStatus, hne], rfl⟩)
    (fun _ q hq => ⟨{ code := 200, body := "new-token" },
      { accessToken := "new-token", validityTime := 3600 }, by
      simp [serverStatus, hq], by decide, rfl, by decide⟩)

/-- Claim C5 fails with retry budget 1 on a server that answers every
resource request with 401 and whose refresh endpoint answers 200 with an empty
`accessToken`: after the failed refresh the original request is executed a
second time, unchanged, and only then is `AuthenticationException` raised; the
claim requires that it is not executed again. -/
theorem DealWithErrorsAndAuth_replays_after_failed_refresh_counterexample :
    DealWithErrorsAndAuth (serverStatus 401 "") sampleRequest { auth := sampleAuth 1, log := [] }
      = (Except.error (Exception.AuthenticationException
            { error_code := 401, error_description := "reply" }),
         sampleRequest,
         { auth := sampleAuth 1,
           log := [sampleRequest, refreshRequest (sampleAuth 1), sampleRequest] }) := by
  unfold DealWithErrorsAndAuth
  rw [loop_refresh_false (serverStatus 401 "") 0 sampleRequest { auth := sampleAuth 1, log := [] }
        { auth := sampleAuth 1, log := [sampleRequest] }
        { auth := sampleAuth 1, log := [sampleRequest, refreshRequest (sampleAuth 1)] }
        { code := 401, body := "reply" } { error_code := 401, error_description := "reply" }
        (by decide) (by decide) (by decide) (by decide)]
  exact loop_auth_exhausted (serverStatus 401 "") (0 + 1) sampleRequest _
    { auth := sampleAuth 1, log := [sampleRequest, refreshRequest (sampleAuth 1), sampleRequest] }
    { code := 401, body := "reply" } { error_code := 401, error_description := "reply" }
    (by decide) (by decide) (by decide)

/-- Claim C5 as amended: when a request is answered with 401 and the retry
budget is not used up, what follows a failed token refresh depends on how it
fails.  When the refresh endpoint answers with a status from 300 on, the
operation ends with an exception, `AuthenticationException` when that status
is 401, and the request is not executed again.  When the reply of the refresh
endpoint carries an empty `accessToken`, the attempt is counted, the token and
the request stay as they are and the request is executed again; and when
every execution is answered with 401 and every refresh reply carries an empty
`accessToken`, a budget of `r` gives `r + 1` executions of the same request
and `r` refresh calls, after which `AuthenticationException` is raised. -/
theorem DealWithErrorsAndAuth_failed_refresh (ext : Externals) (req : Request) (w : World)
    (reply rreply : Reply)
    (hexec : ext.Execute w.log req = Except.ok reply) (h401 : reply.code = 401)
    (hbudget : 0 < w.auth.GetRetries)
    (href : ext.Execute (w.log ++ [req]) (refreshRequest w.auth) = Except.ok rreply) :
    (300 ≤ rreply.code →
      ∃ e, DealWithErrorsAndAuth ext req w
          = (Except.error e, req,
             { auth := w.auth, log := w.log ++ [req, refreshRequest w.auth] })
        ∧ (rreply.code = 401 →
            e = Exception.AuthenticationException
              { error_code := 401, error_description := rreply.body }))
    ∧ (rreply.code < 300 → ∀ tok, ext.parseAccessToken rreply = Except.ok tok →
        tok.accessToken = "" →
        DealWithErrorsAndAuth ext req w
          = DealWithErrorsAndAuthLoop ext 1 req
              { auth := w.auth, log := w.log ++ [req, refreshRequest w.auth] }
        ∧ ∃ rest, (DealWithErrorsAndAuth ext req w).2.2.log
            = w.log ++ req :: refreshRequest w.auth :: req :: rest)
    ∧ (∀ r : Nat, w.auth.GetRetries = (r : Int) → req.url ≠ refreshUrl →
        (∀ history q, q.url = req.url →
          ∃ reply1, ext.Execute history q = Except.ok reply1 ∧ reply1.code = 401) →
        (∀ history q, q.url = refreshUrl →
          ∃ reply1 tok, ext.Execute history q = Except.ok reply1 ∧ reply1.code < 300
            ∧ ext.parseAccessToken reply1 = Except.ok tok ∧ tok.accessToken = "") →
        ∃ err calls,
          DealWithErrorsAndAuth ext req w
            = (Except.error (Exception.AuthenticationException err), req,
               { auth := w.auth, log := w.log ++ calls })
          ∧ calls.countP (fun q => decide (q = req)) = r + 1
          ∧ calls.countP (fun q => decide (q = refreshRequest w.auth)) = r
          ∧ calls.length = 2 * r + 1) := by
  have e1 := Execute_ok ext req w reply hexec
  have d1 := DealWithErrors_401 ext reply h401
  refine ⟨?_, ?_, ?_⟩
  · intro hc
    obtain ⟨e, he, hR⟩ := RefreshToken_error_status ext { w with log := w.log ++ [req] } rreply
      href hc
    refine ⟨e, ?_, ?_⟩
    · unfold DealWithErrorsAndAuth
      rw [loop_refresh_throws ext 0 req w _ _ reply _ e e1 d1 hbudget hR]
      simp
    · intro hcode
      rw [DealWithErrors_401 ext rreply hcode] at he
      exact (Except.error.inj he).symm
  · intro hc tok htok hempty
    have f1 := RefreshToken_empty ext { w with log := w.log ++ [req] } rreply tok href hc htok
      hempty
    have hstep := loop_refresh_false ext 0 req w _ _ reply _ e1 d1 hbudget f1
    have heq : DealWithErrorsAndAuth ext req w
        = DealWithErrorsAndAuthLoop ext 1 req
            { auth := w.auth, log := w.log ++ [req, refreshRequest w.auth] } := by
      unfold DealWithErrorsAndAuth
      rw [hstep]
      simp
    refine ⟨heq, ?_⟩
    obtain ⟨rest, hlog, _⟩ := loop_log ext _ 1 req
      { auth := w.auth, log := w.log ++ [req, refreshRequest w.auth] } (le_refl _)
    refine ⟨rest, ?_⟩
    rw [heq, hlog]
    simp
  · intro r hr hurl hreq hrefs
    exact loop_all_401_empty_refresh ext req.url hurl hreq hrefs r 0 req w rfl
      (by rw [hr]; omega)

/-- Claim C5 as amended at concrete inputs, with retry budget 1: on a server
whose refresh endpoint answers 200 with an empty `accessToken` the request is
executed a second time and `AuthenticationException` follows; on a server
whose refresh endpoint answers 401 the operation ends with
`AuthenticationException` after the refresh call. -/
theorem DealWithErrorsAndAuth_failed_refresh_witness :
    (DealWithErrorsAndAuth (serverStatus 401 "") sampleRequest
          { auth := sampleAuth 1, log := [] }
        = DealWithErrorsAndAuthLoop (serverStatus 401 "") 1 sampleRequest
            { auth := sampleAuth 1, log := [] ++ [sampleRequest, refreshRequest (sampleAuth 1)] }
      ∧ ∃ rest, (DealWithErrorsAndAuth (serverStatus 401 "") sampleRequest
            { auth := sampleAuth 1, log := [] }).2.2.log
          = [] ++ sampleRequest :: refreshRequest (sampleAuth 1) :: sampleRequest :: rest)
    ∧ (∃ err calls,
        DealWithErrorsAndAuth (serverStatus 401 "") sampleRequest
            { auth := sampleAuth 1, log := [] }
          = (Except.error (Exception.AuthenticationException err), sampleRequest,
             { auth := sampleAuth 1, log := [] ++ calls })
        ∧ calls.countP (fun q => decide (q = sampleRequest)) = 1 + 1
        ∧ calls.countP (fun q => decide (q = refreshRequest (sampleAuth 1))) = 1
        ∧ calls.length = 2 * 1 + 1)
    ∧ (∃ e, DealWithErrorsAndAuth serverRefreshDenied sampleRequest
            { auth := sampleAuth 1, log := [] }
          = (Except.error e, sampleRequest,
             { auth := sampleAuth 1,
               log := [] ++ [sampleRequest, refreshRequest (sampleAuth 1)] })
        ∧ ((401 : Int) = 401 →
            e = Exception.AuthenticationException
              { error_code := 401, error_description := "denied" })) :=
  ⟨(DealWithErrorsAndAuth_failed_refresh (serverStatus 401 "") sampleRequest
        { auth := sampleAuth 1, log := [] } { code := 401, body := "reply" }
        { code := 200, body := "" } (by decide) (by decide) (by decide) (by decide)).2.1
      (by decide) { accessToken := "", validityTime := 3600 } rfl rfl,
   (DealWithErrorsAndAuth_failed_refresh (serverStatus 401 "") sampleRequest
        { auth := sampleAuth 1, log := [] } { code := 401, body := "reply" }
        { code := 200, body := "" } (by decide) (by decide) (by decide) (by decide)).2.2
      1 (by decide) (by decide)
      (fun _ q hq => ⟨{ code := 401, body := "reply" }, by
        have hne : q.url ≠ refreshUrl := by rw [hq]; decide
        simp [serverStatus, hne], rfl⟩)
      (fun _ q hq => ⟨{ code := 200, body := "" },
        { accessToken := "", validityTime := 3600 }, by
        simp [serverStatus, hq], by decide, rfl, rfl⟩),
   (DealWithErrorsAndAuth_failed_refresh serverRefreshDenied sampleRequest
        { auth := sampleAuth 1, log := [] } { code := 401, body := "denied" }
        { code := 401, body := "denied" } (by decide) (by decide) (by decide) (by decide)).1
      (by decide)⟩

/-- Claim C6: `DealWithErrors` puts every status code `s` into exactly one of
five classes and treats each class in one way: `s < 300` returns normally;
`s = 401` raises `AuthenticationException`; `s = 404` raises
`NotFoundException` and any other `s ≥ 400` raises `ServerErrorException`,
both built from the parsed error body; every remaining `s` (`300 ≤ s < 400`)
raises a runtime error whose message ends in the decimal value of `s`. -/
theorem DealWithErrors_classification (ext : Externals) (reply : Reply) :
    (reply.code < 300 → DealWithErrors ext reply = Except.ok ())
    ∧ (reply.code = 401 →
        ∃ err, DealWithErrors ext reply = Except.error (Exception.AuthenticationException err))
    ∧ (reply.code = 404 → ∀ err, ext.parseGenericError reply = Except.ok err →
        DealWithErrors ext reply = Except.error (Exception.NotFoundException err))
    ∧ (400 ≤ reply.code → reply.code ≠ 401 → reply.code ≠ 404 →
        ∀ err, ext.parseGenericError reply = Except.ok err →
        DealWithErrors ext reply = Except.error (Exception.ServerErrorException err))
    ∧ (300 ≤ reply.code → reply.code < 400 →
        DealWithErrors ext reply = Except.error (Exception.runtime_error
          ("Request failed - got unexpected HTTP code " ++ toString reply.code)))
    ∧ (reply.code < 300 ∨ reply.code = 401 ∨ reply.code = 404
        ∨ (400 ≤ reply.code ∧ reply.code ≠ 401 ∧ reply.code ≠ 404)
        ∨ (300 ≤ reply.code ∧ reply.code < 400)) := by
  refine ⟨DealWithErrors_lt_300 ext reply, fun h => ⟨_, DealWithErrors_401 ext reply h⟩,
    ?_, ?_, ?_, by omega⟩
  · intro h err hp
    unfold DealWithErrors
    simp only [h, hp]
    rfl
  · intro h400 h401 h404 err hp
    unfold DealWithErrors
    simp only [hp]
    rw [if_neg (by omega), if_neg h401, if_pos (by omega), if_neg h404]
  · intro h300 h400
    unfold DealWithErrors
    simp only
    rw [if_neg (by omega), if_neg (by omega), if_neg (by omega)]

/-- Witness of claim C6: the classification of a reply with status 404. -/
theorem DealWithErrors_classification_witness :
    DealWithErrors (serverStatus 404 "") { code := 404, body := "gone" }
      = Except.error (Exception.NotFoundException
          { error_code := 404, error_description := "gone" }) :=
  (DealWithErrors_classification (serverStatus 404 "") { code := 404, body := "gone" }).2.2.1
    (by decide) { error_code := 404, error_description := "gone" } (by decide)

/-- Claim C7: a failure other than HTTP 401 is not retried.  When the
transport throws while executing the request, or answers with a status from
300 on other than 401 (404 included), `DealWithErrorsAndAuth` executes the
request exactly once, makes no refresh call (the log grows by the request
alone), and raises the failure: the exception of the transport, or the
exception `DealWithErrors` assigns to the reply. -/
theorem DealWithErrorsAndAuth_no_retry (ext : Externals) (req : Request) (w : World) :
    (∀ what, ext.Execute w.log req = Except.error what →
        DealWithErrorsAndAuth ext req w
          = (Except.error (Exception.library_error what), req,
             { w with log := w.log ++ [req] }))
    ∧ (∀ reply, ext.Execute w.log req = Except.ok reply → 300 ≤ reply.code →
        reply.code ≠ 401 →
        ∃ e, DealWithErrors ext reply = Except.error e
          ∧ (∀ err, e ≠ Exception.AuthenticationException err)
          ∧ DealWithErrorsAndAuth ext req w
              = (Except.error e, req, { w with log := w.log ++ [req] })) := by
  constructor
  · intro what h
    exact loop_execute_throws ext 0 req w _ _ (Execute_error ext req w what h)
  · intro reply h h300 h401
    obtain ⟨e, he, hne⟩ := DealWithErrors_other ext reply h300 h401
    exact ⟨e, he, hne, loop_other_error ext 0 req w _ reply e (Execute_ok ext req w reply h) he hne⟩

/-- Witness of claim C7: a timeout, and a reply with status 404. -/
theorem DealWithErrorsAndAuth_no_retry_witness :
    DealWithErrorsAndAuth serverTimeout sampleRequest { auth := sampleAuth 3, log := [] }
        = (Except.error (Exception.library_error "timeout"), sampleRequest,
           { auth := sampleAuth 3, log := [] ++ [sampleRequest] })
    ∧ ∃ e, DealWithErrors (serverStatus 404 "") { code := 404, body := "reply" } = Except.error e
        ∧ (∀ err, e ≠ Exception.AuthenticationException err)
        ∧ DealWithErrorsAndAuth (serverStatus 404 "") sampleRequest
              { auth := sampleAuth 3, log := [] }
            = (Except.error e, sampleRequest,
               { auth := sampleAuth 3, log := [] ++ [sampleRequest] }) :=
  ⟨(DealWithErrorsAndAuth_no_retry serverTimeout sampleRequest
      { auth := sampleAuth 3, log := [] }).1 "timeout" (by decide),
   (DealWithErrorsAndAuth_no_retry (serverStatus 404 "") sampleRequest
      { auth := sampleAuth 3, log := [] }).2 { code := 404, body := "reply" }
      (by decide) (by decide) (by decide)⟩

/-- Claim C8, evaluated on a server that answers the delete request with 404:
`Delete_` executes the request once and completes normally; no
`NotFoundException` is raised, although the claim requires it. -/
theorem Delete_ignores_status :
    Delete_ (serverStatus 404 "") "https://api.example/contacts" "abc"
        { auth := sampleAuth 3, log := [] }
      = (Except.ok (),
         { auth := sampleAuth 3,
           log := [{ url := "https://api.example/contacts/abc", type := RequestType.DELETE,
                     body := none, args := [],
                     headers := [("Accept", "*/*"), ("Accept-Encoding", "identity")] }] }) := by
  decide

/-! ## Offsets between the list and the request -/

/-- Claim C9, evaluated on the list returned by `List_` for the start offset
3000000000: at `begin()` the fetch closure receives -1294967296 (the offset
converted to `int`), and the request carries `offset=-1294967296`, although
the cursor of the list holds 3000000000. -/
theorem Fetch_truncates_offset :
    (AsyncForwardList.begin_
        (List_fetch_fn (serverStatus 200 "") emptyPage "https://api.example/contacts"
          { auth := sampleAuth 3, log := [] })
        (List_ none (some { start_offset := 3000000000, page_size := 0, sort := "" })
          { auth := sampleAuth 3, log := [] }))
      = (Except.ok (),
         { list_ := none, offset_ := 3000000000, current_ := 0, reached_end_ := true,
           pages_fected_ := 0,
           fetch_env_ :=
             { args := some [("offset", "-1294967296")],
               world := { auth := sampleAuth 3,
                          log := [{ url := "https://api.example/contacts",
                                    type := RequestType.GET, body := none,
                                    args := [("offset", "-1294967296")],
                                    headers := [("Accept", "*/*"),
                                                ("Accept-Encoding", "identity")] }] } },
           fetched_ := [-1294967296] }) := by
  have hloop : DealWithErrorsAndAuth (serverStatus 200 "")
      (Request.Create "https://api.example/contacts" RequestType.GET none
        (some [("offset", "-1294967296")]) (ToHeaders (sampleAuth 3)))
      { auth := sampleAuth 3, log := [] }
      = (Except.ok { code := 200, body := "reply" },
         Request.Create "https://api.example/contacts" RequestType.GET none
           (some [("offset", "-1294967296")]) (ToHeaders (sampleAuth 3)),
         { auth := sampleAuth 3,
           log := [Request.Create "https://api.example/contacts" RequestType.GET none
                     (some [("offset", "-1294967296")]) (ToHeaders (sampleAuth 3))] }) :=
    loop_success _ 0 _ _ _ _ (by decide) (by decide)
  have hlist : (List_ none (some { start_offset := 3000000000, page_size := 0, sort := "" })
        { auth := sampleAuth 3, log := [] } : AsyncForwardList String ListEnv)
      = AsyncForwardList.mk_ { args := none, world := { auth := sampleAuth 3, log := [] } }
          3000000000 := by
    decide
  have hw64 : wrapInt64 (3000000000 + 0) = 3000000000 := by decide
  have hw32 : wrapInt32 3000000000 = -1294967296 := by decide
  have hargs : SetOrReplaceArg [] "offset" (toString (-1294967296 : Int))
      = [("offset", "-1294967296")] := by decide
  rw [hlist]
  simp only [AsyncForwardList.begin_, AsyncForwardList.Fetch, AsyncForwardList.mk_, hw64, hw32,
    List_fetch_fn, List_fetch]
  rw [if_pos (by decide)]
  simp only [Option.getD_none, hargs, hloop, emptyPage]
  decide

/-! ## Pages fetched from a deterministic server -/

/-- Claim C10: after draining a fresh list from offset 0 with `ToContainer()`
over the deterministic server with `N` records and page size `p ≥ 1`,
`GetPagesFetched()` equals `⌈N / p⌉`. -/
theorem GetPagesFetched_fake_ceil {T : Type} (recs : List T) (p : Nat) (hp : 1 ≤ p)
    (hN : recs.length < 2147483648) (fuel : Nat) (hfuel : recs.length + 1 ≤ fuel) :
    ∃ cont s, AsyncForwardList.ToContainer (fakeFetch recs p) fuel (AsyncForwardList.mk_ () 0)
          = some (Except.ok cont, s)
        ∧ s.GetPagesFetched = ⌈(recs.length : ℚ) / (p : ℚ)⌉₊ := by
  obtain ⟨s, hs, _, h0, h1⟩ := fake_ToContainer recs p hp hN fuel hfuel
  refine ⟨recs, s, hs, ?_⟩
  have hpq : (0 : ℚ) < (p : ℚ) := by exact_mod_cast hp
  by_cases hz : recs.length = 0
  · rw [h0 hz, hz]; simp
  · obtain ⟨ha, hb⟩ := h1 (by omega)
    have hne : s.GetPagesFetched ≠ 0 := by
      intro h; rw [h] at hb; omega
    symm
    rw [Nat.ceil_eq_iff hne]
    constructor
    · rw [lt_div_iff₀ hpq]; exact_mod_cast ha
    · rw [div_le_iff₀ hpq]; exact_mod_cast hb

/-- Witness of claim C10: 25 records in pages of 10 are fetched in 3 pages. -/
theorem GetPagesFetched_fake_ceil_witness :
    ∃ cont s, AsyncForwardList.ToContainer (fakeFetch (List.range 25) 10) 26
            (AsyncForwardList.mk_ () 0) = some (Except.ok cont, s)
        ∧ s.GetPagesFetched = ⌈(((List.range 25).length : ℕ) : ℚ) / ((10 : ℕ) : ℚ)⌉₊ :=
  GetPagesFetched_fake_ceil (List.range 25) 10 (by decide) (by decide) 26 (by decide)

/-! ## The cursor of a list -/

/-- Claim C11: when `Next()` moves the cursor past the last record of the
current page and the total the page reports is at most the cumulative offset
reached (offset of the page plus the number of its records), the call returns
normally, the list has `Ended()` and the fetch closure has not been invoked
(the trace of invocations and the state of the closure are unchanged).  Nothing
is assumed about the page limit, so this covers a full page.  The range
hypotheses say that the 64 bit cursor does not overflow. -/
theorem Next_ends_at_total {T σ : Type} (f : fetch_fn_t T σ) (s : AsyncForwardList T σ)
    (l : ListReturnMapper T) (hl : s.list_ = some l) (hcur : s.HaveCurrent = true)
    (hlast : (l.list.length : Int) ≤ s.current_ + 1)
    (htotal : l.total ≤ s.offset_ + (l.list.length : Int))
    (hsize : (l.list.length : Int) < 9223372036854775808)
    (hlow : -9223372036854775808 ≤ s.offset_ + (l.list.length : Int))
    (hhigh : s.offset_ + (l.list.length : Int) < 9223372036854775808) :
    AsyncForwardList.Next f s
        = (Except.ok (), { s with current_ := s.current_ + 1, reached_end_ := true })
      ∧ (AsyncForwardList.Next f s).2.Ended = true
      ∧ (AsyncForwardList.Next f s).2.fetched_ = s.fetched_
      ∧ (AsyncForwardList.Next f s).2.fetch_env_ = s.fetch_env_ := by
  have hw : wrapInt64 (l.list.length : Int) = (l.list.length : Int) :=
    wrapInt64_of_bounds _ (by omega) hsize
  have hlt : s.current_ < (l.list.length : Int) := by
    have h := hcur
    simp only [AsyncForwardList.HaveCurrent, hl, hw, Bool.and_eq_true, decide_eq_true_eq] at h
    exact h.2
  have hw1 : wrapInt64 (s.current_ + 1) = s.current_ + 1 :=
    wrapInt64_of_bounds _ (by omega) (by omega)
  have hw2 : wrapInt64 (s.offset_ + (s.current_ + 1)) = s.offset_ + (s.current_ + 1) :=
    wrapInt64_of_bounds _ (by omega) (by omega)
  have hnext : AsyncForwardList.Next f s
      = (Except.ok (), { s with current_ := s.current_ + 1, reached_end_ := true }) := by
    unfold AsyncForwardList.Next
    rw [hcur]
    simp only [hl, hw, hw1, hw2, if_true]
    rw [if_pos (by omega), if_pos (by omega)]
  rw [hnext]
  exact ⟨rfl, rfl, rfl, rfl⟩

/-- Witness of claim C11: the second, full page of four records in pages of
two. -/
theorem Next_ends_at_total_witness :
    AsyncForwardList.Next (fakeFetch [1, 2, 3, 4] 2) (fakeState [1, 2, 3, 4] 2 2 1 2 [0, 2])
        = (Except.ok (),
           { fakeState [1, 2, 3, 4] 2 2 1 2 [0, 2] with
             current_ := (fakeState [1, 2, 3, 4] 2 2 1 2 [0, 2]).current_ + 1,
             reached_end_ := true })
      ∧ (AsyncForwardList.Next (fakeFetch [1, 2, 3, 4] 2)
          (fakeState [1, 2, 3, 4] 2 2 1 2 [0, 2])).2.Ended = true
      ∧ (AsyncForwardList.Next (fakeFetch [1, 2, 3, 4] 2)
          (fakeState [1, 2, 3, 4] 2 2 1 2 [0, 2])).2.fetched_
          = (fakeState [1, 2, 3, 4] 2 2 1 2 [0, 2]).fetched_
      ∧ (AsyncForwardList.Next (fakeFetch [1, 2, 3, 4] 2)
          (fakeState [1, 2, 3, 4] 2 2 1 2 [0, 2])).2.fetch_env_
          = (fakeState [1, 2, 3, 4] 2 2 1 2 [0, 2]).fetch_env_ :=
  Next_ends_at_total (fakeFetch [1, 2, 3, 4] 2) (fakeState [1, 2, 3, 4] 2 2 1 2 [0, 2])
    (fakePage [1, 2, 3, 4] 2 2) rfl (by decide) (by decide) (by decide) (by decide)
    (by decide) (by decide)

/-- Claim C12: for every fetch function whose first reply is a page with an
empty record list, `begin()` on a fresh `AsyncForwardList` returns normally
and leaves the list `Ended()`; the iterator it returns equals `end()`; and
`ToContainer()` on the fresh list returns the empty collection (one loop
iteration is enough).  The argument of the first invocation is the start
offset as the closure receives it. -/
theorem begin_on_empty_result {T σ : Type} (f : fetch_fn_t T σ) (env env1 : σ)
    (start_offset : Int) (page : ListReturnMapper T) (hempty : page.list = [])
    (hfirst : f env (wrapInt32 (wrapInt64 (start_offset + 0)))
                = (Except.ok (some page), env1)) :
    ∃ s1 : AsyncForwardList T σ,
      AsyncForwardList.begin_ f (AsyncForwardList.mk_ env start_offset) = (Except.ok (), s1)
      ∧ s1.Ended = true
      ∧ AsyncForwardList.AsyncForwardIterator.eq AsyncForwardList.beginIterator
          AsyncForwardList.endIterator s1 = true
      ∧ ∀ fuel, AsyncForwardList.ToContainer f (fuel + 1) (AsyncForwardList.mk_ env start_offset)
          = some (Except.ok [], s1) := by
  have hw : wrapInt64 ((([] : List T).length : Nat) : Int) = 0 := by
    rw [List.length_nil]; decide
  have hbegin : AsyncForwardList.begin_ f (AsyncForwardList.mk_ env start_offset)
      = (Except.ok (),
         { list_ := none, offset_ := wrapInt64 (start_offset + 0), current_ := 0,
           reached_end_ := true, pages_fected_ := 0, fetch_env_ := env1,
           fetched_ := [] ++ [wrapInt32 (wrapInt64 (start_offset + 0))] }) := by
    unfold AsyncForwardList.begin_ AsyncForwardList.Fetch
    simp only [AsyncForwardList.mk_, hfirst, AsyncForwardList.HaveCurrent, hempty, hw]
    rfl
  refine ⟨_, hbegin, rfl, rfl, ?_⟩
  intro fuel
  unfold AsyncForwardList.ToContainer
  rw [hbegin]
  dsimp only
  rw [AsyncForwardList.ToContainerLoop]
  dsimp only [AsyncForwardList.Ended]
  rw [if_pos rfl]

/-- Witness of claim C12: the deterministic server without records. -/
theorem begin_on_empty_result_witness :
    ∃ s1 : AsyncForwardList Nat Unit,
      AsyncForwardList.begin_ (fakeFetch [] 10) (AsyncForwardList.mk_ () 0) = (Except.ok (), s1)
      ∧ s1.Ended = true
      ∧ AsyncForwardList.AsyncForwardIterator.eq AsyncForwardList.beginIterator
          AsyncForwardList.endIterator s1 = true
      ∧ ∀ fuel, AsyncForwardList.ToContainer (fakeFetch [] 10) (fuel + 1)
            (AsyncForwardList.mk_ () 0) = some (Except.ok [], s1) :=
  begin_on_empty_result (fakeFetch [] 10) () () 0 (fakePage [] 10 0) rfl (by decide)

/-- Claim C13 fails on a list that has a current record and on a list that has
ended: over the deterministic server with records 1, 2, 3 in pages of two,
`begin()` on the list whose cursor is on the second record invokes the fetch
closure (with offset 1) and moves the cumulative offset from 0 to 1 and the
cursor from 1 to 0; on the same list with the terminal flag set it invokes the
closure as well. -/
theorem begin_refetches_counterexample :
    (fakeState [1, 2, 3] 2 0 1 1 [0]).HaveCurrent = true
    ∧ AsyncForwardList.begin_ (fakeFetch [1, 2, 3] 2) (fakeState [1, 2, 3] 2 0 1 1 [0])
        = (Except.ok (), fakeState [1, 2, 3] 2 1 0 2 [0, 1])
    ∧ (AsyncForwardList.begin_ (fakeFetch [1, 2, 3] 2)
          { fakeState [1, 2, 3] 2 0 1 1 [0] with reached_end_ := true }).2.fetched_ = [0, 1] := by
  decide

/-- Claim C13 as amended: in every state `begin()` invokes the fetch closure
exactly once, with the cumulative position `offset_ + current_` converted to
`int`; it makes that position the cumulative offset and resets the intra-page
cursor to 0; and a list that has ended stays ended. -/
theorem begin_always_fetches {T σ : Type} (f : fetch_fn_t T σ) (s : AsyncForwardList T σ) :
    (AsyncForwardList.begin_ f s).2.fetched_
        = s.fetched_ ++ [wrapInt32 (wrapInt64 (s.offset_ + s.current_))]
    ∧ (AsyncForwardList.begin_ f s).2.offset_ = wrapInt64 (s.offset_ + s.current_)
    ∧ (AsyncForwardList.begin_ f s).2.current_ = 0
    ∧ (s.Ended = true → (AsyncForwardList.begin_ f s).2.Ended = true) :=
  ⟨Fetch_fetched f s, (Fetch_offset f s).1, (Fetch_offset f s).2, Fetch_reached_end f s⟩

/-- Witness of the amended claim C13: a list that ended stays ended under
`begin()`. -/
theorem begin_always_fetches_witness :
    (AsyncForwardList.begin_ (fakeFetch [1, 2, 3] 2)
      { fakeState [1, 2, 3] 2 0 1 1 [0] with reached_end_ := true }).2.Ended = true :=
  (begin_always_fetches (fakeFetch [1, 2, 3] 2)
    { fakeState [1, 2, 3] 2 0 1 1 [0] with reached_end_ := true }).2.2.2 rfl

/-- Claim C14 fails on an empty result set: after `begin()` on a fresh list
over the deterministic server without records the fetch closure has been
invoked once, and `GetPagesFetched()` is 0. -/
theorem GetPagesFetched_skips_empty_fetch_counterexample :
    (AsyncForwardList.begin_ (fakeFetch ([] : List Nat) 10)
        (AsyncForwardList.mk_ () 0)).2.fetched_.length = 1
    ∧ (AsyncForwardList.begin_ (fakeFetch ([] : List Nat) 10)
        (AsyncForwardList.mk_ () 0)).2.GetPagesFetched = 0 := by
  decide

/-- Claim C14 as amended: `GetPagesFetched()` counts the fetches that left the
list with a current record.  An invocation of the fetch closure raises the
counter by one when the reply is a non-empty page and the list has not ended;
it leaves the counter as it is when the reply is null or an empty page, when
the list has ended, or when the closure throws.  Hence after any sequence of
`begin()`, `Next()` and `ToContainer()` calls on a fresh list the counter is
at most the number of invocations. -/
theorem GetPagesFetched_counts_nonempty_pages {T σ : Type} (f : fetch_fn_t T σ) :
    (∀ (s : AsyncForwardList T σ) page env1,
        f s.fetch_env_ (wrapInt32 (wrapInt64 (s.offset_ + s.current_)))
          = (Except.ok (some page), env1) →
        s.Ended = false → 0 < wrapInt64 (page.list.length : Int) →
        (AsyncForwardList.Fetch f s).2.GetPagesFetched = s.GetPagesFetched + 1)
    ∧ (∀ (s : AsyncForwardList T σ) l env1,
        f s.fetch_env_ (wrapInt32 (wrapInt64 (s.offset_ + s.current_))) = (Except.ok l, env1) →
        (s.Ended = true ∨ l = none ∨ ∃ page, l = some page ∧ page.list = []) →
        (AsyncForwardList.Fetch f s).2.GetPagesFetched = s.GetPagesFetched)
    ∧ (∀ (s : AsyncForwardList T σ) e env1,
        f s.fetch_env_ (wrapInt32 (wrapInt64 (s.offset_ + s.current_))) = (Except.error e, env1) →
        (AsyncForwardList.Fetch f s).2.GetPagesFetched = s.GetPagesFetched)
    ∧ (∀ (env : σ) (start_offset : Int) (ops : List AsyncForwardList.ListOp)
        (s : AsyncForwardList T σ),
        AsyncForwardList.runOps f ops (AsyncForwardList.mk_ env start_offset) = some s →
        s.GetPagesFetched ≤ s.fetched_.length) := by
  refine ⟨?_, ?_, ?_, ?_⟩
  · intro s page env1 hreply hend hpos
    have hend1 : s.reached_end_ = false := hend
    unfold AsyncForwardList.Fetch
    simp only [hreply, AsyncForwardList.HaveCurrent, hend1, AsyncForwardList.GetPagesFetched]
    rw [if_neg (by simp [hpos])]
  · intro s l env1 hreply hcase
    unfold AsyncForwardList.Fetch
    simp only [hreply, AsyncForwardList.GetPagesFetched]
    rw [if_pos]
    rcases hcase with h | h | ⟨page, h, hnil⟩
    · have h1 : s.reached_end_ = true := h
      simp [AsyncForwardList.HaveCurrent, h1]
    · simp [AsyncForwardList.HaveCurrent, h]
    · have hw : wrapInt64 0 = 0 := by decide
      simp [AsyncForwardList.HaveCurrent, h, hnil, hw]
  · intro s e env1 hreply
    unfold AsyncForwardList.Fetch
    simp only [hreply, AsyncForwardList.GetPagesFetched]
  · intro env start_offset ops s hrun
    refine runOps_keeps f (fun s => s.pages_fected_ ≤ s.fetched_.length) ?_ ?_ ?_ ops _ s
      (Nat.zero_le _) hrun
    · intro s h
      have h1 := Fetch_fetched f s
      have h2 := (Fetch_pages_le f s).2
      rw [h1, List.length_append, List.length_singleton]
      omega
    · intro s c h; exact h
    · intro s c h; exact h

/-- Witness of the amended claim C14: the first page of three records counts. -/
theorem GetPagesFetched_counts_nonempty_pages_witness :
    (AsyncForwardList.Fetch (fakeFetch [1, 2, 3] 2)
        (AsyncForwardList.mk_ () 0)).2.GetPagesFetched
      = (AsyncForwardList.mk_ () 0 : AsyncForwardList Nat Unit).GetPagesFetched + 1 :=
  (GetPagesFetched_counts_nonempty_pages (fakeFetch [1, 2, 3] 2)).1
    (AsyncForwardList.mk_ () 0) (fakePage [1, 2, 3] 2 0) () (by decide) (by decide) (by decide)

/-- Claim C15: the terminal flag is permanent.  From a list that has
`Ended()`, every sequence of `begin()`, `Next()` and `ToContainer()` calls
runs to its end (one loop iteration of each `ToContainer()` suffices) and
leaves a list that has `Ended()`, whatever the fetch closure returns or
throws; `end()` only builds an iterator. -/
theorem Ended_is_permanent {T σ : Type} (f : fetch_fn_t T σ)
    (ops : List AsyncForwardList.ListOp) (s : AsyncForwardList T σ)
    (hended : s.Ended = true)
    (hfuel : ∀ op ∈ ops, op ≠ AsyncForwardList.ListOp.toContainer 0) :
    ∃ s1, AsyncForwardList.runOps f ops s = some s1 ∧ s1.Ended = true := by
  have hkeep : ∀ (s s1 : AsyncForwardList T σ), s.reached_end_ = true →
      AsyncForwardList.runOps f ops s = some s1 → s1.reached_end_ = true :=
    fun s s1 => runOps_keeps f (fun s => s.reached_end_ = true)
      (fun s h => Fetch_reached_end f s h) (fun _ _ h => h) (fun _ _ _ => rfl) ops s s1
  have htotal : ∀ (ops : List AsyncForwardList.ListOp) (s : AsyncForwardList T σ),
      s.reached_end_ = true →
      (∀ op ∈ ops, op ≠ AsyncForwardList.ListOp.toContainer 0) →
      ∃ s1, AsyncForwardList.runOps f ops s = some s1 := by
    intro ops
    induction ops with
    | nil => intro s _ _; exact ⟨s, rfl⟩
    | cons op ops ih =>
      intro s hs hf
      have hf1 : ∀ o ∈ ops, o ≠ AsyncForwardList.ListOp.toContainer 0 :=
        fun o ho => hf o (List.mem_cons_of_mem _ ho)
      rw [AsyncForwardList.runOps]
      cases op with
      | begin =>
        simp only [AsyncForwardList.applyOp, Option.some_bind]
        exact ih _ (Fetch_reached_end f s hs) hf1
      | next =>
        simp only [AsyncForwardList.applyOp, Option.some_bind]
        exact ih _ (Next_keeps f (fun s => s.reached_end_ = true)
          (fun s h => Fetch_reached_end f s h) (fun _ _ h => h) (fun _ _ _ => rfl) s hs) hf1
      | toContainer fuel =>
        obtain ⟨fuel1, rfl⟩ : ∃ k, fuel = k + 1 := by
          cases fuel with
          | zero => exact absurd rfl (hf _ (List.mem_cons_self _ _))
          | succ k => exact ⟨k, rfl⟩
        have hb := Fetch_reached_end f s hs
        have hc : ∃ r, AsyncForwardList.ToContainer f (fuel1 + 1) s = some r := by
          unfold AsyncForwardList.ToContainer
          split
          · exact ⟨_, rfl⟩
          · rename_i heq
            have hb1 : (AsyncForwardList.begin_ f s).2.reached_end_ = true := hb
            rw [heq] at hb1
            rw [AsyncForwardList.ToContainerLoop]
            dsimp only [AsyncForwardList.Ended]
            rw [if_pos hb1]
            exact ⟨_, rfl⟩
        obtain ⟨r, hr⟩ := hc
        simp only [AsyncForwardList.applyOp, hr, Option.map_some', Option.some_bind]
        exact ih _ (ToContainer_keeps f (fun s => s.reached_end_ = true)
          (fun s h => Fetch_reached_end f s h) (fun _ _ h => h) (fun _ _ _ => rfl)
          (fuel1 + 1) s r.1 r.2 hs hr) hf1
  obtain ⟨s1, hs1⟩ := htotal ops s hended hfuel
  exact ⟨s1, hs1, hkeep s s1 hended hs1⟩

/-- Witness of claim C15: `begin()`, `ToContainer()` and `begin()` again on a
list that ended, over a server that still has records. -/
theorem Ended_is_permanent_witness :
    ∃ s1, AsyncForwardList.runOps (fakeFetch [1, 2, 3] 2)
        [AsyncForwardList.ListOp.begin, AsyncForwardList.ListOp.toContainer 1,
         AsyncForwardList.ListOp.begin]
        { fakeState [1, 2, 3] 2 0 1 1 [0] with reached_end_ := true } = some s1
      ∧ s1.Ended = true :=
  Ended_is_permanent (fakeFetch [1, 2, 3] 2)
    [AsyncForwardList.ListOp.begin, AsyncForwardList.ListOp.toContainer 1,
     AsyncForwardList.ListOp.begin]
    { fakeState [1, 2, 3] 2 0 1 1 [0] with reached_end_ := true } rfl (by decide)

/-- Claim C16: for a closure whose pages fit the C++ types, and a start
offset from the least `int` up (in particular every start offset from 0 up)
whose cursor does not overflow, one pass over a fresh list, `begin()`
followed by any number of `Next()` calls, hands strictly increasing offsets
to the successive invocations of the fetch closure.  And `Next()` does not
invoke the closure while records of the current page remain after the
current one: it only moves the cursor. -/
theorem pass_offsets_strictly_increase {T σ : Type} (f : fetch_fn_t T σ)
    (hb : AsyncForwardList.pagesBounded f) :
    (∀ (env : σ) (start_offset : Int) (n : Nat),
        -2147483648 ≤ start_offset → start_offset < 4611686018427387904 →
        ∃ s, AsyncForwardList.runOps f
              (AsyncForwardList.ListOp.begin :: List.replicate n AsyncForwardList.ListOp.next)
              (AsyncForwardList.mk_ env start_offset) = some s
          ∧ s.fetched_.Pairwise (fun a b => a < b))
    ∧ (∀ (s : AsyncForwardList T σ) (l : ListReturnMapper T),
        s.list_ = some l → s.HaveCurrent = true → 0 ≤ s.current_ →
        (l.list.length : Int) < 9223372036854775808 →
        s.current_ + 1 < (l.list.length : Int) →
        AsyncForwardList.Next f s = (Except.ok (), { s with current_ := s.current_ + 1 })
          ∧ (AsyncForwardList.Next f s).2.fetched_ = s.fetched_) := by
  constructor
  · intro env start_offset n h1 h2
    obtain ⟨s, hs, hinv⟩ := pass_PassInvariant f hb n _
      (begin_PassInvariant f hb env start_offset h1 h2)
    refine ⟨s, ?_, hinv.1⟩
    rw [AsyncForwardList.runOps]
    simp only [AsyncForwardList.applyOp, Option.some_bind]
    exact hs
  · intro s l hlist hcur hc hsize hrem
    have hw : wrapInt64 (l.list.length : Int) = (l.list.length : Int) :=
      wrapInt64_of_bounds _ (by omega) hsize
    have hw1 : wrapInt64 (s.current_ + 1) = s.current_ + 1 :=
      wrapInt64_of_bounds _ (by omega) (by omega)
    have hn : AsyncForwardList.Next f s
        = (Except.ok (), { s with current_ := s.current_ + 1 }) := by
      unfold AsyncForwardList.Next
      rw [hcur]
      simp only [hlist, hw, hw1, if_true]
      rw [if_neg (by omega)]
    rw [hn]
    exact ⟨rfl, rfl⟩

/-- Witness of claim C16: a pass of five `Next()` calls over three records in
pages of two. -/
theorem pass_offsets_strictly_increase_witness :
    ∃ s, AsyncForwardList.runOps (fakeFetch [1, 2, 3] 2)
          (AsyncForwardList.ListOp.begin :: List.replicate 5 AsyncForwardList.ListOp.next)
          (AsyncForwardList.mk_ () 0) = some s
      ∧ s.fetched_.Pairwise (fun a b => a < b) :=
  (pass_offsets_strictly_increase (fakeFetch [1, 2, 3] 2) (by
      intro env arg l env1 h
      simp only [fakeFetch, Prod.mk.injEq, Except.ok.injEq, Option.some.injEq] at h
      obtain ⟨h, _⟩ := h
      rw [← h]
      simp only [fakePage, List.length_take, List.length_drop, List.length_cons,
        List.length_nil, Nat.cast_ofNat]
      omega)).1 () 0 5 (by decide) (by decide)

/-! ## The `offset` argument of a list request -/

/-- Claim C17 fails for offset 0 and a filter with an `offset` key: the list
returned by `List_` for the filter `offset=50` and no list parameters invokes
its closure with offset 0 at `begin()`, and the request carries `offset=50`. -/
theorem List_keeps_filter_offset_counterexample :
    (AsyncForwardList.begin_
        (List_fetch_fn (serverStatus 200 "") emptyPage "https://api.example/contacts"
          { auth := sampleAuth 3, log := [] })
        (List_ (some [("offset", "50")]) none { auth := sampleAuth 3, log := [] })).2.fetched_
      = [0]
    ∧ ((AsyncForwardList.begin_
        (List_fetch_fn (serverStatus 200 "") emptyPage "https://api.example/contacts"
          { auth := sampleAuth 3, log := [] })
        (List_ (some [("offset", "50")]) none
          { auth := sampleAuth 3, log := [] })).2.fetch_env_.world.log.map (fun q => q.args))
      = [[("offset", "50")]] := by
  have hloop : DealWithErrorsAndAuth (serverStatus 200 "")
      (Request.Create "https://api.example/contacts" RequestType.GET none
        (some [("offset", "50")]) (ToHeaders (sampleAuth 3)))
      { auth := sampleAuth 3, log := [] }
      = (Except.ok { code := 200, body := "reply" },
         Request.Create "https://api.example/contacts" RequestType.GET none
           (some [("offset", "50")]) (ToHeaders (sampleAuth 3)),
         { auth := sampleAuth 3,
           log := [Request.Create "https://api.example/contacts" RequestType.GET none
                     (some [("offset", "50")]) (ToHeaders (sampleAuth 3))] }) :=
    loop_success _ 0 _ _ _ _ (by decide) (by decide)
  have hlist : (List_ (some [("offset", "50")]) none
        { auth := sampleAuth 3, log := [] } : AsyncForwardList String ListEnv)
      = AsyncForwardList.mk_
          { args := some [("offset", "50")], world := { auth := sampleAuth 3, log := [] } } 0 := by
    decide
  have hw64 : wrapInt64 (0 + 0) = 0 := by decide
  have hw32 : wrapInt32 0 = 0 := by decide
  rw [hlist]
  simp only [AsyncForwardList.begin_, AsyncForwardList.Fetch, AsyncForwardList.mk_, hw64, hw32,
    List_fetch_fn, List_fetch]
  rw [if_neg (by decide)]
  simp only [hloop, emptyPage]
  decide

/-- Claim C17 as amended: the closure of `List_`, called with the offset `o`,
first executes a GET request to the resource URL.  When `o` is not 0, every
`offset` argument of that request has the value decimal `o`, there is one,
the arguments with other names are those the closure held, in their order, and
the number of `offset` arguments is the number held before, or one when none
was held.  When `o` is 0 the request carries the arguments the closure held,
unchanged, a held `offset` argument included.  Every later request of the call
is a token refresh or a replay with the same arguments. -/
theorem List_fetch_offset_argument {T : Type} (ext : Externals)
    (parseList : Reply → Except String (ListReturnMapper T)) (url : String)
    (headers : Option StringMap) (env : ListEnv) (o : Int) :
    ∃ q rest,
      (List_fetch ext parseList url headers env o).2.world.log = env.world.log ++ q :: rest
      ∧ q.url = url ∧ q.type = RequestType.GET
      ∧ (o ≠ 0 →
          (∀ p ∈ q.args, p.1 = "offset" → p.2 = toString o)
          ∧ ("offset", toString o) ∈ q.args
          ∧ q.args.filter (fun p => decide (p.1 ≠ "offset"))
              = (env.args.getD []).filter (fun p => decide (p.1 ≠ "offset"))
          ∧ q.args.countP (fun p => decide (p.1 = "offset"))
              = max 1 ((env.args.getD []).countP (fun p => decide (p.1 = "offset"))))
      ∧ (o = 0 → q.args = env.args.getD [])
      ∧ ∀ r ∈ rest, r.url = refreshUrl ∨ (r.url = url ∧ r.args = q.args) := by
  obtain ⟨rest, hlog, hall⟩ := DealWithErrorsAndAuth_log ext
    (Request.Create url RequestType.GET none
      (if o ≠ 0 then some (SetOrReplaceArg (env.args.getD []) "offset" (toString o))
       else env.args) headers) env.world
  refine ⟨Request.Create url RequestType.GET none
      (if o ≠ 0 then some (SetOrReplaceArg (env.args.getD []) "offset" (toString o))
       else env.args) headers, rest, ?_, rfl, rfl, ?_, ?_, ?_⟩
  · rw [List_fetch_world]; exact hlog
  · intro ho
    simp only [Request.Create, if_pos ho, Option.getD_some]
    exact ⟨SetOrReplaceArg_value _ _ _, SetOrReplaceArg_mem _ _ _,
      SetOrReplaceArg_others _ _ _, SetOrReplaceArg_count _ _ _⟩
  · intro ho
    simp only [Request.Create, ho, ne_eq, not_true_eq_false, if_false]
  · intro r hr
    rcases hall r hr with h | ⟨h1, _, h3, _⟩
    · exact Or.inl h
    · exact Or.inr ⟨h1, h3⟩

/-- Witness of the amended claim C17: offset 20 replaces a held `offset=50`. -/
theorem List_fetch_offset_argument_witness :
    ∃ q rest,
      (List_fetch (serverStatus 200 "") emptyPage "https://api.example/contacts" none
          { args := some [("limit", "10"), ("offset", "50")],
            world := { auth := sampleAuth 3, log := [] } } 20).2.world.log
        = [] ++ q :: rest
      ∧ (∀ p ∈ q.args, p.1 = "offset" → p.2 = toString (20 : Int))
      ∧ ("offset", toString (20 : Int)) ∈ q.args
      ∧ q.args.filter (fun p => decide (p.1 ≠ "offset"))
          = [("limit", "10"), ("offset", "50")].filter (fun p => decide (p.1 ≠ "offset"))
      ∧ q.args.countP (fun p => decide (p.1 = "offset"))
          = max 1 ([("limit", "10"), ("offset", "50")].countP
              (fun p => decide (p.1 = "offset"))) := by
  obtain ⟨q, rest, hlog, _, _, h, _, _⟩ :=
    List_fetch_offset_argument (serverStatus 200 "") emptyPage "https://api.example/contacts"
      none { args := some [("limit", "10"), ("offset", "50")],
             world := { auth := sampleAuth 3, log := [] } } 20
  exact ⟨q, rest, hlog, h (by decide)⟩

/-! ## Preconditions of the operations on a record -/

/-- Claim C18: a record whose `id` is empty refuses its own operations before
any request is executed.  `BaseData::VerifyForOperations_` throws for the
empty id whatever the state of the resource; hence `Contact::Update()` and
`Contact::Delete()` throw and leave the world, and so the log of executed
requests, unchanged; the nested token classes, which have their own check,
do the same in `Delete()`. -/
theorem record_operations_refuse_empty_id (ext : Externals) (resources : Resources) (w : World) :
    (∀ res_exists_, BaseData.VerifyForOperations_ resources res_exists_ ""
        = Except.error (Exception.runtime_error "This object is not initialized for operations"))
    ∧ (∀ (serialize : Serializer Contact) (c : Contact), c.id = "" →
        c.Update ext serialize resources w
          = (Except.error (Failure.thrown
              (Exception.runtime_error "This object is not initialized for operations")), w))
    ∧ (∀ (c : Contact), c.id = "" →
        c.Delete ext resources w
          = (Except.error (Failure.thrown
              (Exception.runtime_error "This object is not initialized for operations")), w))
    ∧ (∀ (t : Contact.ApplicationToken), t.id = "" →
        t.Delete ext resources w
          = (Except.error (Failure.thrown
              (Exception.runtime_error "This object is not initialized for operations")), w))
    ∧ (∀ (t : Contact.AccessToken), t.id = "" →
        t.Delete ext resources w
          = (Except.error (Failure.thrown
              (Exception.runtime_error "This object is not initialized for operations")), w)) := by
  have hv : ∀ res_exists_, BaseData.VerifyForOperations_ resources res_exists_ ""
      = Except.error (Exception.runtime_error "This object is not initialized for operations") := by
    intro r
    unfold BaseData.VerifyForOperations_
    rw [if_pos rfl]
  refine ⟨hv, ?_, ?_, ?_, ?_⟩
  · intro serialize c hid
    unfold Contact.Update Contact.VerifyForOperations
    rw [hid, hv]
  · intro c hid
    unfold Contact.Delete Contact.VerifyForOperations
    rw [hid, hv]
  · intro t hid
    unfold Contact.ApplicationToken.Delete Contact.ApplicationToken.VerifyForOperations
    rw [if_pos (Or.inr hid)]
  · intro t hid
    unfold Contact.AccessToken.Delete Contact.AccessToken.VerifyForOperations
    rw [if_pos (Or.inr hid)]

/-- Witness of claim C18: a contact built by the caller, bound to a live
resource but without an id. -/
theorem record_operations_refuse_empty_id_witness :
    Contact.Update (serverStatus 200 "") idAsBody sampleResources
        { sampleContact with id := "" } { auth := sampleAuth 3, log := [] }
      = (Except.error (Failure.thrown
          (Exception.runtime_error "This object is not initialized for operations")),
         { auth := sampleAuth 3, log := [] }) :=
  (record_operations_refuse_empty_id (serverStatus 200 "") sampleResources
    { auth := sampleAuth 3, log := [] }).2.1 idAsBody { sampleContact with id := "" } rfl

/-- Claim C19 fails for the empty id: `Delete_("")` executes a DELETE request
to the collection URL followed by a slash and completes, and `Update_` of a
record without id executes a POST request to the same URL. -/
theorem engine_operations_accept_empty_id_counterexample :
    Delete_ (serverStatus 200 "") sampleResource.resource_url_ ""
        { auth := sampleAuth 3, log := [] }
      = (Except.ok (),
         { auth := sampleAuth 3,
           log := [{ url := "https://api.example/contacts/", type := RequestType.DELETE,
                     body := none, args := [],
                     headers := [("Accept", "*/*"), ("Accept-Encoding", "identity")] }] })
    ∧ Update_ (serverStatus 200 "") idAsBody sampleResource Contact.id
        { sampleContact with id := "" } { auth := sampleAuth 3, log := [] }
      = (Except.ok (),
         { auth := sampleAuth 3,
           log := [{ url := "https://api.example/contacts/", type := RequestType.POST,
                     body := some "", args := [],
                     headers := [("Accept", "*/*"), ("Accept-Encoding", "identity")] }] }) := by
  constructor
  · decide
  · have hloop : DealWithErrorsAndAuth (serverStatus 200 "")
        { url := "https://api.example/contacts/", type := RequestType.POST, body := some "",
          args := [], headers := [("Accept", "*/*"), ("Accept-Encoding", "identity")] }
        { auth := sampleAuth 3, log := [] }
        = (Except.ok { code := 200, body := "reply" },
           { url := "https://api.example/contacts/", type := RequestType.POST, body := some "",
             args := [], headers := [("Accept", "*/*"), ("Accept-Encoding", "identity")] },
           { auth := sampleAuth 3,
             log := [{ url := "https://api.example/contacts/", type := RequestType.POST,
                       body := some "", args := [],
                       headers := [("Accept", "*/*"), ("Accept-Encoding", "identity")] }] }) :=
      loop_success _ 0 _ _ _ _ (by decide) (by decide)
    have hurl : sampleResource.resource_url_ ++ "/" ++ Contact.id { sampleContact with id := "" }
        = "https://api.example/contacts/" := by decide
    have hbody : idAsBody { sampleContact with id := "" } sampleResource.GetJsonFieldMapping
        sampleResource.GetReadOnlyNames = "" := by decide
    have hheaders : (ToHeaders (sampleAuth 3)).getD []
        = [("Accept", "*/*"), ("Accept-Encoding", "identity")] := by decide
    unfold Update_ DoPost
    simp only [hurl, hbody, hheaders, hloop]
    rfl

/-- Claim C19 as amended: the engine-level operations do not look at the id.
For every record, `Update_` first executes a POST request to the collection
URL, a slash and the id of the record, with the serialised record as body; for
every id, `Delete_` executes exactly one DELETE request to the collection URL,
a slash and the id.  This holds for the empty id as for any other. -/
theorem engine_operations_do_not_check_id {dataT : Type} (ext : Externals)
    (serialize : Serializer dataT) (res : ResourceImpl) (id_of : dataT → String)
    (object : dataT) (id : String) (w : World) :
    (∃ rest, (Update_ ext serialize res id_of object w).2.log
        = w.log ++
            { url := res.resource_url_ ++ "/" ++ id_of object, type := RequestType.POST,
              body := some (serialize object res.GetJsonFieldMapping res.GetReadOnlyNames),
              args := [], headers := (ToHeaders w.auth).getD [] } :: rest)
    ∧ (Delete_ ext res.resource_url_ id w).2.log
        = w.log ++ [{ url := res.resource_url_ ++ "/" ++ id, type := RequestType.DELETE,
                      body := none, args := [], headers := (ToHeaders w.auth).getD [] }] := by
  constructor
  · obtain ⟨rest, hlog, _⟩ := DealWithErrorsAndAuth_log ext
      { url := res.resource_url_ ++ "/" ++ id_of object, type := RequestType.POST,
        body := some (serialize object res.GetJsonFieldMapping res.GetReadOnlyNames),
        args := [], headers := (ToHeaders w.auth).getD [] } w
    exact ⟨rest, hlog⟩
  · unfold Delete_ DeleteUrl_
    dsimp only
    have h := Execute_log ext
      (Request.Create (res.resource_url_ ++ "/" ++ id) RequestType.DELETE none none
        (ToHeaders w.auth)) w
    split
    · rename_i heq; rw [heq] at h; exact h
    · rename_i heq; rw [heq] at h; exact h

/-- Claim C20, evaluated on an application token and an access token received
from a resource that has since been destroyed: `Delete()` passes
`VerifyForOperations()`, which looks at the pointer and the id only, and then
uses the dangling pointer `res_`; no error is raised before that.  A contact
in the same situation throws `This object's resource has expired`. -/
theorem nested_token_uses_expired_resource :
    sampleApplicationToken.VerifyForOperations = Except.ok ()
    ∧ sampleApplicationToken.Delete (serverStatus 200 "") noResources
          { auth := sampleAuth 3, log := [] }
        = (Except.error Failure.bad_pointer, { auth := sampleAuth 3, log := [] })
    ∧ sampleAccessToken.VerifyForOperations = Except.ok ()
    ∧ sampleAccessToken.Delete (serverStatus 200 "") noResources
          { auth := sampleAuth 3, log := [] }
        = (Except.error Failure.bad_pointer, { auth := sampleAuth 3, log := [] })
    ∧ sampleContact.Delete (serverStatus 200 "") noResources
          { auth := sampleAuth 3, log := [] }
        = (Except.error (Failure.thrown
            (Exception.runtime_error "This object\x27s resource has expired")),
           { auth := sampleAuth 3, log := [] }) := by
  decide

/-! ## What a write sends of a record -/

/-- Claim C21: for every resource whose read-only name set is `R` and every
record, `Create_` and `Update_` send the object serialised with `R` and the
field-name mapping of the resource, to the collection URL and to
`{collection}/{id}`; every body they send, replays after a token refresh
included, is that serialisation (a token refresh has no body).  So when the
serialiser leaves the names of `R` out of it (`fields` reads the field names
of a body), no body sent has a field whose name is in `R`. -/
theorem writes_exclude_read_only_names {dataT : Type} (ext : Externals)
    (serialize : Serializer dataT) (parseGenericReply : Reply → Except String GenericReply)
    (id_of : dataT → String) (res : ResourceImpl) (object : dataT) (w : World)
    (fields : String → List String) (R : excluded_names_t)
    (hR : res.GetReadOnlyNames = some R)
    (hser : ∀ n ∈ R, n ∉ fields (serialize object res.GetJsonFieldMapping (some R))) :
    (∃ first rest,
        (Create_ ext serialize parseGenericReply res object w).2.log = w.log ++ first :: rest
        ∧ first.url = res.resource_url_ ∧ first.type = RequestType.POST
        ∧ first.body = some (serialize object res.GetJsonFieldMapping (some R))
        ∧ ∀ q ∈ first :: rest, ∀ b, q.body = some b →
            b = serialize object res.GetJsonFieldMapping (some R) ∧ ∀ n ∈ R, n ∉ fields b)
    ∧ (∃ first rest,
        (Update_ ext serialize res id_of object w).2.log = w.log ++ first :: rest
        ∧ first.url = res.resource_url_ ++ "/" ++ id_of object
        ∧ first.type = RequestType.POST
        ∧ first.body = some (serialize object res.GetJsonFieldMapping (some R))
        ∧ ∀ q ∈ first :: rest, ∀ b, q.body = some b →
            b = serialize object res.GetJsonFieldMapping (some R) ∧ ∀ n ∈ R, n ∉ fields b) := by
  have hgood : (fun b => b = serialize object res.GetJsonFieldMapping (some R)
        ∧ ∀ n ∈ R, n ∉ fields b)
      (serialize object res.GetJsonFieldMapping res.GetReadOnlyNames) := by
    rw [hR]; exact ⟨rfl, hser⟩
  constructor
  · rw [Create_world]
    have h := DoPost_bodies ext serialize res object res.resource_url_ w
      (fun b => b = serialize object res.GetJsonFieldMapping (some R) ∧ ∀ n ∈ R, n ∉ fields b)
      hgood
    rw [hR] at h
    exact h
  · have h := DoPost_bodies ext serialize res object
      (res.resource_url_ ++ "/" ++ id_of object) w
      (fun b => b = serialize object res.GetJsonFieldMapping (some R) ∧ ∀ n ∈ R, n ∉ fields b)
      hgood
    rw [hR] at h
    exact h

/-- Claim C21 at a concrete input: a contact record with its `id` and
`created_date` set, written through the contacts resource. -/
theorem writes_exclude_read_only_names_witness :
    (∀ n ∈ ["id", "application_id", "created_date", "last_update_date"],
      n ∉ bodyFieldNames (pairsAsBody
        [("id", "c-1"), ("first_name", "John"), ("created_date", "7")]
        sampleResource.GetJsonFieldMapping
        (some ["id", "application_id", "created_date", "last_update_date"])))
    ∧ ((∃ first rest,
        (Create_ (serverStatus 200 "new-token") pairsAsBody bodyAsId sampleResource
          [("id", "c-1"), ("first_name", "John"), ("created_date", "7")] sampleWorld).2.log
          = sampleWorld.log ++ first :: rest
        ∧ first.url = sampleResource.resource_url_ ∧ first.type = RequestType.POST
        ∧ first.body = some (pairsAsBody
            [("id", "c-1"), ("first_name", "John"), ("created_date", "7")]
            sampleResource.GetJsonFieldMapping
            (some ["id", "application_id", "created_date", "last_update_date"]))
        ∧ ∀ q ∈ first :: rest, ∀ b, q.body = some b →
            b = pairsAsBody [("id", "c-1"), ("first_name", "John"), ("created_date", "7")]
              sampleResource.GetJsonFieldMapping
              (some ["id", "application_id", "created_date", "last_update_date"])
            ∧ ∀ n ∈ ["id", "application_id", "created_date", "last_update_date"],
              n ∉ bodyFieldNames b)
    ∧ (∃ first rest,
        (Update_ (serverStatus 200 "new-token") pairsAsBody sampleResource
          (fun _ => "c-1")
          [("id", "c-1"), ("first_name", "John"), ("created_date", "7")] sampleWorld).2.log
          = sampleWorld.log ++ first :: rest
        ∧ first.url = sampleResource.resource_url_ ++ "/" ++ "c-1"
        ∧ first.type = RequestType.POST
        ∧ first.body = some (pairsAsBody
            [("id", "c-1"), ("first_name", "John"), ("created_date", "7")]
            sampleResource.GetJsonFieldMapping
            (some ["id", "application_id", "created_date", "last_update_date"]))
        ∧ ∀ q ∈ first :: rest, ∀ b, q.body = some b →
            b = pairsAsBody [("id", "c-1"), ("first_name", "John"), ("created_date", "7")]
              sampleResource.GetJsonFieldMapping
              (some ["id", "application_id", "created_date", "last_update_date"])
            ∧ ∀ n ∈ ["id", "application_id", "created_date", "last_update_date"],
              n ∉ bodyFieldNames b)) :=
  ⟨by decide,
   writes_exclude_read_only_names (serverStatus 200 "new-token") pairsAsBody bodyAsId
    (fun _ => "c-1") sampleResource
    [("id", "c-1"), ("first_name", "John"), ("created_date", "7")] sampleWorld
    bodyFieldNames ["id", "application_id", "created_date", "last_update_date"] rfl
    (by decide)⟩

/-! ## The credential -/

/-- Claim C22: an `AuthInfo` constructed from a key, a secret, a token and a
retry budget returns each of them from its getter; after `SetToken(t1)`, on
any `AuthInfo`, `GetToken()` and `GetConfig().token` are `t1`, and `GetKey()`,
`GetSecret()` and `GetRetries()` (and every other member of the
configuration) are what they were. -/
theorem AuthInfo_getters_and_SetToken (k s t : String) (r : Int) (t1 : String) (a : AuthInfo) :
    (AuthInfo.mk_ k s t r).GetKey = k
    ∧ (AuthInfo.mk_ k s t r).GetSecret = s
    ∧ (AuthInfo.mk_ k s t r).GetToken = t
    ∧ (AuthInfo.mk_ k s t r).GetRetries = r
    ∧ ((AuthInfo.mk_ k s t r).SetToken t1).GetToken = t1
    ∧ ((AuthInfo.mk_ k s t r).SetToken t1).GetConfig.token = t1
    ∧ ((AuthInfo.mk_ k s t r).SetToken t1).GetKey = k
    ∧ ((AuthInfo.mk_ k s t r).SetToken t1).GetSecret = s
    ∧ ((AuthInfo.mk_ k s t r).SetToken t1).GetRetries = r
    ∧ (a.SetToken t1).GetToken = t1
    ∧ (a.SetToken t1).GetConfig.token = t1
    ∧ (a.SetToken t1).GetKey = a.GetKey
    ∧ (a.SetToken t1).GetSecret = a.GetSecret
    ∧ (a.SetToken t1).GetRetries = a.GetRetries
    ∧ (a.SetToken t1).GetConfig = { a.GetConfig with token := t1 } :=
  ⟨rfl, rfl, rfl, rfl, rfl, rfl, rfl, rfl, rfl, rfl, rfl, rfl, rfl, rfl, rfl⟩

/-- Claim C23, evaluated on the accesses the methods make: `GetToken()` and
`SetToken()` touch the token only while they hold the mutex and cannot race
with each other, but `ToHeaders` copies the configuration behind the
reference returned by `GetConfig()` without taking the mutex, so its read of
the token can coincide with the write of a `SetToken()` in another thread. -/
theorem ToHeaders_reads_token_without_mutex :
    guardedFrom false AuthInfo.GetToken_steps = true
    ∧ guardedFrom false AuthInfo.SetToken_steps = true
    ∧ races AuthInfo.SetToken_steps AuthInfo.GetToken_steps = false
    ∧ races AuthInfo.SetToken_steps AuthInfo.SetToken_steps = false
    ∧ guardedFrom false ToHeaders_steps = false
    ∧ races AuthInfo.SetToken_steps ToHeaders_steps = true := by
  decide

/-! ## The lists below a record -/

/-- Claim C25, evaluated on one `MessageRequest::Resource` and one
`ContactGroup::Resource`, each asked for the list of id `A` and then for the
list of id `B`: the second list is bound to the sub-resource created for `A`,
and the request its `begin()` issues goes to `.../A/messages` (to
`.../A/contacts`), not to the URL of `B`. -/
theorem ListMessages_keeps_first_id :
    sampleMessageRequests.GetMessagesUrl "B"
      = "https://api.example/scg-external-api/api/v1/messaging/message_requests/B/messages"
    ∧ messagesOfBAfterA.resource_url_
      = "https://api.example/scg-external-api/api/v1/messaging/message_requests/A/messages"
    ∧ (AsyncForwardList.begin_ (ListHandle.fetch_fn (serverStatus 200 "") emptyPage
          messagesOfBAfterA) messagesOfBAfterA.list).2.fetch_env_.world.log.map Request.url
      = ["https://api.example/scg-external-api/api/v1/messaging/message_requests/A/messages"]
    ∧ sampleContactGroups.GetContactsUrl "B"
      = "https://api.example/scg-external-api/api/v1/contact_groups/B/contacts"
    ∧ contactsOfBAfterA.resource_url_
      = "https://api.example/scg-external-api/api/v1/contact_groups/A/contacts"
    ∧ (AsyncForwardList.begin_ (ListHandle.fetch_fn (serverStatus 200 "") emptyPage
          contactsOfBAfterA) contactsOfBAfterA.list).2.fetch_env_.world.log.map Request.url
      = ["https://api.example/scg-external-api/api/v1/contact_groups/A/contacts"] := by
  have hM : messagesOfBAfterA
      = { resource_url_ :=
            "https://api.example/scg-external-api/api/v1/messaging/message_requests/A/messages",
          headers := ToHeaders (sampleAuth 3),
          list := AsyncForwardList.mk_ { args := none, world := sampleWorld } 0 } := by
    decide
  have hC : contactsOfBAfterA
      = { resource_url_ := "https://api.example/scg-external-api/api/v1/contact_groups/A/contacts",
          headers := ToHeaders (sampleAuth 3),
          list := AsyncForwardList.mk_ { args := none, world := sampleWorld } 0 } := by
    decide
  refine ⟨by decide, by decide, ?_, by decide, by decide, ?_⟩
  · rw [hM]
    unfold ListHandle.fetch_fn
    dsimp only
    rw [begin_first_request emptyPage "" _ (by decide)]
    rfl
  · rw [hC]
    unfold ListHandle.fetch_fn
    dsimp only
    rw [begin_first_request emptyPage "" _ (by decide)]
    rfl

/-- Claim C30, evaluated on a bound message request and the list parameters
(start offset 20, page size 5, sort by `id`): the list of the record-level
`ListMessages(f, lp)` starts at offset 0 and has no query arguments, while
the resource-level `ListMessages(id, f, lp)` starts at offset 20 with
`limit=5` and `sort=id`.  The record-level `ContactGroup::ListContacts`, which
passes `lp` on, returns the list of its resource-level call. -/
theorem record_ListMessages_drops_list_parameters :
    ((@MessageRequest.ListMessages String sampleMessageRequestResources sampleMessageRequest
          none (some sampleListParameters) sampleWorld).map
        (fun r => (r.1.list.offset_, r.1.list.fetch_env_.args))
      = Except.ok (0, none))
    ∧ ((fun r : ListHandle String × MessageRequest.Resource =>
          (r.1.list.offset_, r.1.list.fetch_env_.args))
        (sampleMessageRequests.ListMessages "mr-1" none (some sampleListParameters) sampleWorld)
      = (20, some [("limit", "5"), ("sort", "id")]))
    ∧ (@ContactGroup.ListContacts String sampleContactGroupResources sampleContactGroup
          none (some sampleListParameters) sampleWorld
      = Except.ok (sampleContactGroups.ListContacts "cg-1" none (some sampleListParameters)
          sampleWorld))
    ∧ ((fun r : ListHandle String × ContactGroup.Resource =>
          (r.1.list.offset_, r.1.list.fetch_env_.args))
        (sampleContactGroups.ListContacts "cg-1" none (some sampleListParameters) sampleWorld)
      = (20, some [("limit", "5"), ("sort", "id")])) := by
  decide

/-! ## The query arguments of a list -/

/-- Claim C26: for every filter `f` (a map, possibly absent) and list
parameters `lp` (possibly absent), the arguments that `ToArgs` returns have
strictly ascending keys, so one argument per key, and are exactly the pairs
the specification names: `limit` with `decimal(lp.page_size)` when the page
size is not 0, `sort` with `lp.sort` when it is not empty, and the entries of
`f` with other keys.  `ToArgs` returns no arguments exactly when there is no
such pair, it never returns an empty argument list, and an `offset` argument
is returned only when `f` has it.  The filter is a value here, as `ToArgs`
assigns only to its own copy of the map. -/
theorem ToArgs_pairs (f : Option StringMap) (lp : Option ListParameters)
    (hf : ∀ m, f = some m → m.keysAscending) :
    StringMap.keysAscending ((ToArgs f lp).getD [])
    ∧ (∀ k v, (k, v) ∈ (ToArgs f lp).getD [] ↔ ToArgs_spec f lp k = some v)
    ∧ (ToArgs f lp = none ↔ ∀ k, ToArgs_spec f lp k = none)
    ∧ ToArgs f lp ≠ some []
    ∧ (∀ v, ("offset", v) ∈ (ToArgs f lp).getD [] ↔ ("offset", v) ∈ f.getD []) := by
  have h0 : (f.getD []).keysAscending := by
    cases f with
    | none => exact List.Pairwise.nil
    | some m => exact hf m rfl
  obtain ⟨m, hm, hasc, hfind⟩ := ToArgs_map f lp hf
  have hget : (ToArgs f lp).getD [] = m := by
    rw [hm]
    by_cases hnil : m = []
    · rw [if_neg (fun h => h hnil), hnil]; rfl
    · rw [if_pos hnil]; rfl
  have hmem : ∀ k v, (k, v) ∈ (ToArgs f lp).getD [] ↔ ToArgs_spec f lp k = some v := by
    intro k v
    rw [hget, StringMap.mem_iff_find m hasc, hfind]
  refine ⟨by rw [hget]; exact hasc, hmem, ?_, ?_, ?_⟩
  · rw [hm]
    constructor
    · intro h k
      by_cases hnil : m = []
      · rw [← hfind, hnil]; rfl
      · rw [if_pos hnil] at h; cases h
    · intro h
      have hnil : m = [] := StringMap.eq_nil_of_find_none m (fun k => by rw [hfind]; exact h k)
      rw [if_neg (fun hne => hne hnil)]
  · rw [hm]
    by_cases hnil : m = []
    · rw [if_neg (fun h => h hnil)]; intro h; cases h
    · rw [if_pos hnil]; intro h; exact hnil (Option.some.inj h)
  · intro v
    rw [hmem, StringMap.mem_iff_find _ h0]
    have hspec : ToArgs_spec f lp "offset" = (f.getD []).find "offset" := by
      unfold ToArgs_spec
      cases lp with
      | none => rfl
      | some p =>
        dsimp only
        rw [if_neg (fun h => absurd h.1 (by decide)), if_neg (fun h => absurd h.1 (by decide))]
    rw [hspec]

/-- Claim C26 at a concrete input: a filter with the keys `limit`, `name` and
`offset`, and list parameters with page size 5, start offset 20 and sort key
`id`. -/
theorem ToArgs_pairs_witness :
    (∀ m : StringMap, (some [("limit", "9"), ("name", "Bob"), ("offset", "3")]
        : Option StringMap) = some m → m.keysAscending)
    ∧ ToArgs (some [("limit", "9"), ("name", "Bob"), ("offset", "3")])
        (some sampleListParameters)
      = some [("limit", "5"), ("name", "Bob"), ("offset", "3"), ("sort", "id")]
    ∧ (StringMap.keysAscending
        ((ToArgs (some [("limit", "9"), ("name", "Bob"), ("offset", "3")])
          (some sampleListParameters)).getD [])
      ∧ (∀ k v, (k, v) ∈ (ToArgs (some [("limit", "9"), ("name", "Bob"), ("offset", "3")])
            (some sampleListParameters)).getD []
          ↔ ToArgs_spec (some [("limit", "9"), ("name", "Bob"), ("offset", "3")])
              (some sampleListParameters) k = some v)
      ∧ (ToArgs (some [("limit", "9"), ("name", "Bob"), ("offset", "3")])
            (some sampleListParameters) = none
          ↔ ∀ k, ToArgs_spec (some [("limit", "9"), ("name", "Bob"), ("offset", "3")])
              (some sampleListParameters) k = none)
      ∧ ToArgs (some [("limit", "9"), ("name", "Bob"), ("offset", "3")])
          (some sampleListParameters) ≠ some []
      ∧ (∀ v, ("offset", v) ∈ (ToArgs (some [("limit", "9"), ("name", "Bob"), ("offset", "3")])
            (some sampleListParameters)).getD []
          ↔ ("offset", v) ∈ (some [("limit", "9"), ("name", "Bob"), ("offset", "3")]
              : Option StringMap).getD [])) :=
  ⟨fun m h => by cases h; decide, by decide,
   ToArgs_pairs (some [("limit", "9"), ("name", "Bob"), ("offset", "3")])
     (some sampleListParameters) (fun m h => by cases h; decide)⟩

/-! ## Iterating a list again -/

/-- Claim C24: over the deterministic server with `N` records (`N` within the
range of `total`, an `int`) and page size `p ≥ 1`, after `begin()` and `k`
calls of `Next()` on a fresh list, `k < N`, the current record is record `k`;
a further `begin()` returns normally and leaves the current record at record
`k`; and `ToContainer()` after that (with fuel for the remaining records)
returns exactly the records `k .. N-1` in order. -/
theorem reiteration_resumes {T : Type} (recs : List T) (p : Nat) (hp : 1 ≤ p)
    (hN : recs.length < 2147483648) (k : Nat) (hk : k < recs.length) (fuel : Nat)
    (hfuel : recs.length - k + 1 ≤ fuel) :
    ∃ s1 s2 s3,
      AsyncForwardList.runOps (fakeFetch recs p)
          (AsyncForwardList.ListOp.begin :: List.replicate k AsyncForwardList.ListOp.next)
          (AsyncForwardList.mk_ () 0) = some s1
      ∧ s1.GetCurrent = Except.ok (recs.get ⟨k, hk⟩)
      ∧ AsyncForwardList.begin_ (fakeFetch recs p) s1 = (Except.ok (), s2)
      ∧ s2.GetCurrent = Except.ok (recs.get ⟨k, hk⟩)
      ∧ AsyncForwardList.ToContainer (fakeFetch recs p) fuel s2
          = some (Except.ok (recs.drop k), s3)
      ∧ s3.Ended = true := by
  obtain ⟨o, c, pages, tr, hrun, hoc, hc⟩ := fake_after_nexts recs p hp hN k hk
  have hock : o + c < recs.length := by omega
  have hk0 : k + 0 < recs.length := by omega
  obtain ⟨s3, hs3, hE⟩ := fakeState_ToContainer recs p k 0 (pages + 1)
    (tr ++ [((k : Nat) : Int)]) hN hp hk0 fuel (by omega)
  have hbegin := fakeState_begin recs p o c pages tr hN hp hock
  rw [hoc] at hbegin
  refine ⟨_, _, s3, hrun, ?_, hbegin, ?_, ?_, hE⟩
  · rw [fakeState_GetCurrent recs p o c pages tr hN hc hock]
    simp only [hoc]
  · rw [fakeState_GetCurrent recs p k 0 (pages + 1) _ hN (by omega) hk0]
    simp only [Nat.add_zero]
  · rw [hs3]
    simp only [Nat.add_zero]

/-- Claim C24 at a concrete input: five records in pages of two, re-iterated
after two calls of `Next()`. -/
theorem reiteration_resumes_witness :
    ∃ s1 s2 s3,
      AsyncForwardList.runOps (fakeFetch ["a", "b", "c", "d", "e"] 2)
          (AsyncForwardList.ListOp.begin :: List.replicate 2 AsyncForwardList.ListOp.next)
          (AsyncForwardList.mk_ () 0) = some s1
      ∧ s1.GetCurrent = Except.ok "c"
      ∧ AsyncForwardList.begin_ (fakeFetch ["a", "b", "c", "d", "e"] 2) s1 = (Except.ok (), s2)
      ∧ s2.GetCurrent = Except.ok "c"
      ∧ AsyncForwardList.ToContainer (fakeFetch ["a", "b", "c", "d", "e"] 2) 4 s2
          = some (Except.ok ["c", "d", "e"], s3)
      ∧ s3.Ended = true :=
  reiteration_resumes ["a", "b", "c", "d", "e"] 2 (by decide) (by decide) 2 (by decide) 4
    (by decide)

/-! ## Ended or on a current record -/

/-- Claim C27: in the state of a list after a `begin()` that returned normally
and any number of `Next()` calls, whatever the fetch closure does, exactly one
of `Ended()` and `HaveCurrent()` holds; and whenever the iterator compares
unequal to `end()`, the list holds a page, the cursor is a valid index into
it and `GetCurrent()` returns the record at the cursor. -/
theorem Ended_xor_HaveCurrent {T σ : Type} (f : fetch_fn_t T σ) (env : σ) (start_offset : Int)
    (n : Nat)
    (hbegin : (AsyncForwardList.begin_ f (AsyncForwardList.mk_ env start_offset)).1
      = Except.ok ()) :
    ∃ s, AsyncForwardList.runOps f
          (AsyncForwardList.ListOp.begin :: List.replicate n AsyncForwardList.ListOp.next)
          (AsyncForwardList.mk_ env start_offset) = some s
      ∧ (s.Ended = true ∧ s.HaveCurrent = false ∨ s.Ended = false ∧ s.HaveCurrent = true)
      ∧ (AsyncForwardList.beginIterator.ne AsyncForwardList.endIterator s = true →
          ∃ l, s.list_ = some l ∧ 0 ≤ s.current_ ∧ s.current_ < (l.list.length : Int)
            ∧ ∃ x, l.list[s.current_.toNat]? = some x ∧ s.GetCurrent = Except.ok x) := by
  have h0 := Fetch_cursor f (AsyncForwardList.mk_ env start_offset) (Or.inl hbegin)
  obtain ⟨s, hs, hor, hc⟩ := nexts_cursor f n
    (AsyncForwardList.begin_ f (AsyncForwardList.mk_ env start_offset)).2
    ⟨h0.1, by unfold AsyncForwardList.begin_; rw [h0.2]⟩
  refine ⟨s, ?_, ?_, ?_⟩
  · rw [AsyncForwardList.runOps]
    simp only [AsyncForwardList.applyOp, Option.some_bind]
    exact hs
  · cases hre : s.reached_end_ with
    | true =>
      refine Or.inl ⟨hre, ?_⟩
      unfold AsyncForwardList.HaveCurrent
      rw [hre]
      rfl
    | false =>
      rcases hor with h | h
      · rw [hre] at h; cases h
      · exact Or.inr ⟨hre, h⟩
  · intro hne
    have hre : s.reached_end_ = false := by
      cases hre : s.reached_end_ with
      | false => rfl
      | true =>
        simp [AsyncForwardList.AsyncForwardIterator.ne, AsyncForwardList.AsyncForwardIterator.eq,
          AsyncForwardList.AsyncForwardIterator.Ended, AsyncForwardList.Ended,
          AsyncForwardList.beginIterator, AsyncForwardList.endIterator, hre] at hne
    rcases hor with h | h
    · rw [hre] at h; cases h
    · obtain ⟨l, hl, hlt, hx⟩ := HaveCurrent_index s h hc
      exact ⟨l, hl, hc, hlt, hx⟩

/-- Claim C27 at a concrete input: three records in pages of two, after
`begin()` and two calls of `Next()`. -/
theorem Ended_xor_HaveCurrent_witness :
    (AsyncForwardList.begin_ (fakeFetch ["a", "b", "c"] 2) (AsyncForwardList.mk_ () 0)).1
      = Except.ok ()
    ∧ ∃ s, AsyncForwardList.runOps (fakeFetch ["a", "b", "c"] 2)
          (AsyncForwardList.ListOp.begin :: List.replicate 2 AsyncForwardList.ListOp.next)
          (AsyncForwardList.mk_ () 0) = some s
      ∧ (s.Ended = true ∧ s.HaveCurrent = false ∨ s.Ended = false ∧ s.HaveCurrent = true)
      ∧ (AsyncForwardList.beginIterator.ne AsyncForwardList.endIterator s = true →
          ∃ l, s.list_ = some l ∧ 0 ≤ s.current_ ∧ s.current_ < (l.list.length : Int)
            ∧ ∃ x, l.list[s.current_.toNat]? = some x ∧ s.GetCurrent = Except.ok x) :=
  ⟨by decide, Ended_xor_HaveCurrent (fakeFetch ["a", "b", "c"] 2) () 0 2 (by decide)⟩

/-! ## Termination of `ToContainer()` -/

/-- Claim C28: for every fetch closure that reports the same total `total` (an
`int`) on every page, and every start offset in range, `ToContainer()` on a
fresh list returns: there is an amount of fuel from which on it gives one and
the same result.  At the return the closure has been invoked at most
`max (total - start, 0) + 1` times, and when `ToContainer()` returns a
container the list has ended. -/
theorem ToContainer_terminates {T σ : Type} (f : fetch_fn_t T σ) (total : Int)
    (htot : total < 2147483648) (hb : AsyncForwardList.sameTotal f total) (env : σ)
    (start : Int) (h1 : -9223372036854775808 ≤ start) (h2 : start < 4611686018427387904) :
    ∃ fuel0 r s1,
      (∀ fuel, fuel0 ≤ fuel →
        AsyncForwardList.ToContainer f fuel (AsyncForwardList.mk_ env start) = some (r, s1))
      ∧ (s1.fetched_.length : Int) ≤ max (total - start) 0 + 1
      ∧ (∀ c, r = Except.ok c → s1.Ended = true) := by
  cases hB : AsyncForwardList.begin_ f (AsyncForwardList.mk_ env start) with
  | mk r0 s0 =>
    cases r0 with
    | error err =>
      refine ⟨0, Except.error err, s0, ?_, ?_, ?_⟩
      · intro fuel _
        unfold AsyncForwardList.ToContainer
        rw [hB]
      · have hf := Fetch_fetched f (AsyncForwardList.mk_ env start)
        unfold AsyncForwardList.begin_ at hB
        rw [hB] at hf
        dsimp only at hf
        rw [hf]
        simp only [AsyncForwardList.mk_, List.nil_append, List.length_singleton]
        omega
      · intro c hc
        cases hc
    | ok u =>
      have hinv := begin_DrainInvariant f total hb env start h1 h2 (by rw [hB])
      rw [hB] at hinv
      dsimp only at hinv
      obtain ⟨fuel0, r, s1, hloop, hinv1, hend⟩ :=
        ToContainerLoop_terminates f total htot hb start h1 (total - s0.offset_).toNat
          (match s0.list_ with
            | some l1 => ((l1.list.length : Int) - s0.current_).toNat
            | none => 0)
          s0 [] hinv (le_refl _) (by intro l1 hl1s; rw [hl1s])
      refine ⟨fuel0, r, s1, ?_, ?_, hend⟩
      · intro fuel hfuel
        unfold AsyncForwardList.ToContainer
        rw [hB]
        dsimp only
        have := ToContainerLoop_more_fuel f fuel0 s0 [] (r, s1) hloop (fuel - fuel0)
        rw [Nat.add_sub_cancel' hfuel] at this
        exact this
      · obtain ⟨_, _, _, _, hcount, htwo, _⟩ := hinv1
        by_cases hn : 2 ≤ s1.fetched_.length
        · have := htwo hn
          omega
        · omega

/-- Claim C28 at a concrete input: the deterministic server with three
records in pages of two, drained from offset 1. -/
theorem ToContainer_terminates_witness :
    AsyncForwardList.sameTotal (fakeFetch ["a", "b", "c"] 2) 3
    ∧ ∃ fuel0 r s1,
      (∀ fuel, fuel0 ≤ fuel →
        AsyncForwardList.ToContainer (fakeFetch ["a", "b", "c"] 2) fuel
          (AsyncForwardList.mk_ () 1) = some (r, s1))
      ∧ (s1.fetched_.length : Int) ≤ max (3 - 1) 0 + 1
      ∧ (∀ c, r = Except.ok c → s1.Ended = true) :=
  ⟨fun env arg l env1 h => by
      simp only [fakeFetch, Prod.mk.injEq, Except.ok.injEq, Option.some.injEq] at h
      rw [← h.1]
      simp only [fakePage, List.length_take, List.length_drop]
      exact ⟨rfl, by omega⟩,
   ToContainer_terminates (fakeFetch ["a", "b", "c"] 2) 3 (by decide)
    (fun env arg l env1 h => by
      simp only [fakeFetch, Prod.mk.injEq, Except.ok.injEq, Option.some.injEq] at h
      rw [← h.1]
      simp only [fakePage, List.length_take, List.length_drop]
      exact ⟨rfl, by omega⟩) () 1 (by decide) (by decide)⟩

/-! ## The headers of the page requests of a list -/

/-- Claim C29, evaluated on a list of the contacts resource over a server
that checks the token, with the credential holding the expired token
`old-token`: `begin()` fetches the first page and `Next()` the second.  The
first page request is answered with 401, the token is refreshed to
`new-token` and the replay succeeds.  The second page request is built from
the headers captured when the list was created: its first execution carries
no `Authorization` header, although the credential holds `new-token` by
then, so it is answered with 401 and the token is refreshed once more.  With
captured headers that hold `Bearer old-token`, as they would with the token
put into them, the first execution of the second page request carries the
old token. -/
theorem later_page_request_carries_stale_headers_counterexample :
    (AsyncForwardList.runOps
        (ListHandle.fetch_fn serverChecksToken onePageOfTwo
          (sampleResource.List none none sampleWorld))
        [AsyncForwardList.ListOp.begin, AsyncForwardList.ListOp.next]
        (sampleResource.List none none sampleWorld).list).map
      (fun s => (s.fetch_env_.world.auth.GetToken,
        s.fetch_env_.world.log.map requestSummary))
      = some ("new-token",
          [("https://api.example/contacts", [], none),
           (refreshUrl, [("consumerkey", "key"), ("consumersecret", "secret"),
                         ("oldtoken", "old-token")], none),
           ("https://api.example/contacts", [], some "Bearer new-token"),
           ("https://api.example/contacts", [("offset", "1")], none),
           (refreshUrl, [("consumerkey", "key"), ("consumersecret", "secret"),
                         ("oldtoken", "new-token")], none),
           ("https://api.example/contacts", [("offset", "1")], some "Bearer new-token")])
    ∧ (AsyncForwardList.runOps
        (List_fetch serverChecksToken onePageOfTwo "https://api.example/contacts"
          (some [("Authorization", "Bearer old-token")]))
        [AsyncForwardList.ListOp.begin, AsyncForwardList.ListOp.next]
        (sampleResource.List none none sampleWorld).list).map
      (fun s => (s.fetch_env_.world.auth.GetToken,
        s.fetch_env_.world.log.map requestSummary))
      = some ("new-token",
          [("https://api.example/contacts", [], some "Bearer old-token"),
           (refreshUrl, [("consumerkey", "key"), ("consumersecret", "secret"),
                         ("oldtoken", "old-token")], none),
           ("https://api.example/contacts", [], some "Bearer new-token"),
           ("https://api.example/contacts", [("offset", "1")], some "Bearer old-token"),
           (refreshUrl, [("consumerkey", "key"), ("consumersecret", "secret"),
                         ("oldtoken", "new-token")], none),
           ("https://api.example/contacts", [("offset", "1")], some "Bearer new-token")]) := by
  have hlist : ((sampleResource.List none none sampleWorld : ListHandle String).list)
      = AsyncForwardList.mk_ { args := none, world := sampleWorld } 0 := by
    decide
  have hfn : ListHandle.fetch_fn serverChecksToken onePageOfTwo
        (sampleResource.List none none sampleWorld)
      = List_fetch serverChecksToken onePageOfTwo "https://api.example/contacts"
          (some [("Accept", "*/*"), ("Accept-Encoding", "identity")]) := by
    unfold ListHandle.fetch_fn
    have h1 : (sampleResource.List none none sampleWorld : ListHandle String).resource_url_
        = "https://api.example/contacts" := by decide
    have h2 : (sampleResource.List none none sampleWorld : ListHandle String).headers
        = some [("Accept", "*/*"), ("Accept-Encoding", "identity")] := by decide
    rw [h1, h2]
  have key : ∀ H : Option StringMap,
      (H.getD []).find "Authorization" ≠ some "Bearer new-token" →
      (AsyncForwardList.runOps
          (List_fetch serverChecksToken onePageOfTwo "https://api.example/contacts" H)
          [AsyncForwardList.ListOp.begin, AsyncForwardList.ListOp.next]
          (AsyncForwardList.mk_ { args := none, world := sampleWorld } 0)).map
        (fun s => (s.fetch_env_.world.auth.GetToken,
          s.fetch_env_.world.log.map requestSummary))
        = some ("new-token",
            [("https://api.example/contacts", [], (H.getD []).find "Authorization"),
             (refreshUrl, [("consumerkey", "key"), ("consumersecret", "secret"),
                           ("oldtoken", "old-token")], none),
             ("https://api.example/contacts", [], some "Bearer new-token"),
             ("https://api.example/contacts", [("offset", "1")],
               (H.getD []).find "Authorization"),
             (refreshUrl, [("consumerkey", "key"), ("consumersecret", "secret"),
                           ("oldtoken", "new-token")], none),
             ("https://api.example/contacts", [("offset", "1")],
               some "Bearer new-token")]) := by
    intro H hH
    have hu : ("https://api.example/contacts" : String) ≠ refreshUrl := by decide
    have hr : (0 : Int) < 3 := by decide
    have h1 := checksToken_loop
      (Request.Create "https://api.example/contacts" RequestType.GET none none H) sampleWorld
      hu hH (by decide)
    have h2 := checksToken_loop
      (Request.Create "https://api.example/contacts" RequestType.GET none
        (some [("offset", "1")]) H)
      { auth := sampleWorld.auth.SetToken "new-token",
        log := sampleWorld.log
          ++ [Request.Create "https://api.example/contacts" RequestType.GET none none H,
              refreshRequest sampleWorld.auth,
              withBearer (Request.Create "https://api.example/contacts" RequestType.GET none
                none H) "new-token"] }
      hu hH hr
    have hw0 : wrapInt64 (0 + 0) = 0 := by decide
    have hw32 : wrapInt32 0 = 0 := by decide
    have hw1 : wrapInt64 (0 + 1) = 1 := by decide
    have hw11 : wrapInt32 1 = 1 := by decide
    have hwl : wrapInt64 ((["data"] : List String).length : Int) = 1 := by decide
    have hwl1 : wrapInt64 1 = 1 := by decide
    have hargs : SetOrReplaceArg [] "offset" (toString (1 : Int)) = [("offset", "1")] := by
      decide
    simp only [AsyncForwardList.runOps, AsyncForwardList.applyOp, AsyncForwardList.begin_,
      AsyncForwardList.Fetch, AsyncForwardList.mk_, hw0, hw32, List_fetch, Option.some_bind]
    rw [if_neg (by decide)]
    simp only [h1, onePageOfTwo]
    rw [if_neg (by simp [AsyncForwardList.HaveCurrent, hwl1])]
    dsimp only
    unfold AsyncForwardList.Next
    rw [if_pos (by simp [AsyncForwardList.HaveCurrent, hwl1])]
    dsimp only
    simp only [hw1, hwl]
    rw [if_pos (by decide), if_neg (by decide)]
    simp only [AsyncForwardList.Fetch, hw1, hw11, List_fetch]
    rw [if_pos (by decide)]
    simp only [Option.getD_none, hargs, h2, onePageOfTwo]
    rw [if_neg (by simp [AsyncForwardList.HaveCurrent, hwl1])]
    simp [requestSummary, Request.Create, withBearer, refreshRequest, StringMap.find_set_self,
      sampleWorld, sampleAuth, AuthInfo.mk_, AuthInfo.SetToken, AuthInfo.GetToken,
      AuthInfo.GetKey, AuthInfo.GetSecret, StringMap.find]
  refine ⟨?_, ?_⟩
  · rw [hfn, hlist]
    exact key _ (by decide)
  · rw [hlist]
    exact key _ (by decide)

/-- Claim C29 as amended: every fetch of a list returned by `List` on a
resource, in whatever state the list and the credential are, first executes
a GET request to the URL of the resource with the headers that were built
from the credential when the list was created, which the closure captured;
every later request of that fetch is a token refresh or a replay that
differs from the first request at most in its `Authorization` header. -/
theorem page_requests_carry_captured_headers {T : Type} (ext : Externals)
    (parseList : Reply → Except String (ListReturnMapper T)) (res : ResourceImpl)
    (filter : Option StringMap) (lp : Option ListParameters) (w0 : World)
    (s : AsyncForwardList T ListEnv) :
    ∃ first rest,
      (AsyncForwardList.Fetch (ListHandle.fetch_fn ext parseList (res.List filter lp w0))
          s).2.fetch_env_.world.log = s.fetch_env_.world.log ++ first :: rest
      ∧ first.url = res.resource_url_ ∧ first.type = RequestType.GET
      ∧ first.headers = (ToHeaders w0.auth).getD []
      ∧ ∀ q ∈ rest, q.url = refreshUrl
          ∨ (q.url = first.url ∧ q.type = first.type ∧ q.args = first.args
              ∧ q.body = first.body
              ∧ ∀ k, k ≠ "Authorization" → q.headers.find k = first.headers.find k) := by
  rw [Fetch_env]
  unfold ListHandle.fetch_fn ResourceImpl.List
  dsimp only
  rw [List_fetch_world]
  unfold DealWithErrorsAndAuth
  obtain ⟨rest, hlog, hall⟩ := loop_log_all ext
    (fun q => q.url = refreshUrl
      ∨ (q.url = res.resource_url_ ∧ q.type = RequestType.GET
          ∧ q.args = (Request.Create res.resource_url_ RequestType.GET none
              (if wrapInt32 (wrapInt64 (s.offset_ + s.current_)) ≠ 0 then
                some (SetOrReplaceArg (s.fetch_env_.args.getD []) "offset"
                  (toString (wrapInt32 (wrapInt64 (s.offset_ + s.current_)))))
               else s.fetch_env_.args) (ToHeaders w0.auth)).args
          ∧ q.body = none
          ∧ ∀ k, k ≠ "Authorization" → q.headers.find k = ((ToHeaders w0.auth).getD []).find k))
    (fun a => Or.inl rfl)
    (fun q tok hq => by
      rcases hq with hq | ⟨h1, h2, h3, h4, h5⟩
      · exact Or.inl hq
      · refine Or.inr ⟨h1, h2, h3, h4, ?_⟩
        intro k hk
        show (q.headers.set "Authorization" ("Bearer " ++ tok)).find k = _
        rw [StringMap.find_set_other _ _ _ _ hk]
        exact h5 k hk)
    _ 0
    (Request.Create res.resource_url_ RequestType.GET none
      (if wrapInt32 (wrapInt64 (s.offset_ + s.current_)) ≠ 0 then
        some (SetOrReplaceArg (s.fetch_env_.args.getD []) "offset"
          (toString (wrapInt32 (wrapInt64 (s.offset_ + s.current_)))))
       else s.fetch_env_.args) (ToHeaders w0.auth))
    s.fetch_env_.world (le_refl _) (Or.inr ⟨rfl, rfl, rfl, rfl, fun _ _ => rfl⟩)
  exact ⟨_, rest, hlog, rfl, rfl, rfl, hall⟩

end scg_api
